import Mathlib

/-!
Chatroom core of anamalala-api.

A shallow embedding of the two stateful pieces of the chatroom component:

* the comment-tree fetcher of `internal/services/chatroom-service.go`
  (`FetchPostsComments`, `CommentWorker.Start`, `fetchCommentsWithReplies`,
  `fetchNestedReplies`) together with the repository calls it issues
  (`internal/repositories/mongodb/comment-repository.go`, `post-repository.go`);
* the WebSocket connection registry of `internal/handlers/chatroom-handler.go`
  (`registerClient`, `unregisterClient`, `broadcastMessage`);
* the write operations of `ChatroomService` (`CreatePost`, `CommentPost`, `ReplayComment`,
  `LikePost`, `LikeComment`, `DeletePost`, `DeleteComment`) over the post, comment and user
  repositories, as functions from the stores before the call to the stores after it.

Conventions of the embedding:

* `time.Time` values are instants counted as natural numbers; an absent (or zero,
  `omitempty`) `deleted_at` is `none`.
* Go slices are lists; a nil slice and an empty slice are both `[]`.
* A `*websocket.Conn` is represented by its address, so equality of connections is
  pointer identity.
* A Go `map[string][]*websocket.Conn` is the list of its entries; a read returns the
  first entry with the key, and the map operations keep one entry per key.
* A MongoDB collection is the list of its stored documents in natural order, together
  with the set of queries on which the driver reports an error.
* The instant returned by `time.Now()` and the identifier returned by
  `primitive.NewObjectID().Hex()` are arguments of the operation that asks for them.
-/

namespace Anamalala

/-! ## Data model (`internal/models`) -/

/-- Author of a post or comment (`models.Author`). -/
structure Author where
  Name : String
  ID : String
deriving DecidableEq

/-- Comment on a post or on another comment (`models.Comment`). -/
structure Comment where
  ID : String
  ReferenceID : String
  UserID : String
  Author : Author
  Content : String
  CreatedAt : Nat
  UpdatedAt : Nat
  DeletedAt : Option Nat
  Comments : List Comment
  Likes : Int
  Reference : String
  LikedUserId : List String

/-- Post of the chat room (`models.Post`); `Typ` is the field `Type`. The field `Likes` is
an `int` in Go; it is kept as an integer, on which the additions and subtractions of the
code are the integer ones as long as the result stays inside the range of `int`. The
statements about an arbitrary stored counter say where that is the case. -/
structure Post where
  ID : String
  UserID : String
  Author : Author
  Content : String
  Typ : String
  Comments : List Comment
  CreatedAt : Nat
  UpdatedAt : Nat
  Likes : Int
  LikedUserId : List String

/-- Stored post document: the `Post` fields plus the `deleted_at` field that
`PostRepository.Delete` sets and `FindByID` filters on. -/
structure PostDoc where
  post : Post
  deleted_at : Option Nat

/-- The zero value `models.Post{}`. -/
def Post.zero : Post :=
  { ID := "", UserID := "", Author := ⟨"", ""⟩, Content := "", Typ := "", Comments := [],
    CreatedAt := 0, UpdatedAt := 0, Likes := 0, LikedUserId := [] }

mutual
/-- Number of comments in the tree rooted at a comment (itself included). -/
def Comment.count : Comment → Nat
  | ⟨_, _, _, _, _, _, _, _, cs, _, _, _⟩ => 1 + countAll cs
/-- Number of comments in a forest of comment trees. -/
def countAll : List Comment → Nat
  | [] => 0
  | c :: cs => c.count + countAll cs
end

/-! ## The driver (`mongo.Collection.Find` with sort, skip and limit) -/

/-- Two's-complement wrap of an `int64` result. -/
def wrap64 (x : Int) : Int := (x + 2 ^ 63) % 2 ^ 64 - 2 ^ 63

/-- Result of a `Find` whose filter and sort have already been applied to give `sorted`:
the driver fails when `fails` holds or when the skip is negative; a limit of `0` means
no limit and a negative limit means its absolute value. -/
def findPage {α : Type} (sorted : List α) (fails : Bool) (skip limit : Int) :
    Except String (List α) :=
  if fails || decide (skip < 0) then .error "find failed"
  else
    let rest := sorted.drop skip.toNat
    .ok (if limit = 0 then rest else rest.take limit.natAbs)

/-- The sort `bson.M{"created_at": 1}` (oldest first); documents with equal
`created_at` keep their natural order. -/
def sortOldestFirst (cs : List Comment) : List Comment :=
  cs.insertionSort (fun a b => a.CreatedAt ≤ b.CreatedAt)

/-! ## `CommentRepository` (`internal/repositories/mongodb/comment-repository.go`) -/

/-- The comments collection: stored documents, and the listing queries
`(reference, reference_id)` on which the driver returns an error (connection failure,
expired context). The other three fields say when the driver fails in `FindOne` and
`UpdateOne` on a document id and in `InsertOne`; by default it does not. -/
structure CommentRepository where
  collection : List Comment
  findErr : String → String → Bool
  findOneErr : String → Bool := fun _ => false
  updateErr : String → Bool := fun _ => false
  insertErr : Bool := false

/-- The filter `{reference_id: id, reference: ref, deleted_at: nil}`. -/
def matchesRef (ref id : String) (c : Comment) : Bool :=
  c.ReferenceID == id && c.Reference == ref && c.DeletedAt.isNone

/-- Shared body of `ListByPostID` and `ListByCommentID`, which differ only in the
`reference` value of the filter. -/
def CommentRepository.listByRef (r : CommentRepository) (ref id : String) (page limit : Int) :
    Except String (List Comment × Int) :=
  let found := r.collection.filter (matchesRef ref id)
  match findPage (sortOldestFirst found) (r.findErr ref id) (wrap64 ((page - 1) * limit)) limit with
  | .error e => .error e
  | .ok comments => .ok (comments, found.length)

/-- The method `CommentRepository.ListByPostID`. -/
def CommentRepository.ListByPostID (r : CommentRepository) (postID : String) (page limit : Int) :
    Except String (List Comment × Int) :=
  r.listByRef "post" postID page limit

/-- The method `CommentRepository.ListByCommentID`. -/
def CommentRepository.ListByCommentID (r : CommentRepository) (postID : String)
    (page limit : Int) : Except String (List Comment × Int) :=
  r.listByRef "comment" postID page limit

/-! ## The fetcher (`internal/services/chatroom-service.go`) -/

/-- The method `fetchNestedReplies`: the error of the listing call is discarded, leaving the
nil slice. -/
def fetchNestedReplies (commentID : String) (commentRepo : CommentRepository) : List Comment :=
  match commentRepo.ListByCommentID commentID 0 0 with
  | .ok (replies, _) => replies
  | .error _ => []

/-- The method `fetchCommentsWithReplies`: lists the comments of the post, sets the `Comments` of
each to `fetchNestedReplies`, and stores the result in `post.Comments`. -/
def fetchCommentsWithReplies (post : Post) (commentRepo : CommentRepository) : Post :=
  let comments : List Comment :=
    match commentRepo.ListByPostID post.ID 0 0 with
    | .ok (comments, _) => comments
    | .error _ => []
  { post with
    Comments := comments.map (fun c => { c with Comments := fetchNestedReplies c.ID commentRepo }) }

/-- Stored, non-deleted comments whose chain of parent references leads to the given
parent, in depth-first order; `fuel` bounds the depth that is followed. -/
def storedUnder (docs : List Comment) : Nat → String → String → List Comment
  | 0, _, _ => []
  | fuel + 1, ref, id =>
    (docs.filter (matchesRef ref id)).foldr
      (fun c acc => c :: (storedUnder docs fuel "comment" c.ID ++ acc)) []

/-! ## The worker pool of `FetchPostsComments`

The goroutines of one call are the caller (`main`) and the workers it starts. The
state below is what they share: the backing array of `posts`, the buffered channel
`jobs`, and the wait group, whose counter is the number of workers that are not yet
`done`. A step of the pool is one step of one goroutine that is not blocked; which
goroutine moves next is chosen by a scheduler that the results quantify over. -/

/-- State of one `CommentWorker` goroutine; the worker at position `k` of the pool has
`ID = k + 1`. A `busy` worker has received `CommentJob{Post: &posts[job]}` and has not
yet stored the comments. -/
inductive WorkerState where
  | idle
  | busy (job : Nat)
  | done
deriving DecidableEq

/-- Position of the calling goroutine inside `FetchPostsComments`. -/
inductive MainPC where
  | spawning (w : Int)
  | sending (i : Nat)
  | waiting
  | returned
deriving DecidableEq

/-- Goroutines of one call. -/
inductive Actor where
  | main
  | worker (k : Nat)
deriving DecidableEq

/-- Shared state of one `FetchPostsComments` call. -/
structure PoolState where
  posts : List Post
  jobs : List Nat
  closed : Bool
  workers : List WorkerState
  pc : MainPC

/-- One step of the caller, `none` when it is blocked or has returned:
`for w := 1; w <= numWorkers; w++` starts a worker (after `wg.Add(1)`);
`for i := range posts` sends job `i`, which never blocks because the channel has
capacity `len(posts)`; then `close(jobs)`; then `wg.Wait()` passes once every worker has
called `wg.Done`. -/
def mainStep (numWorkers : Int) (s : PoolState) : Option PoolState :=
  match s.pc with
  | .spawning w =>
    if w ≤ numWorkers then
      some { s with workers := s.workers ++ [.idle], pc := .spawning (w + 1) }
    else some { s with pc := .sending 0 }
  | .sending i =>
    if i < s.posts.length then some { s with jobs := s.jobs ++ [i], pc := .sending (i + 1) }
    else some { s with closed := true, pc := .waiting }
  | .waiting => if s.workers.all (fun w => w == .done) then some { s with pc := .returned } else none
  | .returned => none

/-- One step of worker `k` (`CommentWorker.Start`), `none` when it is blocked or done:
`for job := range w.Jobs` receives the oldest job, or leaves the loop and runs
`wg.Done` when the channel is closed and drained; a received job is completed by
`fetchCommentsWithReplies(job.Post, commentRepo)`, which writes through the pointer. -/
def workerStep (commentRepo : CommentRepository) (s : PoolState) (k : Nat) : Option PoolState :=
  match s.workers[k]? with
  | some .idle =>
    match s.jobs with
    | j :: rest => some { s with jobs := rest, workers := s.workers.set k (.busy j) }
    | [] => if s.closed then some { s with workers := s.workers.set k .done } else none
  | some (.busy j) =>
    some { s with
      posts := s.posts.modify (fun p => fetchCommentsWithReplies p commentRepo) j,
      workers := s.workers.set k .idle }
  | _ => none

/-- One step of the chosen goroutine. -/
def step (numWorkers : Int) (commentRepo : CommentRepository) (s : PoolState) :
    Actor → Option PoolState
  | .main => mainStep numWorkers s
  | .worker k => workerStep commentRepo s k

/-- The goroutines that exist in a state. -/
def actors (s : PoolState) : List Actor :=
  .main :: (List.range s.workers.length).map .worker

/-- The states reachable in one step, one for each goroutine that is not blocked. -/
def successors (numWorkers : Int) (commentRepo : CommentRepository) (s : PoolState) :
    List PoolState :=
  (actors s).filterMap (step numWorkers commentRepo s)

/-- Runs the pool for at most `fuel` steps; at each step the scheduler `sched` picks
one of the goroutines that can move. The run stops early only when no goroutine can
move. -/
def runPool (numWorkers : Int) (commentRepo : CommentRepository) (sched : Nat → Nat) :
    Nat → PoolState → PoolState
  | 0, s => s
  | fuel + 1, s =>
    match successors numWorkers commentRepo s with
    | [] => s
    | s' :: rest =>
      runPool numWorkers commentRepo sched fuel
        (((s' :: rest)[sched fuel % (rest.length + 1)]?).getD s')

/-- Number of steps after which every run of the pool has finished. -/
def poolFuel (posts : List Post) (numWorkers : Int) : Nat :=
  2 * numWorkers.toNat + 3 * posts.length + 3

/-- The function `FetchPostsComments` under the scheduler `sched`: the slice `posts` as it is when
the caller returns, `none` if the caller has not returned after `poolFuel` steps. -/
def FetchPostsComments (sched : Nat → Nat) (posts : List Post) (numWorkers : Int)
    (commentRepo : CommentRepository) : Option (List Post) :=
  let s := runPool numWorkers commentRepo sched (poolFuel posts numWorkers)
    { posts := posts, jobs := [], closed := false, workers := [], pc := .spawning 1 }
  if s.pc = .returned then some s.posts else none



/-! ## Invariant and termination measure of the worker pool -/

/-- Steps a worker can still take without new jobs. -/
def workerMeasure : WorkerState → Nat
  | .idle => 1
  | .busy _ => 2
  | .done => 0

/-- Steps the caller still takes, counting three for every job not yet sent. -/
def mainMeasure (numWorkers : Int) (n : Nat) : MainPC → Nat
  | .spawning w => 2 * (numWorkers + 1 - w).toNat + 3 * n + 3
  | .sending i => 3 * (n - i) + 2
  | .waiting => 1
  | .returned => 0

/-- Number of steps left in any run from `s`. -/
def poolMeasure (numWorkers : Int) (s : PoolState) : Nat :=
  mainMeasure numWorkers s.posts.length s.pc + 2 * s.jobs.length
    + (s.workers.map workerMeasure).sum

/-- Jobs sent so far, read off the position of the caller. -/
def sentOf (n : Nat) : MainPC → Nat
  | .spawning _ => 0
  | .sending i => i
  | .waiting => n
  | .returned => n

/-- Invariant of the pool started on the batch `P`; `r` is the number of jobs received
so far. -/
structure PoolInv (P : List Post) (numWorkers : Int) (repo : CommentRepository)
    (s : PoolState) (r : Nat) : Prop where
  len : s.posts.length = P.length
  posts_eq : ∀ i p, P[i]? = some p → s.posts[i]? =
    some (if i < r ∧ WorkerState.busy i ∉ s.workers then fetchCommentsWithReplies p repo else p)
  jobs_eq : s.jobs = List.range' r (sentOf P.length s.pc - r)
  r_le : r ≤ sentOf P.length s.pc
  sent_le : sentOf P.length s.pc ≤ P.length
  busy_lt : ∀ j, WorkerState.busy j ∈ s.workers → j < r
  busy_uniq : ∀ (k k' j : Nat), s.workers[k]? = some (WorkerState.busy j) →
    s.workers[k']? = some (WorkerState.busy j) → k = k'
  closed_iff : s.closed = true ↔ (s.pc = .waiting ∨ s.pc = .returned)
  done_all : WorkerState.done ∈ s.workers → r = P.length
  returned_done : s.pc = .returned → ∀ w ∈ s.workers, w = WorkerState.done
  spawn_pos : ∀ w, s.pc = .spawning w → 1 ≤ w ∧ (1 < w → s.workers ≠ [])
  started : (∀ w, s.pc ≠ .spawning w) → 1 ≤ numWorkers → s.workers ≠ []
  no_workers : numWorkers < 1 → s.workers = []
  none_received : s.workers = [] → r = 0

/-! ## `PostRepository` (`internal/repositories/mongodb/post-repository.go`) -/

/-- The posts collection: stored documents, whether the driver fails on the unfiltered
`Find` of `List`, and the ids on which it fails in `FindOne`. The other two fields say
when the driver fails in `UpdateOne` on a document id and in `InsertOne`; by default it
does not. -/
structure PostRepository where
  collection : List PostDoc
  findErr : Bool
  findOneErr : String → Bool
  updateErr : String → Bool := fun _ => false
  insertErr : Bool := false

/-- The sort `bson.M{"created_at": -1}` (newest first). -/
def sortNewestFirst (ds : List PostDoc) : List PostDoc :=
  ds.insertionSort (fun a b => b.post.CreatedAt ≤ a.post.CreatedAt)

/-- The method `PostRepository.FindByID`: the first document with the id and no `deleted_at`; when
there is none (`mongo.ErrNoDocuments`) the zero post is returned without an error. -/
def PostRepository.FindByID (r : PostRepository) (id : String) : Except String Post :=
  if r.findOneErr id then .error "find failed"
  else
    match r.collection.find? (fun d => d.post.ID == id && d.deleted_at.isNone) with
    | some d => .ok d.post
    | none => .ok Post.zero

/-- The method `PostRepository.List`: the filter is empty, so every stored document is listed. -/
def PostRepository.List (r : PostRepository) (page limit : Int) :
    Except String (List Post × Int) :=
  match findPage (sortNewestFirst r.collection) r.findErr (wrap64 ((page - 1) * limit)) limit with
  | .error e => .error e
  | .ok docs => .ok (docs.map (fun d => d.post), r.collection.length)

/-! ## Users (`internal/models/user-model.go`, `user-repository.go`) -/

/-- User of the system (`models.User`). -/
structure User where
  ID : String
  Name : String
  Province : String
  Contact : String
  Password : String
  Role : String
  Active : Bool
  CreatedAt : Nat
  UpdatedAt : Nat
  LastLoginAt : Nat
  IsLoggedIn : Bool
  ResetCode : String
  ResetCodeExpiry : Nat

/-- The zero value `models.User{}`. -/
def User.zero : User :=
  { ID := "", Name := "", Province := "", Contact := "", Password := "", Role := "",
    Active := false, CreatedAt := 0, UpdatedAt := 0, LastLoginAt := 0, IsLoggedIn := false,
    ResetCode := "", ResetCodeExpiry := 0 }

/-- The users collection: stored documents, and the ids on which the driver fails in
`FindOne`. -/
structure UserRepository where
  collection : List User
  findOneErr : String → Bool

/-- The method `UserRepository.FindByID`: the first document with the id; when there is
none (`mongo.ErrNoDocuments`) the zero user is returned without an error. -/
def UserRepository.FindByID (r : UserRepository) (id : String) : Except String User :=
  if r.findOneErr id then .error "find failed"
  else
    match r.collection.find? (fun u => u.ID == id) with
    | some u => .ok u
    | none => .ok User.zero

/-- The repositories of a `ChatroomService`. -/
structure ChatroomService where
  postRepo : PostRepository
  commentRepo : CommentRepository
  userRepo : UserRepository

/-- The method `ChatroomService.GetAllPosts`; the outer `none` means that the call has not returned. -/
def ChatroomService.GetAllPosts (s : ChatroomService) (sched : Nat → Nat) (page limit : Int) :
    Option (Except String (List Post × Int)) :=
  match s.postRepo.List page limit with
  | .error e => some (.error e)
  | .ok (posts, total) =>
    match FetchPostsComments sched posts posts.length s.commentRepo with
    | none => none
    | some posts => some (.ok (posts, total))

/-- The method `ChatroomService.GetPostByID`; the outer `none` means that the call has not returned. -/
def ChatroomService.GetPostByID (s : ChatroomService) (sched : Nat → Nat) (id : String) :
    Option (Except String Post) :=
  match s.postRepo.FindByID id with
  | .error e => some (.error e)
  | .ok post =>
    match FetchPostsComments sched [post] 1 s.commentRepo with
    | none => none
    | some posts => some (.ok ((posts.find? (fun p => p.ID == post.ID)).getD post))

/-- The repository in which the listing query `(ref, id)` fails, everything else being
as in `r`. -/
def CommentRepository.failOn (r : CommentRepository) (ref id : String) : CommentRepository :=
  { r with findErr := fun ref' id' => (ref' == ref && id' == id) || r.findErr ref' id' }

/-- The oldest-first listing of the stored, non-deleted comments whose parent is
`(ref, id)`. -/
def oldestFirst (docs : List Comment) (ref id : String) : List Comment :=
  sortOldestFirst (docs.filter (matchesRef ref id))

/-! ## Repository writes

Every write takes the instant `now` that `time.Now()` returns and, for an insert, the
identifier `newID` that `primitive.NewObjectID().Hex()` returns. A write that the driver
reports as failed leaves the collection as it was. -/

/-- The effect of `UpdateOne(ctx, filter, update)`: the update is applied to the first
document that matches the filter, if there is one. -/
def updateOne {α : Type} (filter : α → Bool) (update : α → α) : List α → List α
  | [] => []
  | d :: ds => if filter d then update d :: ds else d :: updateOne filter update ds

/-- The zero value `models.Comment{}`. -/
def Comment.zero : Comment :=
  { ID := "", ReferenceID := "", UserID := "", Author := ⟨"", ""⟩, Content := "", CreatedAt := 0,
    UpdatedAt := 0, DeletedAt := none, Comments := [], Likes := 0, Reference := "",
    LikedUserId := [] }

/-- The method `CommentRepository.Create`: the identifier and the two dates are set on
the copy that is inserted; only the error is returned. -/
def CommentRepository.Create (r : CommentRepository) (newID : String) (now : Nat)
    (comment : Comment) : Option String × CommentRepository :=
  let comment := { comment with ID := newID, CreatedAt := now, UpdatedAt := now }
  if r.insertErr then (some "insert failed", r)
  else (none, { r with collection := r.collection ++ [comment] })

/-- The method `CommentRepository.FindByID`: the first document with the id and no
`deleted_at`; when there is none the zero comment is returned without an error. -/
def CommentRepository.FindByID (r : CommentRepository) (id : String) : Except String Comment :=
  if r.findOneErr id then .error "find failed"
  else
    match r.collection.find? (fun c => c.ID == id && c.DeletedAt.isNone) with
    | some c => .ok c
    | none => .ok Comment.zero

/-- The method `CommentRepository.Delete`: sets `deleted_at` and `updated_at` on the
document whose `_id` is `id`. -/
def CommentRepository.Delete (r : CommentRepository) (now : Nat) (id : String) :
    Option String × CommentRepository :=
  if r.updateErr id then (some "update failed", r)
  else
    (none, { r with
      collection := updateOne (fun c => c.ID == id)
        (fun c => { c with DeletedAt := some now, UpdatedAt := now }) r.collection })

/-- The call `result.Decode(comment)` of `CommentRepository.RemoveLike`, which hands the
struct to the driver by value: `Decode` accepts only a pointer or a map and returns an
error for anything else, whatever document was found. -/
def decodeIntoValue (_found : Option Comment) : Except String Comment :=
  .error "argument to Decode must be a pointer or a map"

/-- The method `CommentRepository.RemoveLike`: the method returns the error of `Decode`.
The statements after that check floor the counter of the local struct and send the struct
itself as the update document; none of them removes the user from `likeduserid`. -/
def CommentRepository.RemoveLike (r : CommentRepository) (now : Nat)
    (commentObjectID _userObjectID : String) : Option String × CommentRepository :=
  match decodeIntoValue (r.collection.find? (fun c => c.ID == commentObjectID)) with
  | .error e => (some e, r)
  | .ok comment =>
    let comment := if 0 < comment.Likes then { comment with Likes := comment.Likes - 1 } else comment
    let comment := { comment with UpdatedAt := now }
    if r.updateErr commentObjectID then (some "update failed", r)
    else
      (none, { r with
        collection := updateOne (fun c => c.ID == commentObjectID) (fun _ => comment)
          r.collection })

/-- The method `CommentRepository.AddLike`: `$inc` of `likes` by one and `$push` of the
user onto `likeduserid`. The update document also names `updated_at`, a date, under both
operators; whether the server accepts the document is the oracle `updateErr`. -/
def CommentRepository.AddLike (r : CommentRepository) (_now : Nat)
    (commentObjectID userObjectID : String) : Option String × CommentRepository :=
  if r.updateErr commentObjectID then (some "update failed", r)
  else
    (none, { r with
      collection := updateOne (fun c => c.ID == commentObjectID)
        (fun c => { c with Likes := c.Likes + 1, LikedUserId := c.LikedUserId ++ [userObjectID] })
        r.collection })

/-- The method `PostRepository.Create`: returns the post as it is inserted, also when the
insert fails. -/
def PostRepository.Create (r : PostRepository) (newID : String) (now : Nat) (post : Post) :
    (Post × Option String) × PostRepository :=
  let post := { post with
    ID := newID, CreatedAt := now, UpdatedAt := now, Comments := [], LikedUserId := [],
    Likes := 0 }
  if r.insertErr then ((post, some "insert failed"), r)
  else ((post, none), { r with collection := r.collection ++ [⟨post, none⟩] })

/-- The method `PostRepository.Update`: `$set` of every field of the post on the document
whose `_id` is `post.ID`; `deleted_at` is not a field of the post and stays. -/
def PostRepository.Update (r : PostRepository) (now : Nat) (post : Post) :
    Option String × PostRepository :=
  let post := { post with UpdatedAt := now }
  if r.updateErr post.ID then (some "update failed", r)
  else
    (none, { r with
      collection := updateOne (fun d => d.post.ID == post.ID) (fun d => { d with post := post })
        r.collection })

/-- The method `PostRepository.Delete`: sets `deleted_at` and `updated_at` on the document
whose `_id` is `id`. -/
def PostRepository.Delete (r : PostRepository) (now : Nat) (id : String) :
    Option String × PostRepository :=
  if r.updateErr id then (some "update failed", r)
  else
    (none, { r with
      collection := updateOne (fun d => d.post.ID == id)
        (fun d => { post := { d.post with UpdatedAt := now }, deleted_at := some now })
        r.collection })

/-- The method `PostRepository.AddLike`. -/
def PostRepository.AddLike (r : PostRepository) (now : Nat) (postID userId : String) :
    Option String × PostRepository :=
  match r.FindByID postID with
  | .error e => (some e, r)
  | .ok post =>
    r.Update now { post with Likes := post.Likes + 1, LikedUserId := post.LikedUserId ++ [userId] }

/-- The loop of `PostRepository.RemoveLike` over `post.LikedUserId`: an entry equal to
`userId` is cut out and the same position is examined again, any other entry is kept. -/
def removeUser (userId : String) : List String → List String
  | [] => []
  | x :: xs => if x = userId then removeUser userId xs else x :: removeUser userId xs

/-- The method `PostRepository.RemoveLike`. -/
def PostRepository.RemoveLike (r : PostRepository) (now : Nat) (postID userId : String) :
    Option String × PostRepository :=
  match r.FindByID postID with
  | .error e => (some e, r)
  | .ok post =>
    let post := if 0 < post.Likes then { post with Likes := post.Likes - 1 } else post
    r.Update now { post with LikedUserId := removeUser userId post.LikedUserId }

/-! ## `ChatroomService` write operations

Each operation returns its result together with the service over the repositories as
they are afterwards. -/

/-- The lookup `user, _ := s.userRepo.FindByID(ctx, userID)`, whose error is discarded. -/
def ChatroomService.userOrZero (s : ChatroomService) (userID : String) : User :=
  match s.userRepo.FindByID userID with
  | .ok user => user
  | .error _ => User.zero

/-- The method `ChatroomService.CreatePost`. -/
def ChatroomService.CreatePost (s : ChatroomService) (newID : String) (now : Nat) (post : Post) :
    Except String Post × ChatroomService :=
  match s.userRepo.FindByID post.UserID with
  | .error _ => (.error "autor não encontrado", s)
  | .ok user =>
    let post := { post with
      CreatedAt := now, UpdatedAt := now, Likes := 0, Author := ⟨user.Name, user.ID⟩ }
    match s.postRepo.Create newID now post with
    | ((_, some e), postRepo) => (.error e, { s with postRepo := postRepo })
    | ((post, none), postRepo) => (.ok post, { s with postRepo := postRepo })

/-- The method `ChatroomService.CommentPost`. -/
def ChatroomService.CommentPost (s : ChatroomService) (newID : String) (now : Nat)
    (referenceID : String) (comment : Comment) (authorID : String) :
    Except String Comment × ChatroomService :=
  match s.postRepo.FindByID referenceID with
  | .error _ => (.error "postagem não encontrada", s)
  | .ok _ =>
    match s.userRepo.FindByID authorID with
    | .error _ => (.error "usuario que comenta não encontrada", s)
    | .ok user =>
      let comment := { comment with
        ReferenceID := referenceID, UserID := authorID, CreatedAt := now, Likes := 0,
        Reference := "post", Author := ⟨user.Name, user.ID⟩ }
      match s.commentRepo.Create newID now comment with
      | (some e, commentRepo) => (.error e, { s with commentRepo := commentRepo })
      | (none, commentRepo) => (.ok comment, { s with commentRepo := commentRepo })

/-- The method `ChatroomService.ReplayComment`. -/
def ChatroomService.ReplayComment (s : ChatroomService) (newID : String) (now : Nat)
    (referenceID : String) (comment : Comment) (authorID : String) :
    Except String Comment × ChatroomService :=
  match s.commentRepo.FindByID referenceID with
  | .error _ => (.error "comentario não encontrado", s)
  | .ok _ =>
    match s.userRepo.FindByID authorID with
    | .error _ => (.error "usuario que comenta não encontrada", s)
    | .ok user =>
      let comment := { comment with
        ReferenceID := referenceID, UserID := authorID, CreatedAt := now, Likes := 0,
        Reference := "comment", Author := ⟨user.Name, user.ID⟩, Comments := [] }
      match s.commentRepo.Create newID now comment with
      | (some e, commentRepo) => (.error e, { s with commentRepo := commentRepo })
      | (none, commentRepo) => (.ok comment, { s with commentRepo := commentRepo })

/-- The method `ChatroomService.LikePost`; in the result `none` means that the call has
not returned. -/
def ChatroomService.LikePost (s : ChatroomService) (sched : Nat → Nat) (now : Nat)
    (postID userID : String) : Option (Except String Post) × ChatroomService :=
  match s.postRepo.FindByID postID with
  | .error e => (some (.error e), s)
  | .ok post =>
    let (err, postRepo, post) :=
      if post.LikedUserId.contains userID then
        let (err, postRepo) := s.postRepo.RemoveLike now postID userID
        (err, postRepo, { post with Likes := post.Likes - 1 })
      else
        let (err, postRepo) := s.postRepo.AddLike now postID userID
        (err, postRepo, { post with Likes := post.Likes + 1 })
    let s := { s with postRepo := postRepo }
    match err with
    | some e => (some (.error e), s)
    | none =>
      match FetchPostsComments sched [post] 2 s.commentRepo with
      | none => (none, s)
      | some posts =>
        (some (.ok (posts.foldl (fun acc p => if p.ID == post.ID then p else acc) post)), s)

/-- The method `ChatroomService.LikeComment`. -/
def ChatroomService.LikeComment (s : ChatroomService) (now : Nat)
    (commentID userID : String) : Option String × ChatroomService :=
  match s.commentRepo.FindByID commentID with
  | .error e => (some e, s)
  | .ok comment =>
    if comment.LikedUserId.contains userID then
      let (err, commentRepo) := s.commentRepo.RemoveLike now commentID userID
      (err, { s with commentRepo := commentRepo })
    else
      let (err, commentRepo) := s.commentRepo.AddLike now commentID userID
      (err, { s with commentRepo := commentRepo })

/-- The method `ChatroomService.DeletePost`. -/
def ChatroomService.DeletePost (s : ChatroomService) (now : Nat) (postID userID : String) :
    Option String × ChatroomService :=
  match s.postRepo.FindByID postID with
  | .error e => (some e, s)
  | .ok post =>
    let user := s.userOrZero userID
    if post.UserID != user.ID && user.Role != "admin" then
      (some "não autorizado a excluir esta postagem", s)
    else
      match s.commentRepo.Delete now postID with
      | (some e, commentRepo) => (some e, { s with commentRepo := commentRepo })
      | (none, commentRepo) =>
        let (err, postRepo) := s.postRepo.Delete now postID
        (err, { s with commentRepo := commentRepo, postRepo := postRepo })

/-- The method `ChatroomService.DeleteComment`. -/
def ChatroomService.DeleteComment (s : ChatroomService) (now : Nat)
    (commentID userID : String) : Option String × ChatroomService :=
  match s.commentRepo.FindByID commentID with
  | .error e => (some e, s)
  | .ok comment =>
    let user := s.userOrZero userID
    if user.Role != "admin" && comment.UserID != userID then
      (some "não autorizado a excluir este comentário", s)
    else
      let (err, commentRepo) := s.commentRepo.Delete now commentID
      (err, { s with commentRepo := commentRepo })

/-! ## Concrete stores used in the examples -/

/-- A stored comment with the given id, parent and creation time. -/
def mkComment (id ref refID : String) (createdAt : Nat) : Comment :=
  { ID := id, ReferenceID := refID, UserID := "u1", Author := ⟨"Ana", "u1"⟩, Content := "text",
    CreatedAt := createdAt, UpdatedAt := createdAt, DeletedAt := none, Comments := [],
    Likes := 0, Reference := ref, LikedUserId := [] }

/-- A stored post with the given id. -/
def mkPost (id : String) : Post :=
  { ID := id, UserID := "u1", Author := ⟨"Ana", "u1"⟩, Content := "text", Typ := "text",
    Comments := [], CreatedAt := 5, UpdatedAt := 5, Likes := 0, LikedUserId := [] }

/-- A stored user with the given id, name and role. -/
def mkUser (id name role : String) : User :=
  { User.zero with ID := id, Name := name, Role := role, Active := true, IsLoggedIn := true }

/-- Post `p` with comment `c1`, a reply `r1` to `c1`, and a reply `r2` to `r1`. -/
def deepRepo : CommentRepository :=
  { collection := [mkComment "c1" "post" "p" 1, mkComment "r1" "comment" "c1" 2,
      mkComment "r2" "comment" "r1" 3],
    findErr := fun _ _ => false }

/-- Post `p` with comments `c1` (older) and `c2` (newer) and one reply `r1` to `c1`; the
documents are stored in an order that is not the order of creation. -/
def scenarioService : ChatroomService :=
  { postRepo :=
      { collection := [⟨mkPost "q", none⟩, ⟨mkPost "p", none⟩], findErr := false,
        findOneErr := fun _ => false },
    commentRepo :=
      { collection := [mkComment "c2" "post" "p" 20, mkComment "r1" "comment" "c1" 30,
          mkComment "c1" "post" "p" 10],
        findErr := fun _ _ => false },
    userRepo := { collection := [mkUser "u1" "Ana" "user"], findOneErr := fun _ => false } }


/-- The service after the stored post with the given id has been replaced by `post`,
which is what `PostRepository.Update` does to the collection. -/
def ChatroomService.withStoredPost (s : ChatroomService) (postID : String) (post : Post) :
    ChatroomService :=
  { s with postRepo := { s.postRepo with
      collection := updateOne (fun x => x.post.ID == postID) (fun x => { x with post := post })
        s.postRepo.collection } }

/-- Reachability for the stored post `id`: the service states produced by a
`CreatePost` that stores the post under an identifier no stored post has, followed by
any number of `LikePost` calls made one after the other. -/
inductive LikeReachable (id : String) : ChatroomService → Prop where
  | created (s : ChatroomService) (now : Nat) (post : Post) :
      (∀ d ∈ s.postRepo.collection, d.post.ID ≠ id) →
        LikeReachable id (s.CreatePost id now post).2
  | like {s : ChatroomService} (sched : Nat → Nat) (now : Nat) (postID userID : String) :
      LikeReachable id s → LikeReachable id (s.LikePost sched now postID userID).2

/-- A service without stored posts or comments, with the users `u1` and `u2` and the
administrator `admin1`. -/
def emptyService : ChatroomService :=
  { postRepo := { collection := [], findErr := false, findOneErr := fun _ => false },
    commentRepo := { collection := [], findErr := fun _ _ => false },
    userRepo :=
      { collection := [mkUser "u1" "Ana" "user", mkUser "u2" "Rui" "user",
          mkUser "admin1" "Eva" "admin"],
        findOneErr := fun _ => false } }

/-- Post `p` of author `u1`, stored with like counter 1 and liked by `u1`, and comment
`c1` of author `u1` on it, stored with like counter 1 and liked by `u1`. -/
def likedService : ChatroomService :=
  { emptyService with
    postRepo :=
      { collection := [⟨{ mkPost "p" with Likes := 1, LikedUserId := ["u1"] }, none⟩],
        findErr := false, findOneErr := fun _ => false },
    commentRepo :=
      { collection := [{ mkComment "c1" "post" "p" 10 with Likes := 1, LikedUserId := ["u1"] }],
        findErr := fun _ _ => false } }

/-- Post `p` stored with like counter 0 although `u1` is in its liked-user list. -/
def staleCounterService : ChatroomService :=
  { emptyService with
    postRepo :=
      { collection := [⟨{ mkPost "p" with Likes := 0, LikedUserId := ["u1"] }, none⟩],
        findErr := false, findOneErr := fun _ => false } }

/-- The service after post `p` has been created by `u1`, liked by `u1`, liked by `u2`,
unliked by `u1` and liked by `u1` again. -/
def toggledService : ChatroomService :=
  (((((emptyService.CreatePost "p" 5 (mkPost "")).2.LikePost (fun _ => 0) 6 "p"
    "u1").2.LikePost (fun n => n) 7 "p" "u2").2.LikePost (fun _ => 1) 8 "p"
    "u1").2.LikePost (fun _ => 0) 9 "p" "u1").2

/-! ## The connection registry (`internal/handlers/chatroom-handler.go`) -/

/-- A `*websocket.Conn`, represented by its address: two connections are equal exactly
when they are the same object. -/
abbrev Conn := Nat

/-- The map `clients map[string][]*websocket.Conn`, as the list of its entries. -/
abbrev Clients := List (String × List Conn)

/-- The lookup `conns, ok := h.clients[userID]`. -/
def Clients.lookup : Clients → String → Option (List Conn)
  | [], _ => none
  | (k, v) :: m, userID => if k = userID then some v else Clients.lookup m userID

/-- The read `h.clients[userID]`, which is the nil slice for a missing key. -/
def Clients.get (m : Clients) (userID : String) : List Conn :=
  (m.lookup userID).getD []

/-- The assignment `h.clients[userID] = conns`. -/
def Clients.set : Clients → String → List Conn → Clients
  | [], userID, conns => [(userID, conns)]
  | (k, v) :: m, userID, conns =>
    if k = userID then (userID, conns) :: m else (k, v) :: Clients.set m userID conns

/-- The builtin `delete(h.clients, userID)`. -/
def Clients.delete : Clients → String → Clients
  | [], _ => []
  | (k, v) :: m, userID =>
    if k = userID then Clients.delete m userID else (k, v) :: Clients.delete m userID

/-- The part of `ChatroomHandler` that the registry operations touch: the `clients` map,
and the connections on which `Close` has been called, latest first. -/
structure ChatroomHandler where
  clients : Clients
  closedConns : List Conn

/-- The constructor `NewChatroomHandler`: the registry starts with an empty map. -/
def NewChatroomHandler : ChatroomHandler :=
  { clients := [], closedConns := [] }

/-- The method `registerClient`: the connection is appended to the list of the user. -/
def registerClient (h : ChatroomHandler) (userID : String) (conn : Conn) : ChatroomHandler :=
  { h with clients := h.clients.set userID (h.clients.get userID ++ [conn]) }

/-- The search `for i, c := range connections { if c == conn { ...; break } }`: the
position of the first entry identical to `conn`. -/
def firstIndexOf (conn : Conn) : List Conn → Option Nat
  | [] => none
  | c :: cs => if c = conn then some 0 else (firstIndexOf conn cs).map (· + 1)

/-- The method `unregisterClient`: the first entry identical to `conn` is closed and
removed, then the key is deleted if the list of the user is empty. -/
def unregisterClient (h : ChatroomHandler) (userID : String) (conn : Conn) : ChatroomHandler :=
  let connections := h.clients.get userID
  let h1 : ChatroomHandler :=
    match firstIndexOf conn connections with
    | some i =>
      { clients := h.clients.set userID (connections.eraseIdx i),
        closedConns := conn :: h.closedConns }
    | none => h
  if (h1.clients.get userID).length = 0 then
    { h1 with clients := h1.clients.delete userID }
  else h1

/-- The method `broadcastMessage`: the writes it attempts, as pairs of connection and payload.
`messageJSON` is the result of `json.Marshal(message)`, `none` when marshalling fails
and the function returns without writing. A failed write is only logged, so the
attempted writes do not depend on which writes fail. -/
def broadcastMessage (h : ChatroomHandler) (messageJSON : Option String) :
    List (Conn × String) :=
  match messageJSON with
  | none => []
  | some m => h.clients.flatMap (fun e => e.2.map (fun conn => (conn, m)))

/-- Registry states that `registerClient` and `unregisterClient` calls produce from the
empty registry. -/
inductive Reachable : ChatroomHandler → Prop where
  | init : Reachable NewChatroomHandler
  | register {h : ChatroomHandler} (userID : String) (conn : Conn) :
      Reachable h → Reachable (registerClient h userID conn)
  | unregister {h : ChatroomHandler} (userID : String) (conn : Conn) :
      Reachable h → Reachable (unregisterClient h userID conn)

/-- Number of entries, over all users, that are the connection `conn`. -/
def connCount (m : Clients) (conn : Conn) : Nat :=
  (m.map (fun e => e.2.count conn)).sum

/-- A registry in which the connection `7` has been registered twice for user `u`. -/
def twiceRegistered : ChatroomHandler :=
  registerClient (registerClient NewChatroomHandler "u" 7) "u" 7

/-! ## Broadcast with the outcome of every write -/

/-- One call `conn.WriteMessage(websocket.TextMessage, messageJSON)` made by a broadcast:
the key of the map entry, the connection, the payload, and whether the call returned an
error. -/
structure WriteAttempt where
  userID : String
  conn : Conn
  payload : String
  failed : Bool
deriving DecidableEq

/-- The inner loop of `broadcastMessage` over the connections of one user: every
connection is written to; an error is logged and the loop goes on. -/
def writeToConnections (userID messageJSON : String) (writeErr : Conn → Bool) :
    List Conn → List WriteAttempt
  | [] => []
  | conn :: rest =>
    ⟨userID, conn, messageJSON, writeErr conn⟩ ::
      writeToConnections userID messageJSON writeErr rest

/-- The method `broadcastMessage` with the transport made explicit: `writeErr conn` says
whether a write to `conn` returns an error. The result is the registry after the call and
the writes in the order in which they are attempted. -/
def broadcastMessageRun (h : ChatroomHandler) (messageJSON : Option String)
    (writeErr : Conn → Bool) : ChatroomHandler × List WriteAttempt :=
  match messageJSON with
  | none => (h, [])
  | some m => (h, h.clients.flatMap (fun e => writeToConnections e.1 m writeErr e.2))

/-- Registry states produced from the empty registry when every `registerClient` call
registers a connection that is not in the registry at that moment, as `HandleWebSocket`
does with the connection it has just upgraded. -/
inductive ReachableFresh : ChatroomHandler → Prop where
  | init : ReachableFresh NewChatroomHandler
  | register {h : ChatroomHandler} (userID : String) (conn : Conn) :
      ReachableFresh h → connCount h.clients conn = 0 →
        ReachableFresh (registerClient h userID conn)
  | unregister {h : ChatroomHandler} (userID : String) (conn : Conn) :
      ReachableFresh h → ReachableFresh (unregisterClient h userID conn)

/-- Users `A`, `B` and `C` with one connection each. -/
def threeUsers : ChatroomHandler :=
  registerClient (registerClient (registerClient NewChatroomHandler "A" 1) "B" 2) "C" 3

/-- The registry in which connection `7` has been registered for user `u` and for user
`v`. -/
def sharedConnection : ChatroomHandler :=
  registerClient (registerClient NewChatroomHandler "u" 7) "v" 7

/-! ## Slices with nil told apart from empty

The fetcher declares its results with `var comments models.Comments`, the nil slice, and
stores whatever the listing call hands back. The view below keeps what the rest of the
embedding identifies: `none` is the nil slice, `some cs` a slice that is not nil. -/

/-- A Go slice of comments in which the nil slice (`none`) is told apart from an empty
slice (`some []`). -/
abbrev CommentSlice := Option (List Comment)

/-- First result of `ListByPostID` and `ListByCommentID` for page 0 and limit 0: `nil`
when the method returns an error, otherwise the variable `comments` after
`cursor.All(ctx, &comments)`. For a cursor without documents the driver leaves the
variable nil or makes it empty, depending on its version; `emptyAsNil` says which. -/
def CommentRepository.listedSlice (r : CommentRepository) (emptyAsNil : Bool)
    (ref id : String) : CommentSlice :=
  match r.listByRef ref id 0 0 with
  | .error _ => none
  | .ok (comments, _) => if comments.isEmpty && emptyAsNil then none else some comments

/-- The value that `fetchNestedReplies` returns and `fetchCommentsWithReplies` assigns to
`comments[i].Comments`. -/
def fetchedReplies (emptyAsNil : Bool) (commentID : String) (commentRepo : CommentRepository) :
    CommentSlice :=
  commentRepo.listedSlice emptyAsNil "comment" commentID

/-- The value that `fetchCommentsWithReplies` assigns to `post.Comments`: the loop over
the indices of `comments` leaves a nil slice nil. -/
def fetchedComments (emptyAsNil : Bool) (post : Post) (commentRepo : CommentRepository) :
    CommentSlice :=
  (commentRepo.listedSlice emptyAsNil "post" post.ID).map
    (fun comments =>
      comments.map (fun c => { c with Comments := fetchNestedReplies c.ID commentRepo }))

/-- The scenario service with the users `u1`, `u2` and `admin1`. -/
def scenarioWithUsers : ChatroomService :=
  { scenarioService with userRepo := emptyService.userRepo }

/-! ## The mutating handlers (`internal/handlers/chatroom-handler.go`)

A handler receives the value that the authentication middleware has put under `userID`
(`none` when there is none), the path parameter `id`, and the body as `ShouldBindJSON`
decodes it (`none` when the decoding fails). Its result is the HTTP status, the messages
it hands to `broadcastMessage`, in order, and the service as it is afterwards. -/

/-- The payloads that the handlers put into a `WebSocketMessage`: the created post, or a
`gin.H` with the keys named by the fields. -/
inductive Payload where
  | createdPost (post : Post)
  | deletedPost (postID : String)
  | commentOnPost (comment : Comment) (postID : String)
  | replyToComment (comment : Comment) (referenceId : String)
  | deletedComment (commentID reference_id : String)
  | likedComment (commentID reference reference_id userID : String)
  | likedPost (post : Post) (postID userID : String)

/-- The struct `WebSocketMessage`. -/
structure WebSocketMessage where
  Typ : String
  Payload : Payload

/-- The constant `MsgTypeNewPost`. -/
def MsgTypeNewPost : String := "new_post"

/-- The constant `MsgTypeDeletePost`. -/
def MsgTypeDeletePost : String := "delete_post"

/-- The constant `MsgTypeNewComment`. -/
def MsgTypeNewComment : String := "new_comment"

/-- The constant `MsgTypeDelComment`. -/
def MsgTypeDelComment : String := "delete_comment"

/-- The constant `MsgTypeLikePost`. -/
def MsgTypeLikePost : String := "like_post"

/-- The constant `MsgTypeLikeCmnt`. -/
def MsgTypeLikeCmnt : String := "like_comment"

/-- What a handler has done when it returns. -/
structure Response where
  status : Nat
  broadcasts : List WebSocketMessage
  service : ChatroomService

/-- The handler `ChatroomHandler.CreatePost`; the body is the `content` of the request. -/
def ChatroomHandler.CreatePost (chatroomService : ChatroomService) (newID : String) (now : Nat)
    (userID : Option String) (body : Option String) : Response :=
  match userID with
  | none => ⟨401, [], chatroomService⟩
  | some userID =>
    match body with
    | none => ⟨400, [], chatroomService⟩
    | some content =>
      let post := { Post.zero with Content := content }
      if post.Content == "" then ⟨400, [], chatroomService⟩
      else
        let post := { post with UserID := userID }
        match chatroomService.CreatePost newID now post with
        | (.error _, service) => ⟨500, [], service⟩
        | (.ok createdPost, service) =>
          ⟨201, [⟨MsgTypeNewPost, .createdPost createdPost⟩], service⟩

/-- The handler `ChatroomHandler.DeletePost`. -/
def ChatroomHandler.DeletePost (chatroomService : ChatroomService) (now : Nat)
    (userID : Option String) (postID : String) : Response :=
  match userID with
  | none => ⟨401, [], chatroomService⟩
  | some userID =>
    if postID == "" then ⟨400, [], chatroomService⟩
    else
      match chatroomService.DeletePost now postID userID with
      | (some _, service) => ⟨500, [], service⟩
      | (none, service) => ⟨200, [⟨MsgTypeDeletePost, .deletedPost postID⟩], service⟩

/-- The handler `ChatroomHandler.CommentPost`. -/
def ChatroomHandler.CommentPost (chatroomService : ChatroomService) (newID : String) (now : Nat)
    (userID : Option String) (postID : String) (body : Option Comment) : Response :=
  match userID with
  | none => ⟨401, [], chatroomService⟩
  | some userID =>
    if postID == "" then ⟨400, [], chatroomService⟩
    else
      match body with
      | none => ⟨400, [], chatroomService⟩
      | some comment =>
        if comment.Content == "" then ⟨400, [], chatroomService⟩
        else
          let comment := { comment with
            UserID := userID, ReferenceID := postID, Reference := "post" }
          match chatroomService.CommentPost newID now postID comment comment.UserID with
          | (.error _, service) => ⟨500, [], service⟩
          | (.ok createdComment, service) =>
            ⟨201, [⟨MsgTypeNewComment, .commentOnPost createdComment postID⟩], service⟩

/-- The handler `ChatroomHandler.ReplayComment`. -/
def ChatroomHandler.ReplayComment (chatroomService : ChatroomService) (newID : String)
    (now : Nat) (userID : Option String) (commentID : String) (body : Option Comment) :
    Response :=
  match userID with
  | none => ⟨401, [], chatroomService⟩
  | some userID =>
    if commentID == "" then ⟨400, [], chatroomService⟩
    else
      match body with
      | none => ⟨400, [], chatroomService⟩
      | some comment =>
        if comment.Content == "" then ⟨400, [], chatroomService⟩
        else
          let comment := { comment with
            UserID := userID, ReferenceID := commentID, Reference := "comment" }
          match chatroomService.ReplayComment newID now commentID comment comment.UserID with
          | (.error _, service) => ⟨500, [], service⟩
          | (.ok createdComment, service) =>
            ⟨201, [⟨MsgTypeNewComment, .replyToComment createdComment commentID⟩], service⟩

/-- The method `ChatroomService.GetCommentID`. -/
def ChatroomService.GetCommentID (s : ChatroomService) (id : String) : Except String Comment :=
  match s.commentRepo.FindByID id with
  | .error e => .error e
  | .ok comment => .ok comment

/-- The handler `ChatroomHandler.DeleteComment`. -/
def ChatroomHandler.DeleteComment (chatroomService : ChatroomService) (now : Nat)
    (userID : Option String) (commentID : String) : Response :=
  match userID with
  | none => ⟨401, [], chatroomService⟩
  | some userID =>
    if commentID == "" then ⟨400, [], chatroomService⟩
    else
      match chatroomService.GetCommentID commentID with
      | .error _ => ⟨500, [], chatroomService⟩
      | .ok comment =>
        match chatroomService.DeleteComment now commentID userID with
        | (some _, service) => ⟨500, [], service⟩
        | (none, service) =>
          ⟨200, [⟨MsgTypeDelComment, .deletedComment commentID comment.ReferenceID⟩], service⟩

/-- The handler `ChatroomHandler.LikeComment`. -/
def ChatroomHandler.LikeComment (chatroomService : ChatroomService) (now : Nat)
    (userID : Option String) (commentID : String) : Response :=
  match userID with
  | none => ⟨401, [], chatroomService⟩
  | some userID =>
    if commentID == "" then ⟨400, [], chatroomService⟩
    else
      match chatroomService.GetCommentID commentID with
      | .error _ => ⟨500, [], chatroomService⟩
      | .ok comment =>
        match chatroomService.LikeComment now commentID userID with
        | (some _, service) => ⟨500, [], service⟩
        | (none, service) =>
          ⟨200, [⟨MsgTypeLikeCmnt,
            .likedComment commentID comment.Reference comment.ReferenceID userID⟩], service⟩

/-- The handler `ChatroomHandler.LikePost`; `none` means that the service call has not
returned. -/
def ChatroomHandler.LikePost (chatroomService : ChatroomService) (sched : Nat → Nat) (now : Nat)
    (userID : Option String) (postID : String) : Option Response :=
  match userID with
  | none => some ⟨401, [], chatroomService⟩
  | some userID =>
    if postID == "" then some ⟨400, [], chatroomService⟩
    else
      match chatroomService.LikePost sched now postID userID with
      | (none, _) => none
      | (some (.error _), service) => some ⟨500, [], service⟩
      | (some (.ok post), service) =>
        some ⟨200, [⟨MsgTypeLikePost, .likedPost post postID userID⟩], service⟩

/-- The identifier of the comment that a `new_comment` payload carries. -/
def Payload.commentID : Payload → Option String
  | .commentOnPost comment _ => some comment.ID
  | .replyToComment comment _ => some comment.ID
  | _ => none

/-- The like counter and the liked-user list of the post that a `like_post` payload
carries. -/
def Payload.postLikes : Payload → Option (Int × List String)
  | .likedPost post _ _ => some (post.Likes, post.LikedUserId)
  | _ => none

/-- The `type` values of a list of messages. -/
def typesOf (ms : List WebSocketMessage) : List String :=
  ms.map (fun m => m.Typ)

/-- The service in which post `p` has been created by `u1`, as a request does it. -/
def createdService : ChatroomService :=
  (ChatroomHandler.CreatePost emptyService "p" 5 (some "u1") (some "hello")).service

/-- The comment that a body with the content `nice` and nothing else decodes to. -/
def niceComment : Comment :=
  { Comment.zero with Content := "nice" }

/-- The service in which post `p`, created by `u1`, has then been deleted by `u1`. -/
def deletedPostService : ChatroomService :=
  (createdService.DeletePost 50 "p" "u1").2

/-- The service `deletedPostService` at a moment when the driver fails on the lookup of
user `u2`. -/
def failingLookupService : ChatroomService :=
  { deletedPostService with
    userRepo := { deletedPostService.userRepo with findOneErr := fun id => id == "u2" } }

/-- Post `p` stored with like counter 1 and the liked-user list `[u1, u2]`. -/
def undercountedService : ChatroomService :=
  { emptyService with
    postRepo :=
      { collection := [⟨{ mkPost "p" with Likes := 1, LikedUserId := ["u1", "u2"] }, none⟩],
        findErr := false, findOneErr := fun _ => false } }

/-- The document of post `p` as it is stored in `deletedPostService`. -/
def deletedDoc : PostDoc :=
  ⟨{ ID := "p", UserID := "u1", Author := ⟨"Ana", "u1"⟩, Content := "hello", Typ := "",
      Comments := [], CreatedAt := 5, UpdatedAt := 50, Likes := 0, LikedUserId := [] },
    some 50⟩

/-! ## The lock `clientsMux`

The three methods that touch `h.clients` take `h.clientsMux` on entry and release it with
a deferred call on return; `main` creates one `sync.RWMutex` and hands it to the only
handler. A goroutine that calls one of the methods is `waiting` until the lock call
returns, `holding` while it runs the body of the method, and `returned` after the
deferred release. The scheduler picks the goroutine that takes the next step. -/

/-- A `sync.RWMutex`: whether a writer holds it and how many readers hold it. -/
structure RWMutex where
  w : Bool
  readerCount : Nat

/-- A call of one of the methods that touch `h.clients`. -/
inductive RegistryCall where
  | registerClient (userID : String) (conn : Conn)
  | unregisterClient (userID : String) (conn : Conn)
  | broadcastMessage (messageJSON : Option String)

/-- How the method takes the lock: `true` for `h.clientsMux.Lock()`, as in
`registerClient` and `unregisterClient`, and `false` for `h.clientsMux.RLock()`, as in
`broadcastMessage`. -/
def RegistryCall.exclusive : RegistryCall → Bool
  | .registerClient _ _ => true
  | .unregisterClient _ _ => true
  | .broadcastMessage _ => false

/-- The body of the method: the registry afterwards and the messages written. -/
def RegistryCall.body (h : ChatroomHandler) : RegistryCall → ChatroomHandler × List (Conn × String)
  | .registerClient userID conn => (Anamalala.registerClient h userID conn, [])
  | .unregisterClient userID conn => (Anamalala.unregisterClient h userID conn, [])
  | .broadcastMessage messageJSON => (h, Anamalala.broadcastMessage h messageJSON)

/-- Where a goroutine is in its call. -/
inductive LockPhase where
  | waiting
  | holding
  | returned
deriving DecidableEq

/-- A goroutine that makes one call. -/
structure Goroutine where
  call : RegistryCall
  phase : LockPhase

/-- The lock, the registry, the messages written so far and the goroutines. -/
structure Concurrent where
  clientsMux : RWMutex
  handler : ChatroomHandler
  written : List (Conn × String)
  goroutines : List Goroutine

/-- All goroutines are about to make their call; nobody holds the lock. -/
def Concurrent.start (h : ChatroomHandler) (calls : List RegistryCall) : Concurrent :=
  { clientsMux := ⟨false, 0⟩, handler := h, written := [],
    goroutines := calls.map (fun call => ⟨call, .waiting⟩) }

/-- One step of goroutine `i`. `Lock` returns when no writer and no reader holds the
lock, `RLock` when no writer holds it; a goroutine whose lock call cannot return stays
where it is. (`sync.RWMutex` also holds back an `RLock` while a `Lock` is pending, so
its runs are among the runs described here.) A goroutine that holds the lock runs its
body and releases the lock. -/
def Concurrent.step (c : Concurrent) (i : Nat) : Concurrent :=
  match c.goroutines[i]? with
  | none => c
  | some g =>
    match g.phase with
    | .waiting =>
      if g.call.exclusive then
        if !c.clientsMux.w && c.clientsMux.readerCount == 0 then
          { c with
            clientsMux := { c.clientsMux with w := true },
            goroutines := c.goroutines.set i { g with phase := .holding } }
        else c
      else
        if !c.clientsMux.w then
          { c with
            clientsMux := { c.clientsMux with readerCount := c.clientsMux.readerCount + 1 },
            goroutines := c.goroutines.set i { g with phase := .holding } }
        else c
    | .holding =>
      { clientsMux :=
          if g.call.exclusive then { c.clientsMux with w := false }
          else { c.clientsMux with readerCount := c.clientsMux.readerCount - 1 },
        handler := (g.call.body c.handler).1,
        written := c.written ++ (g.call.body c.handler).2,
        goroutines := c.goroutines.set i { g with phase := .returned } }
    | .returned => c

/-- The state after the goroutines named by the schedule have taken their steps. -/
def Concurrent.run (c : Concurrent) (schedule : List Nat) : Concurrent :=
  schedule.foldl Concurrent.step c

/-- Counts a goroutine that holds the lock exclusively. -/
def holdsExclusive (g : Goroutine) : Nat :=
  if g.phase = .holding ∧ g.call.exclusive = true then 1 else 0

/-- Counts a goroutine that holds the lock as a reader. -/
def holdsShared (g : Goroutine) : Nat :=
  if g.phase = .holding ∧ g.call.exclusive = false then 1 else 0

/-- The lock agrees with the goroutines that hold it. -/
structure LockInv (c : Concurrent) : Prop where
  writers : (c.goroutines.map holdsExclusive).sum = if c.clientsMux.w then 1 else 0
  readers : (c.goroutines.map holdsShared).sum = c.clientsMux.readerCount
  alone : c.clientsMux.w = true → c.clientsMux.readerCount = 0

/-- Two broadcasts and one registration, called at the same time on the registry of
three users. -/
def twoBroadcasts : Concurrent :=
  Concurrent.start threeUsers
    [.broadcastMessage (some "m1"), .broadcastMessage (some "m2"), .registerClient "D" 4]

/-! ## Theorems: the worker pool -/

/-- Replacing one entry of a list changes the sum of a measure by the difference of the
two entries. -/
theorem sum_map_set {α : Type} (f : α → Nat) (b : α) :
    ∀ (l : List α) (k : Nat) (a : α), l[k]? = some a →
      ((l.set k b).map f).sum + f a = (l.map f).sum + f b
  | [], k, a, h => by simp at h
  | x :: l, 0, a, h => by
    simp at h; subst h; simp; omega
  | x :: l, k + 1, a, h => by
    simp only [List.getElem?_cons_succ] at h
    have := sum_map_set f b l k a h
    simp only [List.set_cons_succ, List.map_cons, List.sum_cons]; omega

/-- Membership in a list after one position has been overwritten. -/
theorem mem_set_iff {α : Type} (l : List α) (k : Nat) (b x : α) (hk : k < l.length) :
    x ∈ l.set k b ↔ x = b ∨ ∃ m, m ≠ k ∧ l[m]? = some x := by
  constructor
  · intro h
    obtain ⟨m, hm⟩ := List.mem_iff_getElem?.1 h
    rw [List.getElem?_set] at hm
    by_cases hkm : k = m
    · subst hkm; simp [hk] at hm; exact Or.inl hm.symm
    · simp [hkm] at hm; exact Or.inr ⟨m, fun e => hkm e.symm, hm⟩
  · rintro (rfl | ⟨m, hmk, hm⟩)
    · exact List.mem_iff_getElem?.2 ⟨k, by simp [List.getElem?_set, hk]⟩
    · refine List.mem_iff_getElem?.2 ⟨m, ?_⟩
      rw [List.getElem?_set_ne (fun e : k = m => hmk e.symm)]; exact hm

/-- The state in which `FetchPostsComments` starts satisfies the invariant. -/
theorem init_inv (P : List Post) (W : Int) (repo : CommentRepository) :
    PoolInv P W repo
      { posts := P, jobs := [], closed := false, workers := [], pc := .spawning 1 } 0 := by
  refine ⟨rfl, ?_, ?_, ?_, ?_, ?_, ?_, ?_, ?_, ?_, ?_, ?_, ?_, ?_⟩ <;> simp [sentOf]

/-- A step of the caller keeps the invariant and uses up one unit of the measure. -/
theorem mainStep_inv {P : List Post} {W : Int} {repo : CommentRepository} {s s' : PoolState}
    {r : Nat} (h : PoolInv P W repo s r) (hs : mainStep W s = some s') :
    PoolInv P W repo s' r ∧ poolMeasure W s' + 1 = poolMeasure W s := by
  unfold mainStep at hs
  cases hpc : s.pc with
  | spawning w =>
    rw [hpc] at hs
    have hr0 : r = 0 := by have := h.r_le; simpa [hpc, sentOf] using this
    have hw := h.spawn_pos w hpc
    by_cases hwW : w ≤ W
    · simp [hwW] at hs; subst hs
      refine ⟨⟨h.len, ?_, ?_, ?_, ?_, ?_, ?_, ?_, ?_, ?_, ?_, ?_, ?_, ?_⟩, ?_⟩
      · intro i p hi; simpa [hr0] using h.posts_eq i p hi
      · simpa [hpc, sentOf] using h.jobs_eq
      · simp [sentOf, hr0]
      · simp [sentOf]
      · intro j hj; simp at hj; exact h.busy_lt j hj
      · intro k k' j hk hk'
        have h1 : ∀ m : Nat, (s.workers ++ [WorkerState.idle])[m]? = some (WorkerState.busy j) →
            s.workers[m]? = some (WorkerState.busy j) := by
          intro m hm
          rcases Nat.lt_or_ge m s.workers.length with hlt | hge
          · rwa [List.getElem?_append_left hlt] at hm
          · rw [List.getElem?_append_right hge] at hm
            rcases Nat.eq_zero_or_pos (m - s.workers.length) with h0 | hp
            · simp [h0] at hm
            · rw [List.getElem?_eq_none (by simp; omega)] at hm; simp at hm
        exact h.busy_uniq k k' j (h1 k hk) (h1 k' hk')
      · simpa [hpc] using h.closed_iff
      · intro hd; simp at hd; exact h.done_all hd
      · simp
      · intro w' hw'; simp at hw'; subst hw'; exact ⟨by omega, fun _ => by simp⟩
      · intro _ _; simp
      · intro hW; omega
      · simp
      · simp [poolMeasure, mainMeasure, hpc, workerMeasure]; omega
    · simp [hwW] at hs; subst hs
      refine ⟨⟨h.len, ?_, ?_, ?_, ?_, h.busy_lt, h.busy_uniq, ?_, h.done_all, ?_, ?_, ?_,
        h.no_workers, h.none_received⟩, ?_⟩
      · exact h.posts_eq
      · simpa [hpc, sentOf] using h.jobs_eq
      · simp [sentOf, hr0]
      · simp [sentOf]
      · simpa [hpc] using h.closed_iff
      · simp
      · simp
      · intro _ hW; exact hw.2 (by omega)
      · simp [poolMeasure, mainMeasure, hpc]; omega
  | sending i =>
    rw [hpc] at hs
    have hri : r ≤ i := by simpa [hpc, sentOf] using h.r_le
    have hst := h.started (by simp [hpc])
    by_cases hi : i < s.posts.length
    · simp [hi] at hs; subst hs
      have hiP : i < P.length := h.len ▸ hi
      refine ⟨⟨h.len, h.posts_eq, ?_, ?_, ?_, h.busy_lt, h.busy_uniq, ?_, h.done_all, ?_, ?_, ?_,
        h.no_workers, h.none_received⟩, ?_⟩
      · have hj := h.jobs_eq
        simp only [hpc, sentOf] at hj
        simp only [sentOf, hj]
        have : i + 1 - r = (i - r) + 1 := by omega
        rw [this, List.range'_concat]; simp; omega
      · simp [sentOf]; omega
      · simp [sentOf]; omega
      · simpa [hpc] using h.closed_iff
      · simp
      · simp
      · intro _; exact hst
      · simp [poolMeasure, mainMeasure, hpc]; omega
    · simp [hi] at hs; subst hs
      have hle : i ≤ P.length := by simpa [hpc, sentOf] using h.sent_le
      have hiP : i = P.length := by have := h.len; omega
      refine ⟨⟨h.len, h.posts_eq, ?_, ?_, ?_, h.busy_lt, h.busy_uniq, ?_, h.done_all, ?_, ?_, ?_,
        h.no_workers, h.none_received⟩, ?_⟩
      · simpa [hpc, sentOf, hiP] using h.jobs_eq
      · simp [sentOf]; omega
      · simp [sentOf]
      · simp
      · simp
      · simp
      · intro _; exact hst
      · simp [poolMeasure, mainMeasure, hpc]; omega
  | waiting =>
    rw [hpc] at hs
    by_cases hall : (s.workers.all fun w => w == WorkerState.done) = true
    · simp only [hall, if_true, Option.some.injEq] at hs; subst hs
      refine ⟨⟨h.len, h.posts_eq, ?_, ?_, ?_, h.busy_lt, h.busy_uniq, ?_, h.done_all, ?_, ?_, ?_,
        h.no_workers, h.none_received⟩, ?_⟩
      · simpa [hpc, sentOf] using h.jobs_eq
      · simpa [hpc, sentOf] using h.r_le
      · simp [sentOf]
      · simpa [hpc] using h.closed_iff
      · intro _ w hw; simpa using (List.all_eq_true.1 hall) w hw
      · simp
      · intro _; exact h.started (by simp [hpc])
      · simp [poolMeasure, mainMeasure, hpc]; omega
    · simp [hall] at hs
  | returned => rw [hpc] at hs; simp at hs

/-- Which jobs are held by some worker after one worker has changed state. -/
theorem busy_mem_set {ws : List WorkerState} {k : Nat} {a : WorkerState}
    (huniq : ∀ (k k' j : Nat), ws[k]? = some (WorkerState.busy j) →
      ws[k']? = some (WorkerState.busy j) → k = k')
    (hk : ws[k]? = some a) (b : WorkerState) (i : Nat) :
    WorkerState.busy i ∈ ws.set k b ↔
      WorkerState.busy i = b ∨ (WorkerState.busy i ∈ ws ∧ a ≠ WorkerState.busy i) := by
  have hlt : k < ws.length := by
    rcases Nat.lt_or_ge k ws.length with h | h
    · exact h
    · rw [List.getElem?_eq_none h] at hk; simp at hk
  rw [mem_set_iff ws k b _ hlt]
  constructor
  · rintro (h | ⟨m, hmk, hm⟩)
    · exact Or.inl h
    · refine Or.inr ⟨List.mem_iff_getElem?.2 ⟨m, hm⟩, ?_⟩
      intro ha; subst ha
      exact hmk (huniq m k i hm hk)
  · rintro (h | ⟨hmem, hne⟩)
    · exact Or.inl h
    · obtain ⟨m, hm⟩ := List.mem_iff_getElem?.1 hmem
      refine Or.inr ⟨m, ?_, hm⟩
      intro e; subst e
      rw [hk] at hm; exact hne (Option.some.inj hm)

/-- A step of a worker keeps the invariant and uses up one unit of the measure. -/
theorem workerStep_inv {P : List Post} {W : Int} {repo : CommentRepository} {s s' : PoolState}
    {r k : Nat} (h : PoolInv P W repo s r) (hs : workerStep repo s k = some s') :
    (∃ r', PoolInv P W repo s' r') ∧ poolMeasure W s' + 1 = poolMeasure W s := by
  unfold workerStep at hs
  cases hk : s.workers[k]? with
  | none => rw [hk] at hs; simp at hs
  | some w =>
    have hlt : k < s.workers.length := by
      rcases Nat.lt_or_ge k s.workers.length with h' | h'
      · exact h'
      · rw [List.getElem?_eq_none h'] at hk; simp at hk
    have hne : s.workers ≠ [] := by intro e; rw [e] at hlt; simp at hlt
    have hWpos : ¬ W < 1 := fun hW => hne (h.no_workers hW)
    have hmemk : w ∈ s.workers := List.mem_iff_getElem?.2 ⟨k, hk⟩
    have hset_ne : ∀ b, s.workers.set k b ≠ [] := by
      intro b e
      have := congrArg List.length e
      rw [List.length_set, List.length_nil] at this; omega
    rw [hk] at hs
    cases w with
    | done => simp at hs
    | idle =>
      cases hj : s.jobs with
      | cons j rest =>
        simp only [hj, Option.some.injEq] at hs; subst hs
        have hje := h.jobs_eq
        rw [hj] at hje
        have hpos : 0 < sentOf P.length s.pc - r := by
          rcases Nat.eq_zero_or_pos (sentOf P.length s.pc - r) with h0 | hp
          · rw [h0] at hje; simp at hje
          · exact hp
        obtain ⟨n, hn⟩ : ∃ n, sentOf P.length s.pc - r = n + 1 := ⟨_, (Nat.succ_pred_eq_of_pos hpos).symm⟩
        rw [hn, List.range'_succ] at hje
        have hjr : j = r := (List.cons.inj hje).1
        have hrest : rest = List.range' (r + 1) n := (List.cons.inj hje).2
        subst hjr
        have hsle := h.sent_le
        have hmem := busy_mem_set h.busy_uniq hk (WorkerState.busy j)
        refine ⟨⟨j + 1, h.len, ?_, ?_, ?_, h.sent_le, ?_, ?_, h.closed_iff, ?_, ?_, ?_, ?_,
          ?_, ?_⟩, ?_⟩
        · intro i p hi
          rw [h.posts_eq i p hi]
          congr 1
          by_cases hij : i = j
          · subst hij
            have h2 : ¬ (i < i + 1 ∧ WorkerState.busy i ∉ s.workers.set k (WorkerState.busy i)) := by
              rw [hmem]; simp
            have h1 : ¬ (i < i ∧ WorkerState.busy i ∉ s.workers) := fun hh => Nat.lt_irrefl _ hh.1
            show (if (i < i ∧ WorkerState.busy i ∉ s.workers) then _ else _) =
              (if (i < i + 1 ∧ WorkerState.busy i ∉ s.workers.set k (WorkerState.busy i)) then _ else _)
            rw [if_neg h1, if_neg h2]
          · have e1 : (WorkerState.busy i ∈ s.workers.set k (WorkerState.busy j)) ↔
                WorkerState.busy i ∈ s.workers := by
              rw [hmem]; simp [hij]
            by_cases hlt' : i < j
            · have : i < j + 1 := by omega
              simp [hlt', this, e1]
            · have : ¬ i < j + 1 := by omega
              simp [hlt', this]
        · show rest = List.range' (j + 1) (sentOf P.length s.pc - (j + 1))
          rw [hrest]; congr 1; omega
        · show j + 1 ≤ sentOf P.length s.pc
          omega
        · intro j' hj'
          rw [hmem] at hj'
          rcases hj' with e | ⟨hm, _⟩
          · injection e with e; omega
          · have := h.busy_lt j' hm; omega
        · intro a b j' ha hb
          show a = b
          simp only [] at ha hb
          by_cases hak : k = a <;> by_cases hbk : k = b
          · omega
          · subst hak
            rw [List.getElem?_set_self hlt] at ha
            rw [List.getElem?_set_ne hbk] at hb
            injection ha with ha; injection ha with ha; subst ha
            have := h.busy_lt j (List.mem_iff_getElem?.2 ⟨b, hb⟩); omega
          · subst hbk
            rw [List.getElem?_set_self hlt] at hb
            rw [List.getElem?_set_ne hak] at ha
            injection hb with hb; injection hb with hb; subst hb
            have := h.busy_lt j (List.mem_iff_getElem?.2 ⟨a, ha⟩); omega
          · rw [List.getElem?_set_ne hak] at ha
            rw [List.getElem?_set_ne hbk] at hb
            exact h.busy_uniq a b j' ha hb
        · intro hd
          have hd' : WorkerState.done ∈ s.workers := by
            rcases (mem_set_iff _ _ _ _ hlt).1 hd with e | ⟨m, _, hm⟩
            · cases e
            · exact List.mem_iff_getElem?.2 ⟨m, hm⟩
          have := h.done_all hd'; omega
        · intro hret
          have := h.returned_done hret _ hmemk
          cases this
        · intro w' hw'
          have : sentOf P.length s.pc = 0 := by rw [show s.pc = _ from hw']; rfl
          omega
        · intro _ _; exact hset_ne _
        · intro hW; exact absurd hW hWpos
        · intro e; exact absurd e (hset_ne _)
        · have := sum_map_set workerMeasure (WorkerState.busy j) s.workers k _ hk
          simp only [poolMeasure, hj, List.length_cons, workerMeasure] at this ⊢
          omega
      | nil =>
        simp only [hj] at hs
        by_cases hc : s.closed = true
        · simp only [hc, if_true, Option.some.injEq] at hs; subst hs
          have hje := h.jobs_eq
          rw [hj] at hje
          have hsent : sentOf P.length s.pc = P.length := by
            rcases h.closed_iff.1 hc with e | e <;> rw [e] <;> rfl
          have hrN : r = P.length := by
            have hl := congrArg List.length hje
            simp at hl
            have := h.r_le; omega
          have hmem := busy_mem_set h.busy_uniq hk WorkerState.done
          have e1 : ∀ i, (WorkerState.busy i ∈ s.workers.set k WorkerState.done) ↔
              WorkerState.busy i ∈ s.workers := by
            intro i; rw [hmem]; simp
          refine ⟨⟨r, h.len, ?_, ?_, h.r_le, h.sent_le, ?_, ?_, ?_, ?_, ?_, ?_, ?_,
            ?_, ?_⟩, ?_⟩
          · intro i p hi
            rw [h.posts_eq i p hi]
            simp only [e1]
          · exact hje
          · intro j' hj'; exact h.busy_lt j' ((e1 j').1 hj')
          · intro a b j' ha hb
            simp only [] at ha hb
            have hak : k ≠ a := by
              intro e; subst e; rw [List.getElem?_set_self hlt] at ha; cases ha
            have hbk : k ≠ b := by
              intro e; subst e; rw [List.getElem?_set_self hlt] at hb; cases hb
            rw [List.getElem?_set_ne hak] at ha
            rw [List.getElem?_set_ne hbk] at hb
            exact h.busy_uniq a b j' ha hb
          · simpa [hc] using h.closed_iff
          · intro _; exact hrN
          · intro hret
            have := h.returned_done hret _ hmemk
            cases this
          · intro w' hw'
            have := h.closed_iff.1 hc
            rw [show s.pc = _ from hw'] at this; simp at this
          · intro _ _; exact hset_ne _
          · intro hW; exact absurd hW hWpos
          · intro e; exact absurd e (hset_ne _)
          · have := sum_map_set workerMeasure WorkerState.done s.workers k _ hk
            simp only [poolMeasure, workerMeasure, hj] at this ⊢
            omega
        · simp [hc] at hs
    | busy j =>
      simp only [Option.some.injEq] at hs; subst hs
      have hjr : j < r := h.busy_lt j hmemk
      have hmem := busy_mem_set h.busy_uniq hk WorkerState.idle
      refine ⟨⟨r, ?_, ?_, h.jobs_eq, h.r_le, h.sent_le, ?_, ?_, h.closed_iff, ?_, ?_, ?_, ?_,
        ?_, ?_⟩, ?_⟩
      · show (s.posts.modify _ j).length = _
        rw [List.length_modify]; exact h.len
      · intro i p hi
        show (s.posts.modify _ j)[i]? = _
        rw [List.getElem?_modify, h.posts_eq i p hi]
        by_cases hij : j = i
        · subst hij
          have h1 : ¬ (j < r ∧ WorkerState.busy j ∉ s.workers) := fun hh => hh.2 hmemk
          have h2 : j < r ∧ WorkerState.busy j ∉ s.workers.set k WorkerState.idle := by
            refine ⟨hjr, ?_⟩
            rw [hmem]; simp
          rw [if_neg h1, if_pos h2]; simp
        · have e1 : (WorkerState.busy i ∈ s.workers.set k WorkerState.idle) ↔
              WorkerState.busy i ∈ s.workers := by
            rw [hmem]; simp; intro _ e; exact hij e
          simp [hij, e1]
      · intro j' hj'
        rw [hmem] at hj'
        rcases hj' with e | ⟨hm, _⟩
        · cases e
        · exact h.busy_lt j' hm
      · intro a b j' ha hb
        simp only [] at ha hb
        have hak : k ≠ a := by
          intro e; subst e; rw [List.getElem?_set_self hlt] at ha; cases ha
        have hbk : k ≠ b := by
          intro e; subst e; rw [List.getElem?_set_self hlt] at hb; cases hb
        rw [List.getElem?_set_ne hak] at ha
        rw [List.getElem?_set_ne hbk] at hb
        exact h.busy_uniq a b j' ha hb
      · intro hd
        have hd' : WorkerState.done ∈ s.workers := by
          rcases (mem_set_iff _ _ _ _ hlt).1 hd with e | ⟨m, _, hm⟩
          · cases e
          · exact List.mem_iff_getElem?.2 ⟨m, hm⟩
        exact h.done_all hd'
      · intro hret
        have := h.returned_done hret _ hmemk
        cases this
      · intro w' hw'
        have : sentOf P.length s.pc = 0 := by rw [show s.pc = _ from hw']; rfl
        have := h.r_le; omega
      · intro _ _; exact hset_ne _
      · intro hW; exact absurd hW hWpos
      · intro e; exact absurd e (hset_ne _)
      · have := sum_map_set workerMeasure WorkerState.idle s.workers k _ hk
        simp only [poolMeasure, workerMeasure, List.length_modify] at this ⊢
        omega

/-- Absence of deadlock: until the caller has returned some goroutine can move. -/
theorem pool_progress {P : List Post} {W : Int} {repo : CommentRepository} {s : PoolState}
    {r : Nat} (h : PoolInv P W repo s r) (hpc : s.pc ≠ .returned) :
    successors W repo s ≠ [] := by
  have key : ∀ a t, a ∈ actors s → step W repo s a = some t → successors W repo s ≠ [] := by
    intro a t ha hst e
    have : t ∈ successors W repo s := List.mem_filterMap.2 ⟨a, ha, hst⟩
    rw [e] at this; simp at this
  have hmain : Actor.main ∈ actors s := by simp [actors]
  cases hp : s.pc with
  | returned => exact absurd hp hpc
  | spawning w =>
    by_cases hw : w ≤ W
    · exact key .main _ hmain (by simp [step, mainStep, hp, hw]; rfl)
    · exact key .main _ hmain (by simp [step, mainStep, hp, hw]; rfl)
  | sending i =>
    by_cases hi : i < s.posts.length
    · exact key .main _ hmain (by simp [step, mainStep, hp, hi]; rfl)
    · exact key .main _ hmain (by simp [step, mainStep, hp, hi]; rfl)
  | waiting =>
    by_cases hall : (s.workers.all fun w => w == WorkerState.done) = true
    · exact key .main _ hmain (by simp only [step, mainStep, hp, hall, if_true]; rfl)
    · have hc : s.closed = true := h.closed_iff.2 (Or.inl hp)
      rw [List.all_eq_true] at hall
      push_neg at hall
      obtain ⟨w, hw, hwd⟩ := hall
      obtain ⟨k, hk⟩ := List.mem_iff_getElem?.1 hw
      have hlt : k < s.workers.length := by
        rcases Nat.lt_or_ge k s.workers.length with h' | h'
        · exact h'
        · rw [List.getElem?_eq_none h'] at hk; simp at hk
      have hact : Actor.worker k ∈ actors s := by
        simp [actors]; exact hlt
      cases w with
      | done => simp at hwd
      | busy j => exact key (.worker k) _ hact (by simp only [step, workerStep, hk]; rfl)
      | idle =>
        cases hj : s.jobs with
        | nil => exact key (.worker k) _ hact (by simp only [step, workerStep, hk, hj, hc, if_true]; rfl)
        | cons j rest => exact key (.worker k) _ hact (by simp only [step, workerStep, hk, hj]; rfl)

/-- Every successor state keeps the invariant and has a measure smaller by one. -/
theorem step_inv {P : List Post} {W : Int} {repo : CommentRepository} {s t : PoolState}
    {r : Nat} (h : PoolInv P W repo s r) (ht : t ∈ successors W repo s) :
    (∃ r', PoolInv P W repo t r') ∧ poolMeasure W t + 1 = poolMeasure W s := by
  obtain ⟨a, _, hst⟩ := List.mem_filterMap.1 ht
  cases a with
  | main =>
    have := mainStep_inv h hst
    exact ⟨⟨r, this.1⟩, this.2⟩
  | worker k => exact workerStep_inv h hst

/-- Only a state in which the caller has returned has measure zero. -/
theorem measure_zero_returned {W : Int} {s : PoolState} (h : poolMeasure W s = 0) :
    s.pc = .returned := by
  unfold poolMeasure at h
  cases hp : s.pc with
  | returned => rfl
  | spawning w => rw [hp] at h; simp [mainMeasure] at h
  | sending i => rw [hp] at h; simp [mainMeasure] at h
  | waiting => rw [hp] at h; simp [mainMeasure] at h

/-- With fuel at least the measure, every run ends with the caller returned. -/
theorem runPool_returns {P : List Post} {W : Int} {repo : CommentRepository}
    (sched : Nat → Nat) :
    ∀ (fuel : Nat) (s : PoolState) (r : Nat), PoolInv P W repo s r → poolMeasure W s ≤ fuel →
      (∃ r', PoolInv P W repo (runPool W repo sched fuel s) r') ∧
        (runPool W repo sched fuel s).pc = .returned
  | 0, s, r, h, hm => by
    simp only [runPool]
    exact ⟨⟨r, h⟩, measure_zero_returned (Nat.le_zero.1 hm)⟩
  | fuel + 1, s, r, h, hm => by
    simp only [runPool]
    cases hsucc : successors W repo s with
    | nil =>
      simp only []
      refine ⟨⟨r, h⟩, ?_⟩
      by_contra hne
      exact pool_progress h hne hsucc
    | cons s' rest =>
      simp only []
      have hidx : sched fuel % (rest.length + 1) < (s' :: rest).length := by
        simp only [List.length_cons]; exact Nat.mod_lt _ (Nat.succ_pos _)
      have hmem : ((s' :: rest)[sched fuel % (rest.length + 1)]?).getD s' ∈ successors W repo s := by
        rw [hsucc, List.getElem?_eq_getElem hidx]
        exact List.getElem_mem hidx
      obtain ⟨⟨r', hinv⟩, hdec⟩ := step_inv h hmem
      exact runPool_returns sched fuel _ r' hinv (by omega)

/-- Every run of the pool ends with the caller returning, whatever the scheduler does;
with at least one worker every post has been given its comments, with none the slice
comes back as it was passed. -/
theorem FetchPostsComments_eq (sched : Nat → Nat) (posts : List Post) (numWorkers : Int)
    (commentRepo : CommentRepository) :
    FetchPostsComments sched posts numWorkers commentRepo =
      some (if 1 ≤ numWorkers then posts.map (fun p => fetchCommentsWithReplies p commentRepo)
        else posts) := by
  have hrun := runPool_returns sched (poolFuel posts numWorkers) _ 0
    (init_inv posts numWorkers commentRepo)
    (by simp [poolMeasure, mainMeasure, poolFuel])
  obtain ⟨⟨r, hinv⟩, hret⟩ := hrun
  unfold FetchPostsComments
  simp only [hret, if_true]
  congr 1
  apply List.ext_getElem?
  intro i
  by_cases hW : 1 ≤ numWorkers
  · rw [if_pos hW]
    have hne := hinv.started (by simp [hret]) hW
    have hdone := hinv.returned_done hret
    obtain ⟨w, hw⟩ := List.exists_mem_of_ne_nil _ hne
    have hr : r = posts.length := hinv.done_all (hdone w hw ▸ hw)
    have hbusy : WorkerState.busy i ∉ (runPool numWorkers commentRepo sched
        (poolFuel posts numWorkers) _).workers := fun hb => by
      have := hdone _ hb; cases this
    cases hp : posts[i]? with
    | none =>
      have hge : posts.length ≤ i := by
        rcases Nat.lt_or_ge i posts.length with h' | h'
        · rw [List.getElem?_eq_getElem h'] at hp; simp at hp
        · exact h'
      rw [List.getElem?_eq_none (by rw [hinv.len]; exact hge)]
      simp [hp]
    | some p =>
      have hlt : i < posts.length := by
        rcases Nat.lt_or_ge i posts.length with h' | h'
        · exact h'
        · rw [List.getElem?_eq_none h'] at hp; simp at hp
      rw [hinv.posts_eq i p hp, if_pos ⟨hr ▸ hlt, hbusy⟩]
      simp [hp]
  · rw [if_neg hW]
    have hr : r = 0 := hinv.none_received (hinv.no_workers (by omega))
    cases hp : posts[i]? with
    | none =>
      have hge : posts.length ≤ i := by
        rcases Nat.lt_or_ge i posts.length with h' | h'
        · rw [List.getElem?_eq_getElem h'] at hp; simp at hp
        · exact h'
      rw [List.getElem?_eq_none (by rw [hinv.len]; exact hge)]
    | some p =>
      rw [hinv.posts_eq i p hp, if_neg (by rw [hr]; simp)]

/-! ## The fetcher: what one job computes -/

/-- Page 0 with limit 0 skips nothing and has no limit. -/
theorem findPage_all {α : Type} (l : List α) (fails : Bool) :
    findPage l fails (wrap64 ((0 - 1) * 0)) 0 = if fails then .error "find failed" else .ok l := by
  have h0 : wrap64 ((0 - 1) * 0) = 0 := by decide
  rw [h0]
  cases fails <;> simp [findPage]

/-- The listing with page 0 and limit 0 is the whole oldest-first listing, or the error
of the driver. -/
theorem listByRef_all (r : CommentRepository) (ref id : String) :
    r.listByRef ref id 0 0 =
      if r.findErr ref id then .error "find failed"
      else .ok (oldestFirst r.collection ref id,
        ((r.collection.filter (matchesRef ref id)).length : Int)) := by
  unfold CommentRepository.listByRef
  simp only [findPage_all]
  cases r.findErr ref id <;> simp [oldestFirst]

/-- The replies attached to a comment: its direct replies, or nothing when the listing
fails. -/
theorem fetchNestedReplies_eq (commentID : String) (r : CommentRepository) :
    fetchNestedReplies commentID r =
      if r.findErr "comment" commentID then [] else oldestFirst r.collection "comment" commentID := by
  unfold fetchNestedReplies CommentRepository.ListByCommentID
  rw [listByRef_all]
  cases r.findErr "comment" commentID <;> simp

/-- The tree attached to a post: two levels, top-level comments and their direct
replies. -/
theorem fetchCommentsWithReplies_eq (post : Post) (r : CommentRepository) :
    fetchCommentsWithReplies post r =
      { post with
        Comments :=
          (if r.findErr "post" post.ID then [] else oldestFirst r.collection "post" post.ID).map
            (fun c => { c with Comments := fetchNestedReplies c.ID r }) } := by
  unfold fetchCommentsWithReplies CommentRepository.ListByPostID
  rw [listByRef_all]
  cases r.findErr "post" post.ID <;> simp

/-- The oldest-first listing is sorted by creation time. -/
theorem oldestFirst_sorted (docs : List Comment) (ref id : String) :
    (oldestFirst docs ref id).Sorted (fun a b => a.CreatedAt ≤ b.CreatedAt) := by
  haveI : IsTotal Comment (fun a b => a.CreatedAt ≤ b.CreatedAt) :=
    ⟨fun a b => Nat.le_total a.CreatedAt b.CreatedAt⟩
  haveI : IsTrans Comment (fun a b => a.CreatedAt ≤ b.CreatedAt) :=
    ⟨fun _ _ _ hab hbc => Nat.le_trans hab hbc⟩
  exact List.sorted_insertionSort _ _

/-- The oldest-first listing holds exactly the matching stored comments. -/
theorem oldestFirst_perm (docs : List Comment) (ref id : String) :
    (oldestFirst docs ref id).Perm (docs.filter (matchesRef ref id)) :=
  List.perm_insertionSort _ _

/-! ## Claims about the fetcher -/

/-- C1, evaluated at the failing input: post `p` has comment `c1`, `c1` has reply `r1` and
`r1` has reply `r2`, none deleted, so three comments are stored under `p`; under every
scheduler the fetch with one worker returns a tree of two comments, `c1` with `r1`, and
`r2` is missing. -/
theorem fetch_misses_reply_to_reply (sched : Nat → Nat) :
    (storedUnder deepRepo.collection 3 "post" "p").map (fun c => c.ID) = ["c1", "r1", "r2"] ∧
      (FetchPostsComments sched [mkPost "p"] 1 deepRepo).map
        (fun out => out.map (fun p => countAll p.Comments)) = some [2] ∧
      (FetchPostsComments sched [mkPost "p"] 1 deepRepo).map
        (fun out => out.map (fun p => p.Comments.map
          (fun c => (c.ID, c.Comments.map (fun r => (r.ID, r.Comments.map (fun x => x.ID)))))))
        = some [[("c1", [("r1", [])])]] := by
  rw [FetchPostsComments_eq]
  exact ⟨by decide, by decide, by decide⟩

/-- C3: for every batch, every requested worker count (in particular 0, 1, N and N + 10)
and every scheduler, `FetchPostsComments` returns, and what it returns is the input batch
in the input order with only the `Comments` field of each post replaced. -/
theorem FetchPostsComments_returns_batch (sched : Nat → Nat) (posts : List Post)
    (numWorkers : Int) (commentRepo : CommentRepository) :
    ∃ (out : List Post) (trees : List (List Comment)),
      FetchPostsComments sched posts numWorkers commentRepo = some out ∧
        out.length = posts.length ∧ trees.length = posts.length ∧
        out = List.zipWith (fun p cs => { p with Comments := cs }) posts trees := by
  rw [FetchPostsComments_eq]
  by_cases hW : 1 ≤ numWorkers
  · refine ⟨_, posts.map (fun p => (fetchCommentsWithReplies p commentRepo).Comments),
      by rw [if_pos hW], by simp, by simp, ?_⟩
    induction posts with
    | nil => rfl
    | cons p ps ih =>
      simp only [List.map_cons, List.zipWith_cons_cons]
      rw [ih]
      rfl
  · refine ⟨_, posts.map (fun p => p.Comments), by rw [if_neg hW], rfl, by simp, ?_⟩
    induction posts with
    | nil => rfl
    | cons p ps ih =>
      simp only [List.map_cons, List.zipWith_cons_cons]
      rw [← ih]

/-- C4: for every stored, non-deleted post, when no lookup or listing call fails,
`GetPostByID` returns the post with `Comments` equal to the oldest-first listing of its
top-level comments, each carrying as `Comments` the oldest-first listing of its direct
replies; the oldest-first listing is sorted by creation time and is a rearrangement of
the stored, non-deleted comments with that parent. -/
theorem GetPostByID_tree (s : ChatroomService) (sched : Nat → Nat) (id : String) (d : PostDoc)
    (hstored : s.postRepo.collection.find? (fun d => d.post.ID == id && d.deleted_at.isNone)
      = some d)
    (hfind : s.postRepo.findOneErr id = false)
    (hlist : ∀ ref rid, s.commentRepo.findErr ref rid = false) :
    s.GetPostByID sched id =
        some (.ok { d.post with
          Comments := (oldestFirst s.commentRepo.collection "post" id).map
            (fun c => { c with Comments := oldestFirst s.commentRepo.collection "comment" c.ID }) })
      ∧ ∀ ref rid,
        (oldestFirst s.commentRepo.collection ref rid).Sorted
            (fun a b => a.CreatedAt ≤ b.CreatedAt) ∧
          (oldestFirst s.commentRepo.collection ref rid).Perm
            (s.commentRepo.collection.filter (matchesRef ref rid)) := by
  refine ⟨?_, fun ref rid => ⟨oldestFirst_sorted _ _ _, oldestFirst_perm _ _ _⟩⟩
  have hid : d.post.ID = id := by
    have := List.find?_some hstored
    simp only [Bool.and_eq_true, beq_iff_eq] at this
    exact this.1
  unfold ChatroomService.GetPostByID PostRepository.FindByID
  simp only [hfind, hstored, Bool.false_eq_true, if_false]
  rw [FetchPostsComments_eq]
  simp only [le_refl, if_true, List.map_cons, List.map_nil]
  have hfetch : fetchCommentsWithReplies d.post s.commentRepo =
      { d.post with
        Comments := (oldestFirst s.commentRepo.collection "post" id).map
          (fun c => { c with Comments := oldestFirst s.commentRepo.collection "comment" c.ID }) } := by
    rw [fetchCommentsWithReplies_eq]
    simp only [hlist, hid, Bool.false_eq_true, if_false, fetchNestedReplies_eq]
  rw [hfetch]
  simp [List.find?]

/-- Witness for C4, the scenario of the claim: post `p` has the top-level comments `c1`
(older) and `c2` (newer) and `c1` has the reply `r1`; `GetPostByID` returns `p` with
`Comments = [c1{Comments: [r1]}, c2{Comments: []}]`. -/
theorem GetPostByID_tree_scenario :
    scenarioService.GetPostByID (fun _ => 0) "p" =
      some (.ok { mkPost "p" with
        Comments := [{ mkComment "c1" "post" "p" 10 with
            Comments := [mkComment "r1" "comment" "c1" 30] },
          { mkComment "c2" "post" "p" 20 with Comments := [] }] }) :=
  (GetPostByID_tree scenarioService (fun _ => 0) "p" ⟨mkPost "p", none⟩ rfl rfl
    (fun _ _ => rfl)).1.trans rfl

/-- A failing post listing does not affect the replies fetched for a comment. -/
theorem fetchNestedReplies_failOn_post (r : CommentRepository) (k cid : String) :
    fetchNestedReplies cid (r.failOn "post" k) = fetchNestedReplies cid r := by
  rw [fetchNestedReplies_eq, fetchNestedReplies_eq]
  have : (r.failOn "post" k).findErr "comment" cid = r.findErr "comment" cid := by
    simp [CommentRepository.failOn]
  rw [this]; rfl

/-- A failing reply listing empties the replies of that comment only. -/
theorem fetchNestedReplies_failOn_comment (r : CommentRepository) (k cid : String) :
    fetchNestedReplies cid (r.failOn "comment" k) =
      if cid = k then [] else fetchNestedReplies cid r := by
  rw [fetchNestedReplies_eq, fetchNestedReplies_eq]
  by_cases h : cid = k
  · simp [CommentRepository.failOn, h]
  · simp [CommentRepository.failOn, h]

/-- A failing post listing empties the tree of that post only. -/
theorem fetch_failOn_post (p : Post) (r : CommentRepository) (k : String) :
    fetchCommentsWithReplies p (r.failOn "post" k) =
      (fun q : Post => if q.ID = k then { q with Comments := [] } else q)
        (fetchCommentsWithReplies p r) := by
  rw [fetchCommentsWithReplies_eq, fetchCommentsWithReplies_eq]
  simp only [fetchNestedReplies_failOn_post]
  by_cases h : p.ID = k
  · simp [CommentRepository.failOn, h]
  · simp [CommentRepository.failOn, h]

/-- A failing reply listing empties, in every tree, the replies of that comment only. -/
theorem fetch_failOn_comment (p : Post) (r : CommentRepository) (k : String) :
    fetchCommentsWithReplies p (r.failOn "comment" k) =
      (fun q : Post => { q with
        Comments := q.Comments.map
          (fun c => if c.ID = k then { c with Comments := [] } else c) })
        (fetchCommentsWithReplies p r) := by
  rw [fetchCommentsWithReplies_eq, fetchCommentsWithReplies_eq]
  simp only [fetchNestedReplies_failOn_comment]
  have hpost : (r.failOn "comment" k).findErr "post" p.ID = r.findErr "post" p.ID := by
    simp [CommentRepository.failOn]
  rw [hpost]
  simp only [List.map_map]
  congr 1
  apply List.map_congr_left
  intro c _
  by_cases h : c.ID = k
  · simp [h]
  · simp [h]

/-- C5: with at least one worker, for every batch, scheduler and comment repository: if
the listing of the comments of post `k`, or of the replies of comment `k`, is made to
fail, `FetchPostsComments` still returns the whole batch, and the result is the result of
the run without that failure except that the posts with id `k` (the comments with id `k`)
have an empty `Comments`. Moreover, whatever listing calls of the comment repository
fail, `GetAllPosts` succeeds with the total of the post listing whenever the post listing
succeeds, and `GetPostByID` succeeds whenever the post lookup succeeds. -/
theorem listing_error_swallowed (sched : Nat → Nat) (posts : List Post) (numWorkers : Int)
    (commentRepo : CommentRepository) (k : String) (hW : 1 ≤ numWorkers)
    (s : ChatroomService) (page limit : Int) (id : String) :
    (∃ out, FetchPostsComments sched posts numWorkers commentRepo = some out ∧
        out.length = posts.length ∧
        FetchPostsComments sched posts numWorkers (commentRepo.failOn "post" k) =
          some (out.map (fun q => if q.ID = k then { q with Comments := [] } else q)) ∧
        FetchPostsComments sched posts numWorkers (commentRepo.failOn "comment" k) =
          some (out.map (fun q => { q with
            Comments := q.Comments.map
              (fun c => if c.ID = k then { c with Comments := [] } else c) }))) ∧
      (∀ listed total, s.postRepo.List page limit = .ok (listed, total) →
        ∃ out, s.GetAllPosts sched page limit = some (.ok (out, total)) ∧
          out.length = listed.length) ∧
      (∀ post, s.postRepo.FindByID id = .ok post →
        ∃ p, s.GetPostByID sched id = some (.ok p)) := by
  refine ⟨⟨posts.map (fun p => fetchCommentsWithReplies p commentRepo), ?_, by simp, ?_, ?_⟩,
    ?_, ?_⟩
  · rw [FetchPostsComments_eq, if_pos hW]
  · rw [FetchPostsComments_eq, if_pos hW, List.map_map]
    congr 1
    apply List.map_congr_left
    intro p _
    exact fetch_failOn_post p commentRepo k
  · rw [FetchPostsComments_eq, if_pos hW, List.map_map]
    congr 1
    apply List.map_congr_left
    intro p _
    exact fetch_failOn_comment p commentRepo k
  · intro listed total hl
    unfold ChatroomService.GetAllPosts
    rw [hl]
    simp only [FetchPostsComments_eq]
    refine ⟨_, rfl, ?_⟩
    split <;> simp
  · intro post hf
    unfold ChatroomService.GetPostByID
    rw [hf]
    simp only [FetchPostsComments_eq]
    exact ⟨_, rfl⟩

/-- Witness for C5: the batch `[p, q]` with two workers over the scenario store, the
failing listing being that of `p` (as a post) or of `c1` (as a comment), and the read
operations over the store in which the listing of the comments of `p` fails. -/
theorem listing_error_swallowed_witness :
    (∃ out, FetchPostsComments (fun n => n) [mkPost "p", mkPost "q"] 2
          scenarioService.commentRepo = some out ∧
        out.length = [mkPost "p", mkPost "q"].length ∧
        FetchPostsComments (fun n => n) [mkPost "p", mkPost "q"] 2
            (scenarioService.commentRepo.failOn "post" "p") =
          some (out.map (fun q => if q.ID = "p" then { q with Comments := [] } else q)) ∧
        FetchPostsComments (fun n => n) [mkPost "p", mkPost "q"] 2
            (scenarioService.commentRepo.failOn "comment" "p") =
          some (out.map (fun q => { q with
            Comments := q.Comments.map
              (fun c => if c.ID = "p" then { c with Comments := [] } else c) }))) ∧
      (∀ listed total,
        scenarioService.postRepo.List 1 10 = .ok (listed, total) →
        ∃ out, ChatroomService.GetAllPosts
            { scenarioService with
              commentRepo := scenarioService.commentRepo.failOn "post" "p" }
            (fun n => n) 1 10 = some (.ok (out, total)) ∧
          out.length = listed.length) ∧
      (∀ post, scenarioService.postRepo.FindByID "p" = .ok post →
        ∃ p, ChatroomService.GetPostByID
            { scenarioService with
              commentRepo := scenarioService.commentRepo.failOn "post" "p" }
            (fun n => n) "p" = some (.ok p)) :=
  listing_error_swallowed (fun n => n) [mkPost "p", mkPost "q"] 2 scenarioService.commentRepo
    "p" (by decide)
    { scenarioService with commentRepo := scenarioService.commentRepo.failOn "post" "p" }
    1 10 "p"

/-! ## Theorems: the connection registry -/

/-- Lookup after an assignment to a key. -/
theorem lookup_set (m : Clients) (u v : String) (l : List Conn) :
    (m.set u l).lookup v = if u = v then some l else m.lookup v := by
  induction m with
  | nil => simp [Clients.set, Clients.lookup]
  | cons e m ih =>
    obtain ⟨k, w⟩ := e
    by_cases hk : k = u
    · subst hk
      by_cases h : k = v <;> simp [Clients.set, Clients.lookup, h]
    · by_cases h : k = v
      · subst h
        have hk' : ¬ u = k := fun e => hk e.symm
        simp [Clients.set, hk, Clients.lookup, hk']
      · simp [Clients.set, hk, Clients.lookup, h, ih]

/-- Lookup after the deletion of a key. -/
theorem lookup_delete (m : Clients) (u v : String) :
    (m.delete u).lookup v = if u = v then none else m.lookup v := by
  induction m with
  | nil => simp [Clients.delete, Clients.lookup]
  | cons e m ih =>
    obtain ⟨k, w⟩ := e
    by_cases hk : k = u
    · subst hk
      by_cases h : k = v
      · subst h; simpa [Clients.delete, Clients.lookup] using ih
      · simp [Clients.delete, Clients.lookup, h, ih]
    · by_cases h : k = v
      · subst h
        have hk' : ¬ u = k := fun e => hk e.symm
        simp [Clients.delete, hk, Clients.lookup, hk']
      · simp [Clients.delete, hk, Clients.lookup, h, ih]

/-- Read after an assignment to a key. -/
theorem get_set (m : Clients) (u v : String) (l : List Conn) :
    (m.set u l).get v = if u = v then l else m.get v := by
  unfold Clients.get; rw [lookup_set]; split <;> simp

/-- The search fails exactly when the connection is not in the list. -/
theorem firstIndexOf_none {conn : Conn} {l : List Conn} :
    firstIndexOf conn l = none ↔ conn ∉ l := by
  induction l with
  | nil => simp [firstIndexOf]
  | cons c cs ih =>
    by_cases h : c = conn
    · simp [firstIndexOf, h]
    · have h' : ¬ conn = c := fun e => h e.symm
      simp [firstIndexOf, h, ih, h']

/-- Removing the position found by the search removes the first occurrence. -/
theorem firstIndexOf_some {conn : Conn} {l : List Conn} {i : Nat}
    (h : firstIndexOf conn l = some i) : l.eraseIdx i = l.erase conn ∧ conn ∈ l := by
  induction l generalizing i with
  | nil => simp [firstIndexOf] at h
  | cons c cs ih =>
    by_cases hc : c = conn
    · subst hc; simp [firstIndexOf] at h; subst h; simp
    · simp only [firstIndexOf, hc, if_false, Option.map_eq_some'] at h
      obtain ⟨j, hj, rfl⟩ := h
      have := ih hj
      simp [List.eraseIdx_cons_succ, this.1, List.erase_cons_tail, hc, this.2]



/-- Read after the deletion of a key. -/
theorem get_delete (m : Clients) (u v : String) :
    (m.delete u).get v = if u = v then [] else m.get v := by
  unfold Clients.get; rw [lookup_delete]; split <;> simp

/-- Deleting an absent key leaves the map as it is. -/
theorem delete_of_lookup_none {m : Clients} {u : String} (h : m.lookup u = none) :
    m.delete u = m := by
  induction m with
  | nil => rfl
  | cons e m ih =>
    obtain ⟨k, w⟩ := e
    by_cases hk : k = u
    · simp [Clients.lookup, hk] at h
    · simp only [Clients.lookup, hk, if_false] at h
      simp [Clients.delete, hk, ih h]

/-- A successful lookup returns an entry of the map. -/
theorem mem_of_lookup {m : Clients} {u : String} {l : List Conn} (h : m.lookup u = some l) :
    (u, l) ∈ m := by
  induction m with
  | nil => simp [Clients.lookup] at h
  | cons e m ih =>
    obtain ⟨k, w⟩ := e
    by_cases hk : k = u
    · simp only [Clients.lookup, hk, if_true, Option.some.injEq] at h
      subst hk; subst h; simp
    · simp only [Clients.lookup, hk, if_false] at h
      exact List.mem_cons_of_mem _ (ih h)

/-- Entries of the map after an assignment. -/
theorem mem_set {m : Clients} {u : String} {l : List Conn} {e : String × List Conn}
    (h : e ∈ m.set u l) : e = (u, l) ∨ e ∈ m := by
  induction m with
  | nil => simp [Clients.set] at h; exact Or.inl h
  | cons x m ih =>
    obtain ⟨k, w⟩ := x
    by_cases hk : k = u
    · simp only [Clients.set, hk, if_true, List.mem_cons] at h
      rcases h with h | h
      · exact Or.inl h
      · exact Or.inr (List.mem_cons_of_mem _ h)
    · simp only [Clients.set, hk, if_false, List.mem_cons] at h
      rcases h with h | h
      · exact Or.inr (h ▸ List.mem_cons_self _ _)
      · rcases ih h with h' | h'
        · exact Or.inl h'
        · exact Or.inr (List.mem_cons_of_mem _ h')

/-- Entries of the map after a deletion. -/
theorem mem_delete {m : Clients} {u : String} {e : String × List Conn}
    (h : e ∈ m.delete u) : e ∈ m ∧ e.1 ≠ u := by
  induction m with
  | nil => simp [Clients.delete] at h
  | cons x m ih =>
    obtain ⟨k, w⟩ := x
    by_cases hk : k = u
    · simp only [Clients.delete, hk, if_true] at h
      exact ⟨List.mem_cons_of_mem _ (ih h).1, (ih h).2⟩
    · simp only [Clients.delete, hk, if_false, List.mem_cons] at h
      rcases h with h | h
      · subst h; exact ⟨List.mem_cons_self _ _, hk⟩
      · exact ⟨List.mem_cons_of_mem _ (ih h).1, (ih h).2⟩

/-- What `unregisterClient` does when the connection is in the user's list: it is closed, its
first occurrence is removed, and the key goes away with the last connection. -/
theorem unregisterClient_of_mem {h : ChatroomHandler} {u : String} {c : Conn}
    (hc : c ∈ h.clients.get u) :
    unregisterClient h u c =
      { clients :=
          if (h.clients.get u).erase c = [] then
            (h.clients.set u ((h.clients.get u).erase c)).delete u
          else h.clients.set u ((h.clients.get u).erase c),
        closedConns := c :: h.closedConns } := by
  cases hi : firstIndexOf c (h.clients.get u) with
  | none => exact absurd hc (firstIndexOf_none.1 hi)
  | some i =>
    have he := (firstIndexOf_some hi).1
    unfold unregisterClient
    simp only [hi, he, get_set, if_true, List.length_eq_zero]
    split <;> rfl

/-- What `unregisterClient` does when the connection is not in the user's list. -/
theorem unregisterClient_of_not_mem {h : ChatroomHandler} {u : String} {c : Conn}
    (hc : c ∉ h.clients.get u) :
    unregisterClient h u c =
      if h.clients.get u = [] then { h with clients := h.clients.delete u } else h := by
  unfold unregisterClient
  simp only [firstIndexOf_none.2 hc, List.length_eq_zero]

/-- In a reachable registry no entry of the map holds an empty list. -/
theorem reachable_nonempty {h : ChatroomHandler} (hr : Reachable h) :
    ∀ e ∈ h.clients, e.2 ≠ [] := by
  induction hr with
  | init => intro e he; simp [NewChatroomHandler] at he
  | @register h u c _ ih =>
    intro e he
    rcases mem_set he with rfl | he'
    · simp
    · exact ih e he'
  | @unregister h u c _ ih =>
    intro e he
    by_cases hc : c ∈ h.clients.get u
    · rw [unregisterClient_of_mem hc] at he
      by_cases hemp : (h.clients.get u).erase c = []
      · simp only [hemp, if_true] at he
        obtain ⟨he1, he2⟩ := mem_delete he
        rcases mem_set he1 with rfl | he'
        · exact absurd rfl he2
        · exact ih e he'
      · simp only [hemp, if_false] at he
        rcases mem_set he with rfl | he'
        · exact hemp
        · exact ih e he'
    · rw [unregisterClient_of_not_mem hc] at he
      split at he
      · exact ih e (mem_delete he).1
      · exact ih e he

/-- Occurrences of a connection after an assignment. -/
theorem connCount_set (m : Clients) (u : String) (l : List Conn) (c : Conn) :
    connCount (m.set u l) c + (m.get u).count c = connCount m c + l.count c := by
  induction m with
  | nil => simp [Clients.set, connCount, Clients.get, Clients.lookup]
  | cons e m ih =>
    obtain ⟨k, w⟩ := e
    by_cases hk : k = u
    · simp [Clients.set, connCount, Clients.get, Clients.lookup, hk]; omega
    · simp only [Clients.set, connCount, Clients.get, Clients.lookup, hk, if_false,
        List.map_cons, List.sum_cons] at ih ⊢
      omega

/-- Deleting a key does not add occurrences of a connection. -/
theorem connCount_delete_le (m : Clients) (u : String) (c : Conn) :
    connCount (m.delete u) c ≤ connCount m c := by
  induction m with
  | nil => simp [Clients.delete]
  | cons e m ih =>
    obtain ⟨k, w⟩ := e
    by_cases hk : k = u
    · simp only [Clients.delete, hk, if_true, connCount, List.map_cons, List.sum_cons] at ih ⊢
      omega
    · simp only [Clients.delete, hk, if_false, connCount, List.map_cons, List.sum_cons] at ih ⊢
      omega

/-- A connection that occurs in no list receives no write. -/
theorem not_written_of_connCount_zero {h : ChatroomHandler} {c : Conn}
    (h0 : connCount h.clients c = 0) (messageJSON : Option String) :
    c ∉ (broadcastMessage h messageJSON).map Prod.fst := by
  cases messageJSON with
  | none => simp [broadcastMessage]
  | some msg =>
    intro hmem
    simp only [broadcastMessage, List.mem_map, List.mem_flatMap] at hmem
    obtain ⟨p, ⟨e, he, d, hd, hdp⟩, hpc⟩ := hmem
    have hcd : d = c := by rw [← hpc, ← hdp]
    subst hcd
    have hpos : 0 < e.2.count d := List.count_pos_iff.2 hd
    have hle : e.2.count d ≤ connCount h.clients d := by
      unfold connCount
      exact List.single_le_sum (fun _ _ => Nat.zero_le _) _ (List.mem_map.2 ⟨e, he, rfl⟩)
    omega



/-- C6, as stated, fails: in the reachable registry where connection 7 was registered
twice for user u, connection 7 is registered for u, and after `unregisterClient(u, 7)` a
broadcast still writes to connection 7. -/
theorem unregister_then_broadcast_still_writes :
    Reachable twiceRegistered ∧ 7 ∈ twiceRegistered.clients.get "u" ∧
      7 ∈ (broadcastMessage (unregisterClient twiceRegistered "u" 7) (some "event")).map
        Prod.fst :=
  ⟨.register _ _ (.register _ _ .init), by decide, by decide⟩

/-- C6, amended: in every registry state, for a connection `c` in the list of user `u`:
if `c` is registered exactly once in the whole registry, then after
`unregisterClient(u, c)` no broadcast attempts a write to `c`; and, however often `c` is
registered, whenever the removal leaves `u` without connections the key `u` is absent
from the clients map. -/
theorem unregister_then_broadcast_skips (h : ChatroomHandler) (u : String) (c : Conn)
    (hc : c ∈ h.clients.get u) :
    (connCount h.clients c = 1 →
      ∀ messageJSON,
        c ∉ (broadcastMessage (unregisterClient h u c) messageJSON).map Prod.fst) ∧
      ((h.clients.get u).erase c = [] → (unregisterClient h u c).clients.lookup u = none) := by
  constructor
  · intro hone messageJSON
    have hpos : 0 < (h.clients.get u).count c := List.count_pos_iff.2 hc
    have hset := connCount_set h.clients u ((h.clients.get u).erase c) c
    rw [List.count_erase_self] at hset
    have hzero : connCount (h.clients.set u ((h.clients.get u).erase c)) c = 0 := by omega
    apply not_written_of_connCount_zero
    rw [unregisterClient_of_mem hc]
    by_cases hemp : (h.clients.get u).erase c = []
    · simp only [hemp, if_true]
      have := connCount_delete_le (h.clients.set u ((h.clients.get u).erase c)) u c
      rw [hemp] at this hzero
      omega
    · simp only [hemp, if_false]; exact hzero
  · intro hemp
    rw [unregisterClient_of_mem hc]
    simp only [hemp, if_true]
    rw [lookup_delete]; simp

/-- Witness for C6 amended: user u holds the connection 7 alone and user v holds
connection 9; unregistering 7 from u removes the last connection of u, so no broadcast
writes to 7 and the key u is gone. In the registry where connection 7 is registered for u
and for v, unregistering it from u removes the key u as well. -/
theorem unregister_then_broadcast_skips_witness :
    (∀ messageJSON, 7 ∉ (broadcastMessage (unregisterClient
        { clients := [("u", [7]), ("v", [9])], closedConns := [] } "u" 7) messageJSON).map
          Prod.fst) ∧
      (unregisterClient { clients := [("u", [7]), ("v", [9])], closedConns := [] } "u"
        7).clients.lookup "u" = none ∧
      (unregisterClient sharedConnection "u" 7).clients.lookup "u" = none :=
  ⟨(unregister_then_broadcast_skips { clients := [("u", [7]), ("v", [9])], closedConns := [] }
      "u" 7 (by decide)).1 (by decide),
    (unregister_then_broadcast_skips { clients := [("u", [7]), ("v", [9])], closedConns := [] }
      "u" 7 (by decide)).2 (by decide),
    (unregister_then_broadcast_skips sharedConnection "u" 7 (by decide)).2 (by decide)⟩

/-- C7: in every registry state reachable from the empty clients map by `registerClient`
and `unregisterClient` calls, no entry of the map holds an empty connection list, so no
user key maps to an empty list. -/
theorem reachable_no_empty_list (h : ChatroomHandler) (hr : Reachable h) :
    (∀ e ∈ h.clients, e.2 ≠ []) ∧ ∀ u, h.clients.lookup u ≠ some [] := by
  refine ⟨reachable_nonempty hr, ?_⟩
  intro u hu
  exact reachable_nonempty hr _ (mem_of_lookup hu) rfl

/-- Witness for C7: the registry after registering connections 1 and 2 for user u and
unregistering connection 1. -/
theorem reachable_no_empty_list_witness :
    (∀ e ∈ (unregisterClient (registerClient (registerClient NewChatroomHandler "u" 1) "u" 2)
        "u" 1).clients, e.2 ≠ []) ∧
      ∀ u, (unregisterClient (registerClient (registerClient NewChatroomHandler "u" 1) "u" 2)
        "u" 1).clients.lookup u ≠ some [] :=
  reachable_no_empty_list _ (.unregister _ _ (.register _ _ (.register _ _ .init)))

/-- C8: for every registry state and every connection `c` in the list of user `u`,
`unregisterClient(u, c)` closes `c` (and nothing else), removes the first entry identical
to `c` from the list of `u` keeping the other entries in order, and leaves the entry of
every other user as it was. -/
theorem unregisterClient_removes_one (h : ChatroomHandler) (u : String) (c : Conn)
    (hc : c ∈ h.clients.get u) :
    (unregisterClient h u c).closedConns = c :: h.closedConns ∧
      (∃ l₁ l₂, h.clients.get u = l₁ ++ c :: l₂ ∧ c ∉ l₁ ∧
        (unregisterClient h u c).clients.get u = l₁ ++ l₂) ∧
      ((unregisterClient h u c).clients.get u).count c + 1 = (h.clients.get u).count c ∧
      ∀ v, v ≠ u → (unregisterClient h u c).clients.lookup v = h.clients.lookup v := by
  have hget : (unregisterClient h u c).clients.get u = (h.clients.get u).erase c := by
    rw [unregisterClient_of_mem hc]
    by_cases hemp : (h.clients.get u).erase c = []
    · simp only [hemp, if_true]; rw [get_delete]; simp
    · simp only [hemp, if_false]; rw [get_set]; simp
  refine ⟨?_, ?_, ?_, ?_⟩
  · rw [unregisterClient_of_mem hc]
  · obtain ⟨l₁, l₂, h1, h2, h3⟩ := List.exists_erase_eq hc
    exact ⟨l₁, l₂, h2, h1, hget.trans h3⟩
  · rw [hget, List.count_erase_self]
    have := List.count_pos_iff.2 hc
    omega
  · intro v hv
    have hv' : ¬ u = v := fun e => hv e.symm
    rw [unregisterClient_of_mem hc]
    by_cases hemp : (h.clients.get u).erase c = []
    · simp only [hemp, if_true]; rw [lookup_delete, lookup_set]; simp [hv']
    · simp only [hemp, if_false]; rw [lookup_set]; simp [hv']

/-- Witness for C8: user u holds connections 7, 8, 7 and user v holds connection 7;
unregistering 7 from u. -/
theorem unregisterClient_removes_one_witness :
    (unregisterClient { clients := [("u", [7, 8, 7]), ("v", [7])], closedConns := [] } "u"
        7).closedConns = [7] ∧
      (∃ l₁ l₂, Clients.get [("u", [7, 8, 7]), ("v", [7])] "u" = l₁ ++ 7 :: l₂ ∧ 7 ∉ l₁ ∧
        (unregisterClient { clients := [("u", [7, 8, 7]), ("v", [7])], closedConns := [] } "u"
          7).clients.get "u" = l₁ ++ l₂) ∧
      ((unregisterClient { clients := [("u", [7, 8, 7]), ("v", [7])], closedConns := [] } "u"
          7).clients.get "u").count 7 + 1 = (Clients.get [("u", [7, 8, 7]), ("v", [7])] "u").count 7 ∧
      ∀ v, v ≠ "u" →
        (unregisterClient { clients := [("u", [7, 8, 7]), ("v", [7])], closedConns := [] } "u"
          7).clients.lookup v = Clients.lookup [("u", [7, 8, 7]), ("v", [7])] v :=
  unregisterClient_removes_one { clients := [("u", [7, 8, 7]), ("v", [7])], closedConns := [] }
    "u" 7 (by decide)

/-- C9: in every reachable registry state, `unregisterClient(u, c)` for a connection `c`
that is not in the list of `u` (also when `u` has no entry) returns the state unchanged:
the clients map is the same and no connection has been closed. -/
theorem unregisterClient_absent_noop (h : ChatroomHandler) (u : String) (c : Conn)
    (hr : Reachable h) (hc : c ∉ h.clients.get u) : unregisterClient h u c = h := by
  rw [unregisterClient_of_not_mem hc]
  split
  · rename_i hemp
    have hnone : h.clients.lookup u = none := by
      cases hl : h.clients.lookup u with
      | none => rfl
      | some l =>
        have : l = [] := by simpa [Clients.get, hl] using hemp
        subst this
        exact absurd rfl (reachable_nonempty hr _ (mem_of_lookup hl))
    rw [delete_of_lookup_none hnone]
  · rfl

/-- Witness for C9: user u holds connection 1 only; unregistering connection 2 from u. -/
theorem unregisterClient_absent_noop_witness :
    unregisterClient (registerClient NewChatroomHandler "u" 1) "u" 2 =
      registerClient NewChatroomHandler "u" 1 :=
  unregisterClient_absent_noop _ "u" 2 (.register _ _ .init) (by decide)

/-- C10: for every registry state, user `u` and connection `c`, `registerClient(u, c)`
makes the entry of `u` its previous list (empty when `u` had no entry) with `c` appended
at the end, so the list of `u` has one more entry and one more occurrence of `c` also
when `c` was registered before; the entries of all other users and the closed
connections are unchanged. -/
theorem registerClient_appends (h : ChatroomHandler) (u : String) (c : Conn) :
    (registerClient h u c).clients.lookup u = some (h.clients.get u ++ [c]) ∧
      (h.clients.lookup u = none → (registerClient h u c).clients.lookup u = some [c]) ∧
      ((registerClient h u c).clients.get u).length = (h.clients.get u).length + 1 ∧
      ((registerClient h u c).clients.get u).count c = (h.clients.get u).count c + 1 ∧
      (∀ v, v ≠ u → (registerClient h u c).clients.lookup v = h.clients.lookup v) ∧
      (registerClient h u c).closedConns = h.closedConns := by
  have hl : (registerClient h u c).clients.lookup u = some (h.clients.get u ++ [c]) := by
    simp [registerClient, lookup_set]
  have hg : (registerClient h u c).clients.get u = h.clients.get u ++ [c] := by
    simp [Clients.get, hl]
  refine ⟨hl, ?_, ?_, ?_, ?_, rfl⟩
  · intro hn; rw [hl]; simp [Clients.get, hn]
  · rw [hg]; simp
  · rw [hg]; simp
  · intro v hv
    have hv' : ¬ u = v := fun e => hv e.symm
    simp [registerClient, lookup_set, hv']

/-- The writes to the connections of one user, one for each entry of the list. -/
theorem writeToConnections_eq (userID messageJSON : String) (writeErr : Conn → Bool)
    (conns : List Conn) :
    writeToConnections userID messageJSON writeErr conns =
      conns.map (fun conn => ⟨userID, conn, messageJSON, writeErr conn⟩) := by
  induction conns with
  | nil => rfl
  | cons c cs ih => simp [writeToConnections, ih]

/-- Number of writes a broadcast makes to one connection. -/
theorem writes_to_conn (m : Clients) (msg : String) (writeErr : Conn → Bool) (c : Conn) :
    ((m.flatMap (fun e => writeToConnections e.1 msg writeErr e.2)).filter
      (fun a => a.conn == c)).length = connCount m c := by
  induction m with
  | nil => rfl
  | cons e m ih =>
    have hone : ((writeToConnections e.1 msg writeErr e.2).filter
        (fun a => a.conn == c)).length = e.2.count c := by
      rw [writeToConnections_eq]
      induction e.2 with
      | nil => rfl
      | cons x xs ihx =>
        by_cases hx : x = c
        · subst hx
          simp only [List.map_cons, List.filter_cons, beq_self_eq_true, if_true,
            List.length_cons, List.count_cons_self, ihx]
        · have hx' : (x == c) = false := by simpa using hx
          have hcx : c ≠ x := fun e => hx e.symm
          rw [List.count_cons_of_ne hcx, ← ihx]
          simp [List.filter_cons, hx']
    simp only [List.flatMap_cons, List.filter_append, List.length_append, hone, ih, connCount,
      List.map_cons, List.sum_cons]

/-- C12: for every registry state and event, whatever writes fail, `broadcastMessage`
leaves the registry as it was (clients map and closed connections), and every connection
it wrote to, in particular one whose write failed, is still in the list of its user
afterwards. -/
theorem broadcast_keeps_registry (h : ChatroomHandler) (messageJSON : Option String)
    (writeErr : Conn → Bool) :
    (broadcastMessageRun h messageJSON writeErr).1 = h ∧
      ∀ a ∈ (broadcastMessageRun h messageJSON writeErr).2,
        ∃ e ∈ (broadcastMessageRun h messageJSON writeErr).1.clients,
          e.1 = a.userID ∧ a.conn ∈ e.2 := by
  cases messageJSON with
  | none => exact ⟨rfl, fun a ha => by simp [broadcastMessageRun] at ha⟩
  | some m =>
    refine ⟨rfl, ?_⟩
    intro a ha
    simp only [broadcastMessageRun, writeToConnections_eq, List.mem_flatMap, List.mem_map] at ha
    obtain ⟨e, he, c, hc, rfl⟩ := ha
    exact ⟨e, he, rfl, hc⟩

/-- Registering a connection adds one occurrence of it and of nothing else. -/
theorem connCount_register (h : ChatroomHandler) (u : String) (c c' : Conn) :
    connCount (registerClient h u c).clients c' =
      connCount h.clients c' + if c = c' then 1 else 0 := by
  have := connCount_set h.clients u (h.clients.get u ++ [c]) c'
  simp only [registerClient, List.count_append, List.count_cons, List.count_nil] at this ⊢
  by_cases hc : c = c'
  · simp only [hc, beq_self_eq_true, if_true] at this ⊢; omega
  · have hb : (c == c') = false := by simpa using hc
    simp only [hc, hb, if_false] at this ⊢
    simp at this
    omega

/-- Unregistering adds no occurrence of any connection. -/
theorem connCount_unregister_le (h : ChatroomHandler) (u : String) (c c' : Conn) :
    connCount (unregisterClient h u c).clients c' ≤ connCount h.clients c' := by
  by_cases hc : c ∈ h.clients.get u
  · rw [unregisterClient_of_mem hc]
    have hset := connCount_set h.clients u ((h.clients.get u).erase c) c'
    have hsub : ((h.clients.get u).erase c).count c' ≤ (h.clients.get u).count c' :=
      (List.erase_sublist c (h.clients.get u)).count_le c'
    have hle : connCount (h.clients.set u ((h.clients.get u).erase c)) c'
        ≤ connCount h.clients c' := by omega
    by_cases hemp : (h.clients.get u).erase c = []
    · simp only [hemp, if_true]
      have := connCount_delete_le (h.clients.set u ((h.clients.get u).erase c)) u c'
      rw [hemp] at this hle
      omega
    · simp only [hemp, if_false]; exact hle
  · rw [unregisterClient_of_not_mem hc]
    split
    · exact connCount_delete_le h.clients u c'
    · exact Nat.le_refl _

/-- When only connections that are not in the registry are registered, no connection
occurs twice in the registry. -/
theorem fresh_connCount_le_one {h : ChatroomHandler} (hr : ReachableFresh h) (c : Conn) :
    connCount h.clients c ≤ 1 := by
  induction hr with
  | init => simp [NewChatroomHandler, connCount]
  | @register h u d _ hfresh ih =>
    rw [connCount_register]
    by_cases hd : d = c
    · subst hd; simp [hfresh]
    · simp [hd]; exact ih
  | @unregister h u d _ ih =>
    exact Nat.le_trans (connCount_unregister_le h u d c) ih

/-- C11, as stated, fails: in the reachable registry where connection 7 was registered
twice for user u, one broadcast attempts two writes to connection 7. -/
theorem broadcast_writes_twice_to_duplicate :
    Reachable twiceRegistered ∧
      (broadcastMessageRun twiceRegistered (some "event") (fun _ => false)).2.map
          (fun a => (a.userID, a.conn, a.payload)) = [("u", 7, "event"), ("u", 7, "event")] ∧
      ((broadcastMessageRun twiceRegistered (some "event") (fun _ => false)).2.filter
        (fun a => a.conn == 7)).length = 2 :=
  ⟨.register _ _ (.register _ _ .init), by decide, by decide⟩

/-- C11, amended: for every registry state, every serialized event and whatever writes
fail, `broadcastMessage` attempts, user by user, one write for every entry of every
connection list, each with the same serialized message, and the writes attempted do not
depend on which of them fail; a connection receives as many writes as it has entries in
the registry. In a registry built by registering only connections that are not in the
registry at that moment, every connection of every user receives exactly one write. -/
theorem broadcast_writes_every_connection (h : ChatroomHandler) (messageJSON : String)
    (writeErr : Conn → Bool) :
    (broadcastMessageRun h (some messageJSON) writeErr).2.map (fun a => (a.userID, a.conn)) =
        h.clients.flatMap (fun e => e.2.map (fun conn => (e.1, conn))) ∧
      (∀ a ∈ (broadcastMessageRun h (some messageJSON) writeErr).2,
        a.payload = messageJSON ∧ a.failed = writeErr a.conn) ∧
      (∀ c, ((broadcastMessageRun h (some messageJSON) writeErr).2.filter
        (fun a => a.conn == c)).length = connCount h.clients c) ∧
      (broadcastMessageRun h (some messageJSON) writeErr).2.map (fun a => (a.conn, a.payload)) =
        broadcastMessage h (some messageJSON) ∧
      (ReachableFresh h → ∀ e ∈ h.clients, ∀ c ∈ e.2,
        ((broadcastMessageRun h (some messageJSON) writeErr).2.filter
          (fun a => a.conn == c)).length = 1) := by
  refine ⟨?_, ?_, ?_, ?_, ?_⟩
  · simp only [broadcastMessageRun, writeToConnections_eq, List.map_flatMap, List.map_map]
    rfl
  · intro a ha
    simp only [broadcastMessageRun, writeToConnections_eq, List.mem_flatMap, List.mem_map] at ha
    obtain ⟨e, _, c, _, rfl⟩ := ha
    exact ⟨rfl, rfl⟩
  · intro c
    exact writes_to_conn h.clients messageJSON writeErr c
  · simp only [broadcastMessageRun, broadcastMessage, writeToConnections_eq, List.map_flatMap,
      List.map_map]
    rfl
  · intro hfresh e he c hc
    have hwrites : ((broadcastMessageRun h (some messageJSON) writeErr).2.filter
        (fun a => a.conn == c)).length = connCount h.clients c :=
      writes_to_conn h.clients messageJSON writeErr c
    have hle := fresh_connCount_le_one hfresh c
    have hpos : 0 < e.2.count c := List.count_pos_iff.2 hc
    have hge : e.2.count c ≤ connCount h.clients c := by
      unfold connCount
      exact List.single_le_sum (fun _ _ => Nat.zero_le _) _ (List.mem_map.2 ⟨e, he, rfl⟩)
    omega

/-- Witness for C11 amended, the scenario of the claim: users A, B and C hold the
connections 1, 2 and 3, each registered once, and the write to the connection of B
fails; all three writes are attempted with the same payload, those to A and C succeed,
and the connection of B receives exactly one write. -/
theorem broadcast_writes_every_connection_scenario :
    (broadcastMessageRun threeUsers (some "delete_comment") (fun c => c == 2)).2 =
      [⟨"A", 1, "delete_comment", false⟩, ⟨"B", 2, "delete_comment", true⟩,
        ⟨"C", 3, "delete_comment", false⟩] ∧
      (broadcastMessageRun threeUsers (some "delete_comment") (fun c => c == 2)).2.map
          (fun a => (a.userID, a.conn)) =
        threeUsers.clients.flatMap (fun e => e.2.map (fun conn => (e.1, conn))) ∧
      ((broadcastMessageRun threeUsers (some "delete_comment") (fun c => c == 2)).2.filter
        (fun a => a.conn == 2)).length = 1 :=
  ⟨by decide,
    (broadcast_writes_every_connection threeUsers "delete_comment" (fun c => c == 2)).1,
    (broadcast_writes_every_connection threeUsers "delete_comment" (fun c => c == 2)).2.2.2.2
      (.register _ _ (.register _ _ (.register _ _ .init (by decide)) (by decide)) (by decide))
      ("B", [2]) (by decide) 2 (by decide)⟩

/-- The first match of a filter is also the first match of the filter with a further
condition that it satisfies. -/
theorem find?_and_of_first {α : Type} (p q : α → Bool) :
    ∀ (l : List α) (d : α), l.find? p = some d → q d = true →
      l.find? (fun x => p x && q x) = some d
  | [], d, h, _ => by simp at h
  | x :: xs, d, h, hq => by
    by_cases hp : p x = true
    · simp only [List.find?_cons, hp] at h
      cases h
      simp [List.find?_cons, hp, hq]
    · have hp' : p x = false := by simpa using hp
      simp only [List.find?_cons, hp'] at h
      simp only [List.find?_cons, hp', Bool.false_and]
      exact find?_and_of_first p q xs d h hq

/-- After `UpdateOne` the first match of the filter is the updated document, when the
update keeps documents inside the filter. -/
theorem find?_updateOne {α : Type} (p : α → Bool) (f : α → α)
    (hf : ∀ x, p x = true → p (f x) = true) :
    ∀ l : List α, (updateOne p f l).find? p = (l.find? p).map f
  | [] => rfl
  | x :: xs => by
    by_cases hp : p x = true
    · simp [updateOne, List.find?_cons, hp, hf x hp]
    · have hp' : p x = false := by simpa using hp
      simp [updateOne, List.find?_cons, hp', find?_updateOne p f hf xs]

/-- A document of the collection after `UpdateOne` is a document of the collection
before, or the update of one that matches the filter. -/
theorem mem_updateOne {α : Type} (p : α → Bool) (f : α → α) (y : α) :
    ∀ l : List α, y ∈ updateOne p f l → y ∈ l ∨ ∃ x ∈ l, p x = true ∧ y = f x := by
  intro l
  induction l with
  | nil => intro h; simp [updateOne] at h
  | cons x xs ih =>
    intro h
    by_cases hp : p x = true
    · have h' : y = f x ∨ y ∈ xs := by simpa [updateOne, hp] using h
      cases h' with
      | inl h1 => exact Or.inr ⟨x, List.mem_cons_self _ _, hp, h1⟩
      | inr h1 => exact Or.inl (List.mem_cons_of_mem _ h1)
    · have h' : y = x ∨ y ∈ updateOne p f xs := by simpa [updateOne, hp] using h
      cases h' with
      | inl h1 => exact Or.inl (by rw [h1]; exact List.mem_cons_self _ _)
      | inr h1 =>
        cases ih h1 with
        | inl h2 => exact Or.inl (List.mem_cons_of_mem _ h2)
        | inr h2 =>
          obtain ⟨z, hz, hpz, hy⟩ := h2
          exact Or.inr ⟨z, List.mem_cons_of_mem _ hz, hpz, hy⟩

/-- The loop of `RemoveLike` leaves no entry equal to the user. -/
theorem not_mem_removeUser (u : String) : ∀ l : List String, u ∉ removeUser u l
  | [] => by simp [removeUser]
  | x :: xs => by
    by_cases hx : x = u
    · simp only [removeUser, hx, if_true]; exact not_mem_removeUser u xs
    · have hx' : ¬ u = x := fun e => hx e.symm
      simp only [removeUser, hx, if_false, List.mem_cons, hx', false_or]
      exact not_mem_removeUser u xs

/-- The loop of `RemoveLike` changes nothing when the user is not in the list. -/
theorem removeUser_of_not_mem (u : String) : ∀ l : List String, u ∉ l → removeUser u l = l
  | [], _ => rfl
  | x :: xs, h => by
    have hx : ¬ x = u := fun e => h (e ▸ List.mem_cons_self _ _)
    have hxs : u ∉ xs := fun e => h (List.mem_cons_of_mem _ e)
    simp [removeUser, hx, removeUser_of_not_mem u xs hxs]

/-- The loop of `RemoveLike` keeps the other entries, in order. -/
theorem removeUser_sublist (u : String) : ∀ l : List String, (removeUser u l).Sublist l
  | [] => List.Sublist.slnil
  | x :: xs => by
    by_cases hx : x = u
    · simp only [removeUser, hx, if_true]
      exact (removeUser_sublist u xs).cons _
    · simp only [removeUser, hx, if_false]
      exact (removeUser_sublist u xs).cons₂ _

/-- The lookup of the post repository returns the stored post when the document with the
id is not deleted and the driver does not fail. -/
theorem PostRepository.FindByID_stored {r : PostRepository} {id : String} {d : PostDoc}
    (hstored : r.collection.find? (fun x => x.post.ID == id) = some d)
    (hlive : d.deleted_at = none) (hfind : r.findOneErr id = false) :
    r.FindByID id = .ok d.post ∧ d.post.ID = id := by
  have hid : d.post.ID = id := by simpa using List.find?_some hstored
  have h2 := find?_and_of_first (fun x : PostDoc => x.post.ID == id)
    (fun x => x.deleted_at.isNone) r.collection d hstored (by simp [hlive])
  refine ⟨?_, hid⟩
  unfold PostRepository.FindByID
  simp only [hfind, Bool.false_eq_true, if_false, h2]

/-- The stored post after it has been replaced. -/
theorem withStoredPost_find {s : ChatroomService} {postID : String} {d : PostDoc} (post : Post)
    (hstored : s.postRepo.collection.find? (fun x => x.post.ID == postID) = some d)
    (hid : post.ID = postID) :
    (s.withStoredPost postID post).postRepo.collection.find? (fun x => x.post.ID == postID) =
      some { d with post := post } := by
  have := find?_updateOne (fun x : PostDoc => x.post.ID == postID)
    (fun x => { x with post := post }) (fun x _ => by simp [hid]) s.postRepo.collection
  rw [hstored] at this
  exact this

/-- The state in which `LikePost` leaves the service when the user is in the liked-user
list of the stored post and the driver does not fail. -/
theorem LikePost_unlike {s : ChatroomService} {postID userID : String} {d : PostDoc}
    (sched : Nat → Nat) (now : Nat)
    (hstored : s.postRepo.collection.find? (fun x => x.post.ID == postID) = some d)
    (hlive : d.deleted_at = none) (hfind : s.postRepo.findOneErr postID = false)
    (hupd : s.postRepo.updateErr postID = false) (hmem : userID ∈ d.post.LikedUserId) :
    (∃ p, (s.LikePost sched now postID userID).1 = some (.ok p)) ∧
      (s.LikePost sched now postID userID).2 =
        s.withStoredPost postID { d.post with
          Likes := if 0 < d.post.Likes then d.post.Likes - 1 else d.post.Likes,
          LikedUserId := removeUser userID d.post.LikedUserId,
          UpdatedAt := now } := by
  obtain ⟨hf, hid⟩ := PostRepository.FindByID_stored hstored hlive hfind
  have hc : d.post.LikedUserId.contains userID = true := by simpa using hmem
  unfold ChatroomService.LikePost ChatroomService.withStoredPost
  simp only [hf, hc, if_true, PostRepository.RemoveLike, PostRepository.Update]
  by_cases hpos : 0 < d.post.Likes
  · simp only [hpos, if_true, hid, hupd, Bool.false_eq_true, if_false, FetchPostsComments_eq]
    exact ⟨⟨_, rfl⟩, trivial⟩
  · simp only [hpos, if_false, hid, hupd, Bool.false_eq_true, FetchPostsComments_eq]
    exact ⟨⟨_, rfl⟩, trivial⟩

/-- The state in which `LikePost` leaves the service when the user is not in the
liked-user list of the stored post and the driver does not fail. -/
theorem LikePost_like {s : ChatroomService} {postID userID : String} {d : PostDoc}
    (sched : Nat → Nat) (now : Nat)
    (hstored : s.postRepo.collection.find? (fun x => x.post.ID == postID) = some d)
    (hlive : d.deleted_at = none) (hfind : s.postRepo.findOneErr postID = false)
    (hupd : s.postRepo.updateErr postID = false) (hmem : userID ∉ d.post.LikedUserId) :
    (∃ p, (s.LikePost sched now postID userID).1 = some (.ok p)) ∧
      (s.LikePost sched now postID userID).2 =
        s.withStoredPost postID { d.post with
          Likes := d.post.Likes + 1,
          LikedUserId := d.post.LikedUserId ++ [userID],
          UpdatedAt := now } := by
  obtain ⟨hf, hid⟩ := PostRepository.FindByID_stored hstored hlive hfind
  have hc : d.post.LikedUserId.contains userID = false := by simpa using hmem
  unfold ChatroomService.LikePost ChatroomService.withStoredPost
  simp only [hf, hc, Bool.false_eq_true, if_false, PostRepository.AddLike,
    PostRepository.Update, hid, hupd, FetchPostsComments_eq]
  exact ⟨⟨_, rfl⟩, trivial⟩

/-- The user that `DeletePost` and `DeleteComment` check has the id that was asked for,
or is the zero user. -/
theorem userOrZero_ID (s : ChatroomService) (userID : String) :
    (s.userOrZero userID).ID = userID ∨ s.userOrZero userID = User.zero := by
  unfold ChatroomService.userOrZero UserRepository.FindByID
  by_cases he : s.userRepo.findOneErr userID = true
  · simp [he]
  · simp only [he, if_false]
    cases hf : s.userRepo.collection.find? (fun u => u.ID == userID) with
    | none => exact Or.inr rfl
    | some u => exact Or.inl (by simpa using List.find?_some hf)

/-- For a stored post with a non-empty author id, a user who is neither the author nor an
administrator is refused by `DeletePost`, and the service is left as it was. -/
theorem DeletePost_denied {s : ChatroomService} {postID userID : String} {d : PostDoc}
    (now : Nat)
    (hstored : s.postRepo.collection.find? (fun x => x.post.ID == postID) = some d)
    (hlive : d.deleted_at = none) (hfind : s.postRepo.findOneErr postID = false)
    (hauthor : d.post.UserID ≠ userID) (hnonempty : d.post.UserID ≠ "")
    (hrole : (s.userOrZero userID).Role ≠ "admin") :
    s.DeletePost now postID userID = (some "não autorizado a excluir esta postagem", s) := by
  obtain ⟨hf, _⟩ := PostRepository.FindByID_stored hstored hlive hfind
  have hid : d.post.UserID ≠ (s.userOrZero userID).ID := by
    rcases userOrZero_ID s userID with h | h
    · rw [h]; exact hauthor
    · rw [h]; exact hnonempty
  unfold ChatroomService.DeletePost
  simp [hf, hid, hrole]

/-- C14, evaluated at the failing input: post `p`, created by `u1`, has been deleted by
`u1`; `u2` is a stored user with role `user`, so neither the author of `p` nor an
administrator, and the driver fails on the lookup of `u2` that `DeletePost` makes.
`DeletePost(p, u2)` returns no error and the stored post `p` gets a new `deleted_at` and
`updated_at`; when the lookup does not fail the same call is refused. -/
theorem DeletePost_failed_lookup_deletes :
    failingLookupService.postRepo.collection.map
        (fun d => (d.post.ID, d.post.UserID, d.post.UpdatedAt, d.deleted_at)) =
      [("p", "u1", 50, some 50)] ∧
      failingLookupService.userRepo.collection.map (fun u => (u.ID, u.Role)) =
        [("u1", "user"), ("u2", "user"), ("admin1", "admin")] ∧
      (failingLookupService.userRepo.FindByID "u2").toOption.map (fun u => u.ID) = none ∧
      (failingLookupService.DeletePost 60 "p" "u2").1 = none ∧
      (failingLookupService.DeletePost 60 "p" "u2").2.postRepo.collection.map
        (fun d => (d.post.ID, d.post.UserID, d.post.UpdatedAt, d.deleted_at)) =
          [("p", "u1", 60, some 60)] ∧
      (deletedPostService.DeletePost 60 "p" "u2").1 =
        some "não autorizado a excluir esta postagem" := by
  decide

/-- C16, evaluated at the failing input: no stored post and no stored comment has the id
`nope`; `CommentPost` on the post id `nope` returns a comment without an error and stores
the comment `c9` with parent post `nope`, and `ReplayComment` on the comment id `nope`
returns without an error and stores the reply `c9` with parent comment `nope`. -/
theorem CommentPost_absent_parent_creates :
    scenarioService.postRepo.collection.map (fun d => d.post.ID) = ["q", "p"] ∧
      scenarioService.commentRepo.collection.map (fun c => c.ID) = ["c2", "r1", "c1"] ∧
      (scenarioService.CommentPost "c9" 99 "nope" (mkComment "" "" "" 0) "u1").1.toOption.map
        (fun c => (c.ReferenceID, c.Reference)) = some ("nope", "post") ∧
      (scenarioService.CommentPost "c9" 99 "nope" (mkComment "" "" "" 0)
          "u1").2.commentRepo.collection.map (fun c => (c.ID, c.ReferenceID, c.Reference)) =
        [("c2", "p", "post"), ("r1", "c1", "comment"), ("c1", "p", "post"),
          ("c9", "nope", "post")] ∧
      (scenarioService.ReplayComment "c9" 99 "nope" (mkComment "" "" "" 0) "u1").1.toOption.map
        (fun c => (c.ReferenceID, c.Reference)) = some ("nope", "comment") ∧
      (scenarioService.ReplayComment "c9" 99 "nope" (mkComment "" "" "" 0)
          "u1").2.commentRepo.collection.map (fun c => (c.ID, c.ReferenceID, c.Reference)) =
        [("c2", "p", "post"), ("r1", "c1", "comment"), ("c1", "p", "post"),
          ("c9", "nope", "comment")] := by
  decide

/-- C20, evaluated at the failing input: comment `c1` is stored with like counter 1 and
liked by `u1`; `LikeComment(c1, u1)` returns the error of `Decode` and the stored comment
still has counter 1 and `u1` in its liked-user list. -/
theorem LikeComment_unlike_fails :
    likedService.commentRepo.collection.map (fun c => (c.ID, c.Likes, c.LikedUserId)) =
        [("c1", 1, ["u1"])] ∧
      (likedService.LikeComment 50 "c1" "u1").1 =
        some "argument to Decode must be a pointer or a map" ∧
      (likedService.LikeComment 50 "c1" "u1").2.commentRepo.collection.map
        (fun c => (c.ID, c.Likes, c.LikedUserId)) = [("c1", 1, ["u1"])] := by
  decide

/-- What `PostRepository.FindByID` returns is the zero post or a stored post. -/
theorem PostRepository.FindByID_cases {r : PostRepository} {id : String} {post : Post}
    (h : r.FindByID id = .ok post) : post = Post.zero ∨ ∃ d ∈ r.collection, d.post = post := by
  unfold PostRepository.FindByID at h
  by_cases he : r.findOneErr id = true
  · simp [he] at h
  · simp only [he, if_false] at h
    cases hf : r.collection.find? (fun d => d.post.ID == id && d.deleted_at.isNone) with
    | none =>
      rw [hf] at h
      injection h with h
      exact Or.inl h.symm
    | some d =>
      rw [hf] at h
      injection h with h
      exact Or.inr ⟨d, List.mem_of_find?_eq_some hf, h⟩

/-- Writing a post whose liked-user list has no duplicate keeps the stored posts with a
given id free of duplicates. -/
theorem PostRepository.Update_nodup {r : PostRepository} {id : String} (now : Nat) (post : Post)
    (hinv : ∀ d ∈ r.collection, d.post.ID = id → d.post.LikedUserId.Nodup)
    (hpost : post.ID = id → post.LikedUserId.Nodup) :
    ∀ d ∈ (r.Update now post).2.collection, d.post.ID = id → d.post.LikedUserId.Nodup := by
  unfold PostRepository.Update
  by_cases he : r.updateErr post.ID = true
  · simpa [he] using hinv
  · simp only [he, if_false]
    intro d hd hid
    rcases mem_updateOne _ _ d _ hd with h | ⟨x, _, _, rfl⟩
    · exact hinv d h hid
    · exact hpost hid

/-- The post repository after `LikePost`, in terms of the repository calls. -/
theorem LikePost_postRepo (s : ChatroomService) (sched : Nat → Nat) (now : Nat)
    (postID userID : String) :
    (s.LikePost sched now postID userID).2.postRepo =
      match s.postRepo.FindByID postID with
      | .error _ => s.postRepo
      | .ok post =>
        if post.LikedUserId.contains userID then (s.postRepo.RemoveLike now postID userID).2
        else (s.postRepo.AddLike now postID userID).2 := by
  unfold ChatroomService.LikePost
  cases hf : s.postRepo.FindByID postID with
  | error e => rfl
  | ok post =>
    by_cases hc : post.LikedUserId.contains userID = true
    · simp only [hc, if_true, FetchPostsComments_eq]
      cases (s.postRepo.RemoveLike now postID userID).1 <;> rfl
    · simp only [hc, if_false, FetchPostsComments_eq]
      cases (s.postRepo.AddLike now postID userID).1 <;> rfl

/-- A `LikePost` call keeps the stored posts with a given id free of duplicate users. -/
theorem LikePost_nodup {s : ChatroomService} {id : String} (sched : Nat → Nat) (now : Nat)
    (postID userID : String)
    (hinv : ∀ d ∈ s.postRepo.collection, d.post.ID = id → d.post.LikedUserId.Nodup) :
    ∀ d ∈ (s.LikePost sched now postID userID).2.postRepo.collection,
      d.post.ID = id → d.post.LikedUserId.Nodup := by
  rw [LikePost_postRepo]
  cases hf : s.postRepo.FindByID postID with
  | error e => exact hinv
  | ok post =>
    have hpost : post.ID = id → post.LikedUserId.Nodup := by
      rcases PostRepository.FindByID_cases hf with h | ⟨d, hd, h⟩
      · intro _; rw [h]; exact List.nodup_nil
      · intro hid; rw [← h] at hid ⊢; exact hinv d hd hid
    by_cases hc : post.LikedUserId.contains userID = true
    · simp only [hc, if_true, PostRepository.RemoveLike, hf]
      by_cases hpos : 0 < post.Likes
      · simp only [hpos, if_true]
        apply PostRepository.Update_nodup now _ hinv
        intro hid
        exact (hpost hid).sublist (removeUser_sublist userID post.LikedUserId)
      · simp only [hpos, if_false]
        apply PostRepository.Update_nodup now _ hinv
        intro hid
        exact (hpost hid).sublist (removeUser_sublist userID post.LikedUserId)
    · simp only [hc, if_false, PostRepository.AddLike, hf]
      apply PostRepository.Update_nodup now _ hinv
      intro hid
      have hn : post.LikedUserId.Nodup := hpost hid
      have hnot : userID ∉ post.LikedUserId := by simpa using hc
      show (post.LikedUserId ++ [userID]).Nodup
      rw [List.nodup_append]
      refine ⟨hn, List.nodup_singleton _, ?_⟩
      intro a ha hb
      rw [List.mem_singleton.1 hb] at ha
      exact hnot ha

/-- A `CreatePost` call keeps the stored posts with a given id free of duplicate users. -/
theorem CreatePost_nodup {s : ChatroomService} {id : String} (newID : String) (now : Nat)
    (post : Post)
    (hinv : ∀ d ∈ s.postRepo.collection, d.post.ID = id → d.post.LikedUserId.Nodup) :
    ∀ d ∈ (s.CreatePost newID now post).2.postRepo.collection,
      d.post.ID = id → d.post.LikedUserId.Nodup := by
  unfold ChatroomService.CreatePost PostRepository.Create
  cases s.userRepo.FindByID post.UserID with
  | error e => exact hinv
  | ok user =>
    by_cases hi : s.postRepo.insertErr = true
    · simpa [hi] using hinv
    · simp only [hi, if_false]
      intro d hd hid
      rcases List.mem_append.1 hd with h | h
      · exact hinv d h hid
      · rw [List.mem_singleton.1 h]; exact List.nodup_nil

/-- C19: in every service state reached from the creation of a post, under an identifier
no stored post has, by any sequence of `LikePost` calls made one after the other (any
users, any posts, failing or not), each user id appears at most once in the stored
liked-user list of that post. -/
theorem likes_no_duplicate_user (id : String) (s : ChatroomService) (hr : LikeReachable id s) :
    ∀ d ∈ s.postRepo.collection, d.post.ID = id → d.post.LikedUserId.Nodup := by
  induction hr with
  | created s0 now post hfresh =>
    exact CreatePost_nodup id now post (fun d hd hid => absurd hid (hfresh d hd))
  | like sched now postID userID _ ih =>
    exact LikePost_nodup sched now postID userID ih

/-- Witness for C19: post `p` is created by `u1`, then liked by `u1`, by `u2`, unliked by
`u1` and liked by `u1` again; the stored liked-user list is `[u2, u1]`. -/
theorem likes_no_duplicate_user_witness :
    LikeReachable "p" toggledService ∧
      toggledService.postRepo.collection.map (fun d => (d.post.ID, d.post.LikedUserId)) =
        [("p", ["u2", "u1"])] ∧
      (⟨{ mkPost "p" with Likes := 2, LikedUserId := ["u2", "u1"], UpdatedAt := 9 }, none⟩ :
        PostDoc).post.LikedUserId.Nodup :=
  ⟨.like _ _ _ _ (.like _ _ _ _ (.like _ _ _ _ (.like _ _ _ _
      (.created emptyService 5 (mkPost "") (by decide))))),
    by decide,
    likes_no_duplicate_user "p" toggledService
      (.like _ _ _ _ (.like _ _ _ _ (.like _ _ _ _ (.like _ _ _ _
        (.created emptyService 5 (mkPost "") (by decide))))))
      ⟨{ mkPost "p" with Likes := 2, LikedUserId := ["u2", "u1"], UpdatedAt := 9 }, none⟩
      (by
        show _ ∈ [(⟨{ mkPost "p" with Likes := 2, LikedUserId := ["u2", "u1"], UpdatedAt := 9 },
          none⟩ : PostDoc)]
        exact List.mem_cons_self _ _)
      rfl⟩

/-! ## Theorems: the like toggle on stored posts -/

/-- Inside the range of `int` the wrapped value is the value. -/
theorem wrap64_eq_self (x : Int) (hlo : -(2 : Int) ^ 63 ≤ x) (hhi : x < (2 : Int) ^ 63) :
    wrap64 x = x := by
  unfold wrap64
  omega

/-- An update that touches only documents outside a filter, and writes documents outside
it, does not change the first match of the filter. -/
theorem find?_updateOne_other {α : Type} (p q : α → Bool) (f : α → α)
    (h : ∀ x, p x = true → q x = false ∧ q (f x) = false) :
    ∀ l : List α, (updateOne p f l).find? q = l.find? q
  | [] => rfl
  | x :: xs => by
    by_cases hp : p x = true
    · simp [updateOne, hp, List.find?_cons, (h x hp).1, (h x hp).2]
    · simp [updateOne, hp, List.find?_cons, find?_updateOne_other p q f h xs]

/-- When every stored document with the id is deleted, the lookup returns the zero post
or the error of the driver. -/
theorem FindByID_no_live {r : PostRepository} {id : String}
    (hnolive : ∀ x ∈ r.collection, x.post.ID = id → x.deleted_at ≠ none) :
    r.FindByID id = .ok Post.zero ∨ ∃ e, r.FindByID id = .error e := by
  unfold PostRepository.FindByID
  by_cases he : r.findOneErr id = true
  · exact Or.inr ⟨"find failed", by simp [he]⟩
  · left
    have hnone : r.collection.find? (fun d => d.post.ID == id && d.deleted_at.isNone) = none := by
      rw [List.find?_eq_none]
      intro x hx hp
      simp only [Bool.and_eq_true, beq_iff_eq, Option.isNone_iff_eq_none] at hp
      exact hnolive x hx hp.1 hp.2
    simp [he, hnone]

/-- A `LikePost` call on an id under which only deleted documents are stored leaves the
first stored document with that id as it was, and leaves every document with that id
deleted. -/
theorem LikePost_no_live (s : ChatroomService) (sched : Nat → Nat) (now : Nat)
    (postID userID : String) (hne : postID ≠ "")
    (hnolive : ∀ x ∈ s.postRepo.collection, x.post.ID = postID → x.deleted_at ≠ none) :
    (s.LikePost sched now postID userID).2.postRepo.collection.find?
          (fun x => x.post.ID == postID) =
        s.postRepo.collection.find? (fun x => x.post.ID == postID) ∧
      ∀ x ∈ (s.LikePost sched now postID userID).2.postRepo.collection,
        x.post.ID = postID → x.deleted_at ≠ none := by
  rw [LikePost_postRepo]
  rcases FindByID_no_live hnolive with hf | ⟨e, hf⟩
  · have hc : Post.zero.LikedUserId.contains userID = false := rfl
    simp only [hf, hc, Bool.false_eq_true, if_false, PostRepository.AddLike,
      PostRepository.Update]
    by_cases hu : s.postRepo.updateErr Post.zero.ID = true
    · have hu' : s.postRepo.updateErr "" = true := hu
      simp only [Post.zero, hu', if_true]
      exact ⟨trivial, hnolive⟩
    · have hu' : ¬ s.postRepo.updateErr "" = true := hu
      simp only [Post.zero, hu', if_false]
      constructor
      · apply find?_updateOne_other
        intro x hp
        have hx : x.post.ID = "" := by simpa using hp
        constructor
        · simp only [hx, beq_eq_false_iff_ne, ne_eq]
          exact fun h => hne h.symm
        · simp only [beq_eq_false_iff_ne, ne_eq]
          exact fun h => hne h.symm
      · intro x hx hid
        rcases mem_updateOne _ _ x _ hx with h | ⟨y, _, _, rfl⟩
        · exact hnolive x h hid
        · exact absurd hid.symm hne
  · simp only [hf]
    exact ⟨trivial, hnolive⟩

/-- C17, as stated, fails: post `p`, created by `u1`, is stored and has been deleted by
`u1`; `u2` is not in its liked-user list. `LikePost(p, u2)` returns a post without an
error, and the stored post `p` has the counter and the liked-user list it had: `u2` has
not been added and the counter has not gone up. -/
theorem LikePost_deleted_post_untouched :
    deletedPostService.postRepo.collection.map
        (fun d => (d.post.ID, d.deleted_at, d.post.Likes, d.post.LikedUserId)) =
      [("p", some 50, 0, [])] ∧
      (deletedPostService.LikePost (fun _ => 0) 60 "p" "u2").1.map (fun r => r.isOk) =
        some true ∧
      (deletedPostService.LikePost (fun _ => 0) 60 "p" "u2").2.postRepo.collection.map
        (fun d => (d.post.ID, d.deleted_at, d.post.Likes, d.post.LikedUserId)) =
          [("p", some 50, 0, [])] := by
  decide

/-- C17, amended: for every stored post that is not deleted, whose counter is a value of
`int`, and every user, when the driver does not fail, `LikePost` succeeds and rewrites
the stored post: if the user is in the stored liked-user list, every entry equal to the
user is removed, the other entries stay in order, and the stored counter goes down by
one unless it is not positive, in which case it stays; otherwise, if the counter is not
the largest `int`, the user is appended to the list and the counter goes up by one. In
both cases the subtraction and the addition of the code do not wrap. -/
theorem LikePost_toggles_stored (s : ChatroomService) (sched : Nat → Nat) (now : Nat)
    (postID userID : String) (d : PostDoc)
    (hstored : s.postRepo.collection.find? (fun x => x.post.ID == postID) = some d)
    (hlive : d.deleted_at = none) (hfind : s.postRepo.findOneErr postID = false)
    (hupd : s.postRepo.updateErr postID = false)
    (hint : -(2 : Int) ^ 63 ≤ d.post.Likes ∧ d.post.Likes < (2 : Int) ^ 63) :
    (∃ p, (s.LikePost sched now postID userID).1 = some (.ok p)) ∧
      (userID ∈ d.post.LikedUserId →
        (s.LikePost sched now postID userID).2.postRepo.collection.find?
            (fun x => x.post.ID == postID) =
          some { d with post := { d.post with
            Likes := if 0 < d.post.Likes then d.post.Likes - 1 else d.post.Likes,
            LikedUserId := removeUser userID d.post.LikedUserId,
            UpdatedAt := now } } ∧
          userID ∉ removeUser userID d.post.LikedUserId ∧
          (removeUser userID d.post.LikedUserId).Sublist d.post.LikedUserId ∧
          (0 < d.post.Likes → wrap64 (d.post.Likes - 1) = d.post.Likes - 1)) ∧
      (userID ∉ d.post.LikedUserId → d.post.Likes + 1 < (2 : Int) ^ 63 →
        (s.LikePost sched now postID userID).2.postRepo.collection.find?
            (fun x => x.post.ID == postID) =
          some { d with post := { d.post with
            Likes := d.post.Likes + 1,
            LikedUserId := d.post.LikedUserId ++ [userID],
            UpdatedAt := now } } ∧
          wrap64 (d.post.Likes + 1) = d.post.Likes + 1) := by
  have hid : d.post.ID = postID := (PostRepository.FindByID_stored hstored hlive hfind).2
  refine ⟨?_, ?_, ?_⟩
  · by_cases hmem : userID ∈ d.post.LikedUserId
    · exact (LikePost_unlike sched now hstored hlive hfind hupd hmem).1
    · exact (LikePost_like sched now hstored hlive hfind hupd hmem).1
  · intro hmem
    refine ⟨?_, not_mem_removeUser _ _, removeUser_sublist _ _, ?_⟩
    · rw [(LikePost_unlike sched now hstored hlive hfind hupd hmem).2]
      exact withStoredPost_find _ hstored hid
    · intro hpos
      exact wrap64_eq_self _ (by omega) (by omega)
  · intro hmem hfit
    refine ⟨?_, wrap64_eq_self _ (by omega) hfit⟩
    rw [(LikePost_like sched now hstored hlive hfind hupd hmem).2]
    exact withStoredPost_find _ hstored hid

/-- Witness for C17 amended: post `p` is stored with counter 1 and liked by `u1`; `u1`
toggles, and then `u2`, who is not in the list, toggles on the same store. -/
theorem LikePost_toggles_stored_witness :
    (likedService.LikePost (fun _ => 0) 50 "p" "u1").2.postRepo.collection.find?
          (fun x => x.post.ID == "p") =
        some ⟨{ mkPost "p" with Likes := 0, LikedUserId := [], UpdatedAt := 50 }, none⟩ ∧
      (likedService.LikePost (fun _ => 0) 50 "p" "u2").2.postRepo.collection.find?
          (fun x => x.post.ID == "p") =
        some ⟨{ mkPost "p" with Likes := 2, LikedUserId := ["u1", "u2"], UpdatedAt := 50 },
          none⟩ :=
  ⟨((LikePost_toggles_stored likedService (fun _ => 0) 50 "p" "u1"
      ⟨{ mkPost "p" with Likes := 1, LikedUserId := ["u1"] }, none⟩ rfl rfl rfl rfl
        (by decide)).2.1 (by decide)).1.trans rfl,
    ((LikePost_toggles_stored likedService (fun _ => 0) 50 "p" "u2"
      ⟨{ mkPost "p" with Likes := 1, LikedUserId := ["u1"] }, none⟩ rfl rfl rfl rfl
        (by decide)).2.2 (by decide) (by decide)).1.trans rfl⟩

/-- C18, as stated, fails: post `p` is stored with like counter 0 and with `u1` in its
liked-user list; after two successive `LikePost(p, u1)` calls the stored counter is 1. -/
theorem LikePost_twice_changes_count :
    staleCounterService.postRepo.collection.map
        (fun d => (d.post.ID, d.post.Likes, d.post.LikedUserId)) = [("p", 0, ["u1"])] ∧
      ((staleCounterService.LikePost (fun _ => 0) 50 "p" "u1").2.LikePost (fun _ => 0) 51 "p"
          "u1").2.postRepo.collection.map
        (fun d => (d.post.ID, d.post.Likes, d.post.LikedUserId)) = [("p", 1, ["u1"])] := by
  decide

/-- C18, amended: for every stored post and every user, when the driver does not fail on
the post. If the post is not deleted, the counter is positive when the user is in the
liked-user list, and is neither negative nor the largest `int` when the user is not,
then two successive `LikePost` calls by that user both succeed and leave the stored like
counter and the membership of the user in the stored liked-user list as they were before
the first call; the addition of the first call does not wrap. If the post is deleted
(every stored document with its id is) and its id is not empty, the two calls leave the
stored document as it was. -/
theorem LikePost_twice_restores (s : ChatroomService) (sched₁ sched₂ : Nat → Nat)
    (now₁ now₂ : Nat) (postID userID : String) (d : PostDoc)
    (hstored : s.postRepo.collection.find? (fun x => x.post.ID == postID) = some d)
    (hfind : s.postRepo.findOneErr postID = false)
    (hupd : s.postRepo.updateErr postID = false) :
    (d.deleted_at = none →
      (userID ∈ d.post.LikedUserId → 0 < d.post.Likes) →
      (userID ∉ d.post.LikedUserId → 0 ≤ d.post.Likes ∧ d.post.Likes + 1 < (2 : Int) ^ 63) →
      (∃ p, (s.LikePost sched₁ now₁ postID userID).1 = some (.ok p)) ∧
        (∃ p, ((s.LikePost sched₁ now₁ postID userID).2.LikePost sched₂ now₂ postID userID).1 =
          some (.ok p)) ∧
        (∃ d', ((s.LikePost sched₁ now₁ postID userID).2.LikePost sched₂ now₂ postID
              userID).2.postRepo.collection.find? (fun x => x.post.ID == postID) = some d' ∧
          d'.post.Likes = d.post.Likes ∧
          (userID ∈ d'.post.LikedUserId ↔ userID ∈ d.post.LikedUserId)) ∧
        (userID ∉ d.post.LikedUserId → wrap64 (d.post.Likes + 1) = d.post.Likes + 1)) ∧
      ((∀ x ∈ s.postRepo.collection, x.post.ID = postID → x.deleted_at ≠ none) →
        postID ≠ "" →
        ((s.LikePost sched₁ now₁ postID userID).2.LikePost sched₂ now₂ postID
          userID).2.postRepo.collection.find? (fun x => x.post.ID == postID) = some d) := by
  constructor
  · intro hlive hfloor hfit
    have hid : d.post.ID = postID := (PostRepository.FindByID_stored hstored hlive hfind).2
    have hsame : ∀ p : Post, (s.withStoredPost postID p).postRepo.findOneErr postID = false ∧
        (s.withStoredPost postID p).postRepo.updateErr postID = false :=
      fun _ => ⟨hfind, hupd⟩
    by_cases hmem : userID ∈ d.post.LikedUserId
    · obtain ⟨hok₁, hst₁⟩ := LikePost_unlike sched₁ now₁ hstored hlive hfind hupd hmem
      have hpos : 0 < d.post.Likes := hfloor hmem
      rw [hst₁]
      have hstored₁ := withStoredPost_find { d.post with
        Likes := if 0 < d.post.Likes then d.post.Likes - 1 else d.post.Likes,
        LikedUserId := removeUser userID d.post.LikedUserId,
        UpdatedAt := now₁ } hstored hid
      have hnot : userID ∉ removeUser userID d.post.LikedUserId := not_mem_removeUser _ _
      obtain ⟨hok₂, hst₂⟩ :=
        LikePost_like sched₂ now₂ hstored₁ hlive (hsame _).1 (hsame _).2 hnot
      refine ⟨hok₁, hok₂, ?_, fun h => absurd hmem h⟩
      rw [hst₂]
      refine ⟨_, withStoredPost_find _ hstored₁ hid, ?_, ?_⟩
      · show (if 0 < d.post.Likes then d.post.Likes - 1 else d.post.Likes) + 1 = d.post.Likes
        rw [if_pos hpos]; omega
      · show userID ∈ removeUser userID d.post.LikedUserId ++ [userID] ↔ _
        simp [hmem]
    · obtain ⟨hok₁, hst₁⟩ := LikePost_like sched₁ now₁ hstored hlive hfind hupd hmem
      obtain ⟨hnn, hmax⟩ := hfit hmem
      rw [hst₁]
      have hstored₁ := withStoredPost_find { d.post with
        Likes := d.post.Likes + 1,
        LikedUserId := d.post.LikedUserId ++ [userID],
        UpdatedAt := now₁ } hstored hid
      have hin : userID ∈ d.post.LikedUserId ++ [userID] := by simp
      obtain ⟨hok₂, hst₂⟩ :=
        LikePost_unlike sched₂ now₂ hstored₁ hlive (hsame _).1 (hsame _).2 hin
      refine ⟨hok₁, hok₂, ?_, fun _ => wrap64_eq_self _ (by omega) hmax⟩
      rw [hst₂]
      refine ⟨_, withStoredPost_find _ hstored₁ hid, ?_, ?_⟩
      · show (if 0 < d.post.Likes + 1 then d.post.Likes + 1 - 1 else d.post.Likes + 1)
          = d.post.Likes
        have : 0 < d.post.Likes + 1 := by omega
        rw [if_pos this]; omega
      · show userID ∈ removeUser userID (d.post.LikedUserId ++ [userID]) ↔ _
        constructor
        · intro h; exact absurd h (not_mem_removeUser _ _)
        · intro h; exact absurd h hmem
  · intro hnolive hne
    obtain ⟨h1, hnolive1⟩ := LikePost_no_live s sched₁ now₁ postID userID hne hnolive
    obtain ⟨h2, _⟩ := LikePost_no_live (s.LikePost sched₁ now₁ postID userID).2 sched₂ now₂
      postID userID hne hnolive1
    rw [h2, h1, hstored]

/-- Witness for C18 amended: post `p` is stored with counter 1 and the list `[u1, u2]`;
`u1` toggles twice and the counter is 1 and `u1` is in the list again. Post `p` of the
second store has been deleted; `u2` toggles twice and the stored document is as it was. -/
theorem LikePost_twice_restores_witness :
    ((∃ p, (undercountedService.LikePost (fun _ => 0) 50 "p" "u1").1 = some (.ok p)) ∧
      (∃ p, ((undercountedService.LikePost (fun _ => 0) 50 "p" "u1").2.LikePost (fun n => n) 51
        "p" "u1").1 = some (.ok p)) ∧
      (∃ d', ((undercountedService.LikePost (fun _ => 0) 50 "p" "u1").2.LikePost (fun n => n) 51
            "p" "u1").2.postRepo.collection.find? (fun x => x.post.ID == "p") = some d' ∧
        d'.post.Likes = 1 ∧ ("u1" ∈ d'.post.LikedUserId ↔ "u1" ∈ ["u1", "u2"])) ∧
      ("u1" ∉ ["u1", "u2"] → wrap64 ((1 : Int) + 1) = 1 + 1)) ∧
      ((deletedPostService.LikePost (fun _ => 0) 60 "p" "u2").2.LikePost (fun n => n) 61 "p"
        "u2").2.postRepo.collection.find? (fun x => x.post.ID == "p") = some deletedDoc :=
  ⟨(LikePost_twice_restores undercountedService (fun _ => 0) (fun n => n) 50 51 "p" "u1"
      ⟨{ mkPost "p" with Likes := 1, LikedUserId := ["u1", "u2"] }, none⟩ rfl rfl rfl).1 rfl
        (fun _ => by decide) (fun h => absurd (by decide) h),
    (LikePost_twice_restores deletedPostService (fun _ => 0) (fun n => n) 60 61 "p" "u2"
      deletedDoc rfl rfl rfl).2
        (fun x hx _ => by
          have hx' : x = deletedDoc := List.mem_singleton.1 hx
          rw [hx']
          exact fun h => Option.noConfusion h)
        (by decide)⟩

/-! ## Theorems: deletion, pagination, nil slices and the like invariant -/

/-- C22, evaluated at the failing input: post `p` of author `u1` has the comments `c1`
and `c2`; `DeletePost(p, u1)` succeeds and marks the post as deleted, and afterwards no
comment is marked as deleted and `ListByPostID(p)` still returns `c1` and `c2`. -/
theorem DeletePost_leaves_comments :
    (scenarioWithUsers.DeletePost 50 "p" "u1").1 = none ∧
      (scenarioWithUsers.DeletePost 50 "p" "u1").2.postRepo.collection.map
        (fun d => (d.post.ID, d.deleted_at)) = [("q", none), ("p", some 50)] ∧
      (scenarioWithUsers.DeletePost 50 "p" "u1").2.commentRepo.collection.map
        (fun c => (c.ID, c.ReferenceID, c.DeletedAt)) =
          [("c2", "p", none), ("r1", "c1", none), ("c1", "p", none)] ∧
      ((scenarioWithUsers.DeletePost 50 "p" "u1").2.commentRepo.ListByPostID "p" 0 0).toOption.map
        (fun r => r.1.map (fun c => c.ID)) = some ["c1", "c2"] := by
  decide

/-- C28, evaluated at the failing input: after the successful `DeletePost(p, u1)` the
post `p` is still among the posts that `GetAllPosts(1, 10)` returns; `GetPostByID(p)`
returns the zero post without an error. -/
theorem GetAllPosts_returns_deleted_post :
    (scenarioWithUsers.DeletePost 50 "p" "u1").1 = none ∧
      ((scenarioWithUsers.DeletePost 50 "p" "u1").2.GetAllPosts (fun _ => 0) 1 10).map
        (fun r => r.toOption.map (fun x => x.1.map (fun p => p.ID))) = some (some ["q", "p"]) ∧
      ((scenarioWithUsers.DeletePost 50 "p" "u1").2.GetPostByID (fun _ => 0) "p").map
        (fun r => r.toOption.map (fun p => p.ID)) = some (some "") := by
  decide

/-- C24: whatever page and limit `GetAllPosts` is called with, the posts it returns are
the posts of the listed page, each with the tree that the fetcher builds from
`ListByPostID(post.ID, 0, 0)` and, for each comment of the result,
`ListByCommentID(comment.ID, 0, 0)`; neither call receives the page or the limit of the
request, and when the listing of a post does not fail the post is given as many comments
as are stored for it, not a page of them. -/
theorem GetAllPosts_fetches_unpaged (s : ChatroomService) (sched : Nat → Nat) (page limit : Int)
    (posts : List Post) (total : Int) (hlist : s.postRepo.List page limit = .ok (posts, total)) :
    s.GetAllPosts sched page limit =
        some (.ok (posts.map (fun p => fetchCommentsWithReplies p s.commentRepo), total)) ∧
      (∀ p : Post, fetchCommentsWithReplies p s.commentRepo =
        { p with
          Comments :=
            (((s.commentRepo.ListByPostID p.ID 0 0).toOption.map (fun r => r.1)).getD []).map
              (fun c => { c with
                Comments :=
                  ((s.commentRepo.ListByCommentID c.ID 0 0).toOption.map
                    (fun r => r.1)).getD [] }) }) ∧
      ∀ p ∈ posts, s.commentRepo.findErr "post" p.ID = false →
        (fetchCommentsWithReplies p s.commentRepo).Comments.length =
          (s.commentRepo.collection.filter (matchesRef "post" p.ID)).length := by
  refine ⟨?_, ?_, ?_⟩
  · unfold ChatroomService.GetAllPosts
    simp only [hlist, FetchPostsComments_eq]
    by_cases hW : (1 : Int) ≤ (posts.length : Int)
    · simp only [hW, if_true]
    · simp only [hW, if_false]
      have h0 : posts = [] := by
        cases posts with
        | nil => rfl
        | cons p ps => exact absurd (by simp) hW
      subst h0
      rfl
  · intro p
    have hrep : ∀ id : String, fetchNestedReplies id s.commentRepo =
        ((s.commentRepo.ListByCommentID id 0 0).toOption.map (fun r => r.1)).getD [] := by
      intro id
      unfold fetchNestedReplies
      cases s.commentRepo.ListByCommentID id 0 0 with
      | error e => rfl
      | ok r => obtain ⟨cs, n⟩ := r; rfl
    unfold fetchCommentsWithReplies
    simp only [← hrep]
    cases s.commentRepo.ListByPostID p.ID 0 0 with
    | error e => rfl
    | ok r => obtain ⟨cs, n⟩ := r; rfl
  · intro p _ hok
    rw [fetchCommentsWithReplies_eq]
    simp only [hok, List.length_map]
    exact (oldestFirst_perm _ _ _).length_eq

/-- Witness for C24: the request for page 2 with limit 1 lists post `p` alone, out of two
stored posts, and `p` comes back with both of its comments. -/
theorem GetAllPosts_fetches_unpaged_witness :
    scenarioService.postRepo.List 2 1 = .ok ([mkPost "p"], 2) ∧
      (scenarioService.GetAllPosts (fun _ => 0) 2 1 =
          some (.ok ([mkPost "p"].map
            (fun p => fetchCommentsWithReplies p scenarioService.commentRepo), 2)) ∧
        (∀ p : Post, fetchCommentsWithReplies p scenarioService.commentRepo =
          { p with
            Comments :=
              (((scenarioService.commentRepo.ListByPostID p.ID 0 0).toOption.map
                  (fun r => r.1)).getD []).map
                (fun c => { c with
                  Comments :=
                    ((scenarioService.commentRepo.ListByCommentID c.ID 0 0).toOption.map
                      (fun r => r.1)).getD [] }) }) ∧
        ∀ p ∈ [mkPost "p"], scenarioService.commentRepo.findErr "post" p.ID = false →
          (fetchCommentsWithReplies p scenarioService.commentRepo).Comments.length =
            (scenarioService.commentRepo.collection.filter (matchesRef "post" p.ID)).length) ∧
      (fetchCommentsWithReplies (mkPost "p") scenarioService.commentRepo).Comments.map
        (fun c => c.ID) = ["c1", "c2"] :=
  ⟨rfl, GetAllPosts_fetches_unpaged scenarioService (fun _ => 0) 2 1 [mkPost "p"] 2 rfl,
    by decide⟩

/-- The nil-aware slice of the replies agrees with `fetchNestedReplies`. -/
theorem fetchedReplies_getD (b : Bool) (commentID : String) (r : CommentRepository) :
    (fetchedReplies b commentID r).getD [] = fetchNestedReplies commentID r := by
  unfold fetchedReplies fetchNestedReplies CommentRepository.listedSlice
    CommentRepository.ListByCommentID
  cases r.listByRef "comment" commentID 0 0 with
  | error e => rfl
  | ok x =>
    obtain ⟨comments, total⟩ := x
    cases comments with
    | nil => cases b <;> rfl
    | cons c cs => rfl

/-- The nil-aware slice of the comments of a post agrees with
`fetchCommentsWithReplies`. -/
theorem fetchedComments_getD (b : Bool) (post : Post) (r : CommentRepository) :
    (fetchedComments b post r).getD [] = (fetchCommentsWithReplies post r).Comments := by
  unfold fetchedComments fetchCommentsWithReplies CommentRepository.listedSlice
    CommentRepository.ListByPostID
  cases r.listByRef "post" post.ID 0 0 with
  | error e => rfl
  | ok x =>
    obtain ⟨comments, total⟩ := x
    cases comments with
    | nil => cases b <;> rfl
    | cons c cs => rfl

/-- When the nil-aware listing is nil. -/
theorem listedSlice_isNone (r : CommentRepository) (b : Bool) (ref id : String) :
    (r.listedSlice b ref id).isNone =
      (r.findErr ref id || ((oldestFirst r.collection ref id).isEmpty && b)) := by
  unfold CommentRepository.listedSlice
  rw [listByRef_all]
  cases r.findErr ref id
  · simp only [Bool.false_eq_true, if_false, Bool.false_or]
    cases hb : ((oldestFirst r.collection ref id).isEmpty && b) <;> simp [hb]
  · simp

/-- C25, as stated, fails: no comment is stored, and the listing for post `p` fails; the
fetcher stores the nil slice as the comments of `p`, whether or not the driver turns an
empty result into an empty slice. The same holds for the replies of a comment `c1` whose
listing fails. -/
theorem fetcher_stores_nil_on_failure :
    (emptyService.commentRepo.collection.length = 0) ∧
      (fetchedComments false (mkPost "p") (emptyService.commentRepo.failOn "post" "p")).isNone
        = true ∧
      (fetchedComments true (mkPost "p") (emptyService.commentRepo.failOn "post" "p")).isNone
        = true ∧
      (fetchedReplies false "c1" (emptyService.commentRepo.failOn "comment" "c1")).isNone
        = true ∧
      (fetchedReplies true "c1" (emptyService.commentRepo.failOn "comment" "c1")).isNone
        = true := by
  refine ⟨rfl, rfl, rfl, rfl, rfl⟩

/-- C25, amended: the slice that the fetcher stores as the comments of a post, or as the
replies of a comment, is nil exactly when the listing call failed, or when the listing
found nothing and the driver leaves the nil variable nil for an empty result; in every
other case it is the slice of the listing. Read without the difference between nil and
empty it is the collection that `fetchCommentsWithReplies` and `fetchNestedReplies`
attach. -/
theorem fetcher_slice_nil_iff (emptyAsNil : Bool) (post : Post) (commentID : String)
    (r : CommentRepository) :
    (fetchedComments emptyAsNil post r).isNone =
        (r.findErr "post" post.ID ||
          ((oldestFirst r.collection "post" post.ID).isEmpty && emptyAsNil)) ∧
      (fetchedReplies emptyAsNil commentID r).isNone =
        (r.findErr "comment" commentID ||
          ((oldestFirst r.collection "comment" commentID).isEmpty && emptyAsNil)) ∧
      (fetchedComments emptyAsNil post r).getD [] = (fetchCommentsWithReplies post r).Comments ∧
      (fetchedReplies emptyAsNil commentID r).getD [] = fetchNestedReplies commentID r := by
  refine ⟨?_, ?_, fetchedComments_getD _ _ _, fetchedReplies_getD _ _ _⟩
  · unfold fetchedComments
    rw [← listedSlice_isNone]
    cases r.listedSlice emptyAsNil "post" post.ID <;> rfl
  · unfold fetchedReplies
    rw [listedSlice_isNone]

/-- Cutting a user out of a list in which the user occurs, and occurs once, shortens the
list by one. -/
theorem removeUser_length (u : String) :
    ∀ l : List String, l.Nodup → u ∈ l → (removeUser u l).length + 1 = l.length
  | [], _, h => by simp at h
  | x :: xs, hn, h => by
    by_cases hx : x = u
    · have hnot : u ∉ xs := by
        rw [← hx]; exact (List.nodup_cons.1 hn).1
      simp [removeUser, hx, removeUser_of_not_mem u xs hnot]
    · have hmem : u ∈ xs := by
        rcases List.mem_cons.1 h with h' | h'
        · exact absurd h'.symm hx
        · exact h'
      have := removeUser_length u xs (List.nodup_cons.1 hn).2 hmem
      simp [removeUser, hx, this]

/-- Writing a post with a property keeps the property of the stored posts with a given
id, when the property does not depend on `UpdatedAt`. -/
theorem Update_likes_inv {r : PostRepository} {id : String} (P : Int → List String → Prop)
    (now : Nat) (post : Post)
    (hinv : ∀ d ∈ r.collection, d.post.ID = id → P d.post.Likes d.post.LikedUserId)
    (hpost : post.ID = id → P post.Likes post.LikedUserId) :
    ∀ d ∈ (r.Update now post).2.collection, d.post.ID = id →
      P d.post.Likes d.post.LikedUserId := by
  unfold PostRepository.Update
  by_cases he : r.updateErr post.ID = true
  · simpa [he] using hinv
  · simp only [he, if_false]
    intro d hd hid
    rcases mem_updateOne _ _ d _ hd with h | ⟨x, _, _, rfl⟩
    · exact hinv d h hid
    · exact hpost hid

/-- C29: when every stored post with a given id has a like counter equal to the length
of its liked-user list and a list without duplicate user ids, the same holds of every
stored post with that id after any `LikePost` call, for any post and user, whether the
call takes the `AddLike` or the `RemoveLike` branch and whether or not it fails. -/
theorem LikePost_keeps_counter (s : ChatroomService) (id : String) (sched : Nat → Nat)
    (now : Nat) (postID userID : String)
    (hinv : ∀ d ∈ s.postRepo.collection, d.post.ID = id →
      d.post.Likes = (d.post.LikedUserId.length : Int) ∧ d.post.LikedUserId.Nodup) :
    ∀ d ∈ (s.LikePost sched now postID userID).2.postRepo.collection, d.post.ID = id →
      d.post.Likes = (d.post.LikedUserId.length : Int) ∧ d.post.LikedUserId.Nodup := by
  rw [LikePost_postRepo]
  cases hf : s.postRepo.FindByID postID with
  | error e => exact hinv
  | ok post =>
    have hpost : post.ID = id →
        post.Likes = (post.LikedUserId.length : Int) ∧ post.LikedUserId.Nodup := by
      rcases PostRepository.FindByID_cases hf with h | ⟨d, hd, h⟩
      · intro _; rw [h]; exact ⟨rfl, List.nodup_nil⟩
      · intro hid; rw [← h] at hid ⊢; exact hinv d hd hid
    by_cases hc : post.LikedUserId.contains userID = true
    · have hmem : userID ∈ post.LikedUserId := by simpa using hc
      simp only [hc, if_true, PostRepository.RemoveLike, hf]
      by_cases hpos : 0 < post.Likes
      · simp only [hpos, if_true]
        apply Update_likes_inv (fun n l => n = (l.length : Int) ∧ l.Nodup) now _ hinv
        intro hid
        obtain ⟨hl, hn⟩ := hpost hid
        have hlen := removeUser_length userID post.LikedUserId hn hmem
        refine ⟨?_, hn.sublist (removeUser_sublist userID post.LikedUserId)⟩
        show post.Likes - 1 = ((removeUser userID post.LikedUserId).length : Int)
        omega
      · simp only [hpos, if_false]
        apply Update_likes_inv (fun n l => n = (l.length : Int) ∧ l.Nodup) now _ hinv
        intro hid
        obtain ⟨hl, hn⟩ := hpost hid
        have hlen := removeUser_length userID post.LikedUserId hn hmem
        exact absurd (by omega) hpos
    · simp only [hc, if_false, PostRepository.AddLike, hf]
      apply Update_likes_inv (fun n l => n = (l.length : Int) ∧ l.Nodup) now _ hinv
      intro hid
      obtain ⟨hl, hn⟩ := hpost hid
      have hnot : userID ∉ post.LikedUserId := by simpa using hc
      refine ⟨?_, ?_⟩
      · show post.Likes + 1 = ((post.LikedUserId ++ [userID]).length : Int)
        rw [List.length_append, List.length_singleton]
        push_cast
        omega
      · show (post.LikedUserId ++ [userID]).Nodup
        rw [List.nodup_append]
        refine ⟨hn, List.nodup_singleton _, ?_⟩
        intro a ha hb
        rw [List.mem_singleton.1 hb] at ha
        exact hnot ha

/-- Witness for C29: post `p` is stored with counter 1 and liked by `u1`; after `u2`
likes it the stored post has counter 2 and the list `[u1, u2]`. -/
theorem LikePost_keeps_counter_witness :
    (likedService.postRepo.collection.map
        (fun d => (d.post.ID, d.post.Likes, d.post.LikedUserId)) = [("p", 1, ["u1"])]) ∧
      ((likedService.LikePost (fun _ => 0) 50 "p" "u2").2.postRepo.collection.map
        (fun d => (d.post.ID, d.post.Likes, d.post.LikedUserId)) = [("p", 2, ["u1", "u2"])]) ∧
      ((⟨{ mkPost "p" with Likes := 2, LikedUserId := ["u1", "u2"], UpdatedAt := 50 }, none⟩ :
          PostDoc).post.Likes = (2 : Int) ∧
        (⟨{ mkPost "p" with Likes := 2, LikedUserId := ["u1", "u2"], UpdatedAt := 50 }, none⟩ :
          PostDoc).post.LikedUserId.Nodup) :=
  ⟨by decide, by decide,
    LikePost_keeps_counter likedService "p" (fun _ => 0) 50 "p" "u2"
      (fun d hd _ => by
        have hd' : d = ⟨{ mkPost "p" with Likes := 1, LikedUserId := ["u1"] }, none⟩ :=
          List.mem_singleton.1 hd
        rw [hd']
        exact ⟨rfl, by decide⟩)
      ⟨{ mkPost "p" with Likes := 2, LikedUserId := ["u1", "u2"], UpdatedAt := 50 }, none⟩
      (by
        show _ ∈ [(⟨{ mkPost "p" with Likes := 2, LikedUserId := ["u1", "u2"], UpdatedAt := 50 },
          none⟩ : PostDoc)]
        exact List.mem_cons_self _ _)
      rfl⟩

/-! ## Theorems: the handlers and their events -/

/-- The service call `LikePost` returns, under every scheduler. -/
theorem LikePost_returns (s : ChatroomService) (sched : Nat → Nat) (now : Nat)
    (postID userID : String) : (s.LikePost sched now postID userID).1 ≠ none := by
  unfold ChatroomService.LikePost
  cases hf : s.postRepo.FindByID postID with
  | error e => simp
  | ok post =>
    by_cases hc : post.LikedUserId.contains userID = true
    · simp only [hc, if_true, FetchPostsComments_eq]
      cases (s.postRepo.RemoveLike now postID userID).1 <;> simp
    · simp only [hc, if_false, FetchPostsComments_eq]
      cases (s.postRepo.AddLike now postID userID).1 <;> simp

/-- The events of the handler `CreatePost`. -/
theorem CreatePost_events (s : ChatroomService) (newID : String) (now : Nat)
    (userID : Option String) (content : Option String) :
    typesOf (ChatroomHandler.CreatePost s newID now userID content).broadcasts =
      if userID.isSome && content.isSome && content != some "" &&
          (s.CreatePost newID now
            { Post.zero with Content := content.getD "", UserID := userID.getD "" }).1.isOk
      then [MsgTypeNewPost] else [] := by
  unfold ChatroomHandler.CreatePost typesOf
  cases userID with
  | none => rfl
  | some u =>
    cases content with
    | none => rfl
    | some c =>
      by_cases hc : c = ""
      · subst hc; rfl
      · have hc' : (c == "") = false := by simpa using hc
        have hc2 : (some c != some "") = true := by simpa using hc
        simp only [hc', Option.isSome_some, Option.getD_some, hc2, Bool.true_and]
        cases h : s.CreatePost newID now { Post.zero with Content := c, UserID := u } with
        | mk res svc => cases res <;> simp [h, Except.isOk, Except.toBool]

/-- The events of the handler `DeletePost`. -/
theorem DeletePost_events (s : ChatroomService) (now : Nat) (userID : Option String)
    (id : String) :
    typesOf (ChatroomHandler.DeletePost s now userID id).broadcasts =
      if userID.isSome && id != "" && (s.DeletePost now id (userID.getD "")).1.isNone
      then [MsgTypeDeletePost] else [] := by
  unfold ChatroomHandler.DeletePost typesOf
  cases userID with
  | none => rfl
  | some u =>
    by_cases hid : id = ""
    · subst hid; rfl
    · have h1 : (id == "") = false := by simpa using hid
      have h2 : (id != "") = true := by simpa using hid
      simp only [h1, h2, Option.isSome_some, Option.getD_some, Bool.true_and]
      cases h : s.DeletePost now id u with
      | mk err svc => cases err <;> simp [h]

/-- The events of the handler `CommentPost`. -/
theorem CommentPost_events (s : ChatroomService) (newID : String) (now : Nat)
    (userID : Option String) (id : String) (body : Option Comment) :
    typesOf (ChatroomHandler.CommentPost s newID now userID id body).broadcasts =
      if userID.isSome && id != "" && body.isSome && (body.getD Comment.zero).Content != "" &&
          (s.CommentPost newID now id
            { body.getD Comment.zero with
              UserID := userID.getD "", ReferenceID := id, Reference := "post" }
            (userID.getD "")).1.isOk
      then [MsgTypeNewComment] else [] := by
  unfold ChatroomHandler.CommentPost typesOf
  cases userID with
  | none => rfl
  | some u =>
    by_cases hid : id = ""
    · subst hid; rfl
    · have h1 : (id == "") = false := by simpa using hid
      have h2 : (id != "") = true := by simpa using hid
      cases body with
      | none => simp [h1]
      | some c =>
        by_cases hc : c.Content = ""
        · simp [h1, hc]
        · have hc1 : (c.Content == "") = false := by simpa using hc
          have hc2 : (c.Content != "") = true := by simpa using hc
          simp only [h1, h2, hc1, hc2, Option.isSome_some, Option.getD_some, Bool.true_and]
          cases h : s.CommentPost newID now id
              { c with UserID := u, ReferenceID := id, Reference := "post" } u with
          | mk res svc => cases res <;> simp [h, Except.isOk, Except.toBool]

/-- The events of the handler `ReplayComment`. -/
theorem ReplayComment_events (s : ChatroomService) (newID : String) (now : Nat)
    (userID : Option String) (id : String) (body : Option Comment) :
    typesOf (ChatroomHandler.ReplayComment s newID now userID id body).broadcasts =
      if userID.isSome && id != "" && body.isSome && (body.getD Comment.zero).Content != "" &&
          (s.ReplayComment newID now id
            { body.getD Comment.zero with
              UserID := userID.getD "", ReferenceID := id, Reference := "comment" }
            (userID.getD "")).1.isOk
      then [MsgTypeNewComment] else [] := by
  unfold ChatroomHandler.ReplayComment typesOf
  cases userID with
  | none => rfl
  | some u =>
    by_cases hid : id = ""
    · subst hid; rfl
    · have h1 : (id == "") = false := by simpa using hid
      have h2 : (id != "") = true := by simpa using hid
      cases body with
      | none => simp [h1]
      | some c =>
        by_cases hc : c.Content = ""
        · simp [h1, hc]
        · have hc1 : (c.Content == "") = false := by simpa using hc
          have hc2 : (c.Content != "") = true := by simpa using hc
          simp only [h1, h2, hc1, hc2, Option.isSome_some, Option.getD_some, Bool.true_and]
          cases h : s.ReplayComment newID now id
              { c with UserID := u, ReferenceID := id, Reference := "comment" } u with
          | mk res svc => cases res <;> simp [h, Except.isOk, Except.toBool]

/-- The events of the handler `DeleteComment`. -/
theorem DeleteComment_events (s : ChatroomService) (now : Nat) (userID : Option String)
    (id : String) :
    typesOf (ChatroomHandler.DeleteComment s now userID id).broadcasts =
      if userID.isSome && id != "" && (s.GetCommentID id).isOk &&
          (s.DeleteComment now id (userID.getD "")).1.isNone
      then [MsgTypeDelComment] else [] := by
  unfold ChatroomHandler.DeleteComment typesOf
  cases userID with
  | none => rfl
  | some u =>
    by_cases hid : id = ""
    · subst hid; rfl
    · have h1 : (id == "") = false := by simpa using hid
      have h2 : (id != "") = true := by simpa using hid
      simp only [h1, h2, Option.isSome_some, Option.getD_some, Bool.true_and]
      cases hg : s.GetCommentID id with
      | error e => simp [Except.isOk, Except.toBool]
      | ok comment =>
        cases h : s.DeleteComment now id u with
        | mk err svc => cases err <;> simp [h, Except.isOk, Except.toBool]

/-- The events of the handler `LikeComment`. -/
theorem LikeComment_events (s : ChatroomService) (now : Nat) (userID : Option String)
    (id : String) :
    typesOf (ChatroomHandler.LikeComment s now userID id).broadcasts =
      if userID.isSome && id != "" && (s.GetCommentID id).isOk &&
          (s.LikeComment now id (userID.getD "")).1.isNone
      then [MsgTypeLikeCmnt] else [] := by
  unfold ChatroomHandler.LikeComment typesOf
  cases userID with
  | none => rfl
  | some u =>
    by_cases hid : id = ""
    · subst hid; rfl
    · have h1 : (id == "") = false := by simpa using hid
      have h2 : (id != "") = true := by simpa using hid
      simp only [h1, h2, Option.isSome_some, Option.getD_some, Bool.true_and]
      cases hg : s.GetCommentID id with
      | error e => simp [Except.isOk, Except.toBool]
      | ok comment =>
        cases h : s.LikeComment now id u with
        | mk err svc => cases err <;> simp [h, Except.isOk, Except.toBool]

/-- The events of the handler `LikePost`, which returns under every scheduler. -/
theorem LikePost_events (s : ChatroomService) (sched : Nat → Nat) (now : Nat)
    (userID : Option String) (id : String) :
    (ChatroomHandler.LikePost s sched now userID id).map (fun r => typesOf r.broadcasts) =
      some (if userID.isSome && id != "" &&
          ((s.LikePost sched now id (userID.getD "")).1.map (fun r => r.isOk)).getD false
        then [MsgTypeLikePost] else []) := by
  unfold ChatroomHandler.LikePost typesOf
  cases userID with
  | none => rfl
  | some u =>
    by_cases hid : id = ""
    · subst hid; rfl
    · have h1 : (id == "") = false := by simpa using hid
      have h2 : (id != "") = true := by simpa using hid
      simp only [h1, h2, Option.isSome_some, Option.getD_some, Bool.true_and]
      have hret := LikePost_returns s sched now id u
      cases h : s.LikePost sched now id u with
      | mk res svc =>
        rw [h] at hret
        cases res with
        | none => exact absurd rfl hret
        | some r => cases r <;> simp [Except.isOk, Except.toBool]

/-- C23: for each of the seven mutating handlers, the messages handed to
`broadcastMessage` are one message with the type tag of the operation when the request
passes the checks of the handler (an authenticated user, a path id and a decodable body
with a content where the handler asks for them) and every service call of the handler
returns without an error, and no message at all in every other case. -/
theorem handlers_broadcast_once (s : ChatroomService) (sched : Nat → Nat) (newID : String)
    (now : Nat) (userID : Option String) (id : String) (content : Option String)
    (body : Option Comment) :
    (typesOf (ChatroomHandler.CreatePost s newID now userID content).broadcasts =
      if userID.isSome && content.isSome && content != some "" &&
          (s.CreatePost newID now
            { Post.zero with Content := content.getD "", UserID := userID.getD "" }).1.isOk
      then ["new_post"] else []) ∧
    (typesOf (ChatroomHandler.DeletePost s now userID id).broadcasts =
      if userID.isSome && id != "" && (s.DeletePost now id (userID.getD "")).1.isNone
      then ["delete_post"] else []) ∧
    (typesOf (ChatroomHandler.CommentPost s newID now userID id body).broadcasts =
      if userID.isSome && id != "" && body.isSome && (body.getD Comment.zero).Content != "" &&
          (s.CommentPost newID now id
            { body.getD Comment.zero with
              UserID := userID.getD "", ReferenceID := id, Reference := "post" }
            (userID.getD "")).1.isOk
      then ["new_comment"] else []) ∧
    (typesOf (ChatroomHandler.ReplayComment s newID now userID id body).broadcasts =
      if userID.isSome && id != "" && body.isSome && (body.getD Comment.zero).Content != "" &&
          (s.ReplayComment newID now id
            { body.getD Comment.zero with
              UserID := userID.getD "", ReferenceID := id, Reference := "comment" }
            (userID.getD "")).1.isOk
      then ["new_comment"] else []) ∧
    (typesOf (ChatroomHandler.DeleteComment s now userID id).broadcasts =
      if userID.isSome && id != "" && (s.GetCommentID id).isOk &&
          (s.DeleteComment now id (userID.getD "")).1.isNone
      then ["delete_comment"] else []) ∧
    ((ChatroomHandler.LikePost s sched now userID id).map (fun r => typesOf r.broadcasts) =
      some (if userID.isSome && id != "" &&
          ((s.LikePost sched now id (userID.getD "")).1.map (fun r => r.isOk)).getD false
        then ["like_post"] else [])) ∧
    (typesOf (ChatroomHandler.LikeComment s now userID id).broadcasts =
      if userID.isSome && id != "" && (s.GetCommentID id).isOk &&
          (s.LikeComment now id (userID.getD "")).1.isNone
      then ["like_comment"] else []) :=
  ⟨CreatePost_events s newID now userID content, DeletePost_events s now userID id,
    CommentPost_events s newID now userID id body, ReplayComment_events s newID now userID id body,
    DeleteComment_events s now userID id, LikePost_events s sched now userID id,
    LikeComment_events s now userID id⟩

/-- C27, evaluated at the failing input: post `p` exists and `u1` posts a comment with
the content `nice`; the comment is stored under the identifier `c9` that the repository
gives it, and the comment that `CommentPost` returns, and that the handler broadcasts in
the `new_comment` event, has the empty identifier. The same happens with the reply that
`u1` then posts to `c9`, stored under `c10`. -/
theorem CommentPost_returns_without_id :
    ((createdService.CommentPost "c9" 6 "p" niceComment "u1").1.toOption.map (fun c => c.ID)
        = some "") ∧
      ((createdService.CommentPost "c9" 6 "p" niceComment "u1").2.commentRepo.collection.map
        (fun c => (c.ID, c.Content)) = [("c9", "nice")]) ∧
      ((ChatroomHandler.CommentPost createdService "c9" 6 (some "u1") "p"
          (some niceComment)).broadcasts.map (fun m => (m.Typ, m.Payload.commentID))
        = [("new_comment", some "")]) ∧
      (((createdService.CommentPost "c9" 6 "p" niceComment "u1").2.ReplayComment "c10" 7 "c9"
          niceComment "u1").1.toOption.map (fun c => c.ID) = some "") ∧
      (((createdService.CommentPost "c9" 6 "p" niceComment "u1").2.ReplayComment "c10" 7 "c9"
          niceComment "u1").2.commentRepo.collection.map (fun c => (c.ID, c.ReferenceID))
        = [("c9", "p"), ("c10", "c9")]) ∧
      ((ChatroomHandler.ReplayComment (createdService.CommentPost "c9" 6 "p" niceComment "u1").2
          "c10" 7 (some "u1") "c9" (some niceComment)).broadcasts.map
            (fun m => (m.Typ, m.Payload.commentID))
        = [("new_comment", some "")]) := by
  decide

/-- C30, evaluated at the failing input: post `p` has been created by `u1` and nobody
has liked it; `u1` likes it. The call succeeds and the post is stored with counter 1 and
the list `[u1]`, while the post that `LikePost` returns, and that the handler broadcasts
in the `like_post` event, has counter 1 and an empty list. When `u2` likes the post next,
the stored list is `[u1, u2]` and the returned list is `[u1]`. -/
theorem LikePost_returns_stale_list :
    (createdService.postRepo.collection.map
        (fun d => (d.post.ID, d.post.Likes, d.post.LikedUserId)) = [("p", 0, [])]) ∧
      ((createdService.LikePost (fun _ => 0) 6 "p" "u1").1.map
          (fun r => r.toOption.map (fun p => (p.Likes, p.LikedUserId))) = some (some (1, []))) ∧
      ((createdService.LikePost (fun _ => 0) 6 "p" "u1").2.postRepo.collection.map
        (fun d => (d.post.ID, d.post.Likes, d.post.LikedUserId)) = [("p", 1, ["u1"])]) ∧
      ((ChatroomHandler.LikePost createdService (fun _ => 0) 6 (some "u1") "p").map
          (fun r => r.broadcasts.map (fun m => (m.Typ, m.Payload.postLikes)))
        = some [("like_post", some (1, []))]) ∧
      (((createdService.LikePost (fun _ => 0) 6 "p" "u1").2.LikePost (fun _ => 0) 7 "p"
          "u2").1.map (fun r => r.toOption.map (fun p => (p.Likes, p.LikedUserId)))
        = some (some (2, ["u1"]))) ∧
      (((createdService.LikePost (fun _ => 0) 6 "p" "u1").2.LikePost (fun _ => 0) 7 "p"
          "u2").2.postRepo.collection.map
            (fun d => (d.post.ID, d.post.Likes, d.post.LikedUserId))
        = [("p", 2, ["u1", "u2"])]) := by
  decide

/-! ## Theorems: the lock -/

/-- One entry is at most the sum. -/
theorem le_sum_map {α : Type} (f : α → Nat) :
    ∀ (l : List α) (i : Nat) (a : α), l[i]? = some a → f a ≤ (l.map f).sum
  | [], i, a, h => by simp at h
  | x :: l, 0, a, h => by
    simp at h; subst h; simp
  | x :: l, i + 1, a, h => by
    simp only [List.getElem?_cons_succ] at h
    have := le_sum_map f l i a h
    simp only [List.map_cons, List.sum_cons]
    omega

/-- Two entries at different positions are together at most the sum. -/
theorem two_le_sum_map {α : Type} (f : α → Nat) :
    ∀ (l : List α) (i j : Nat) (a b : α), i ≠ j → l[i]? = some a → l[j]? = some b →
      f a + f b ≤ (l.map f).sum
  | [], i, j, a, b, _, h, _ => by simp at h
  | x :: l, 0, 0, a, b, hij, _, _ => absurd rfl hij
  | x :: l, 0, j + 1, a, b, _, hi, hj => by
    simp at hi; subst hi
    simp only [List.getElem?_cons_succ] at hj
    have := le_sum_map f l j b hj
    simp only [List.map_cons, List.sum_cons]
    omega
  | x :: l, i + 1, 0, a, b, _, hi, hj => by
    simp at hj; subst hj
    simp only [List.getElem?_cons_succ] at hi
    have := le_sum_map f l i a hi
    simp only [List.map_cons, List.sum_cons]
    omega
  | x :: l, i + 1, j + 1, a, b, hij, hi, hj => by
    simp only [List.getElem?_cons_succ] at hi hj
    have := two_le_sum_map f l i j a b (fun e => hij (by rw [e])) hi hj
    simp only [List.map_cons, List.sum_cons]
    omega

/-- At the start the lock agrees with the goroutines: nobody holds it. -/
theorem start_lockInv (h : ChatroomHandler) (calls : List RegistryCall) :
    LockInv (Concurrent.start h calls) := by
  have hE : ∀ l : List RegistryCall,
      ((l.map (fun call => (⟨call, .waiting⟩ : Goroutine))).map holdsExclusive).sum = 0 := by
    intro l
    induction l with
    | nil => rfl
    | cons x xs ih => simpa [holdsExclusive] using ih
  have hS : ∀ l : List RegistryCall,
      ((l.map (fun call => (⟨call, .waiting⟩ : Goroutine))).map holdsShared).sum = 0 := by
    intro l
    induction l with
    | nil => rfl
    | cons x xs ih => simpa [holdsShared] using ih
  exact ⟨by simpa [Concurrent.start] using hE calls, by simpa [Concurrent.start] using hS calls,
    by simp [Concurrent.start]⟩

/-- A goroutine that is not holding the lock is not counted as a writer. -/
theorem holdsExclusive_of_not_holding (call : RegistryCall) (phase : LockPhase)
    (h : phase ≠ .holding) : holdsExclusive ⟨call, phase⟩ = 0 := by
  simp [holdsExclusive, h]

/-- A goroutine that is not holding the lock is not counted as a reader. -/
theorem holdsShared_of_not_holding (call : RegistryCall) (phase : LockPhase)
    (h : phase ≠ .holding) : holdsShared ⟨call, phase⟩ = 0 := by
  simp [holdsShared, h]

/-- The counts of a goroutine that holds the lock. -/
theorem holds_of_holding (call : RegistryCall) :
    holdsExclusive ⟨call, .holding⟩ = (if call.exclusive = true then 1 else 0) ∧
      holdsShared ⟨call, .holding⟩ = (if call.exclusive = true then 0 else 1) := by
  cases h : call.exclusive <;> simp [holdsExclusive, holdsShared, h]

/-- The lock invariant from its three parts. -/
theorem lockInv_mk (mux : RWMutex) (handler : ChatroomHandler) (written : List (Conn × String))
    (goroutines : List Goroutine)
    (h1 : (goroutines.map holdsExclusive).sum = if mux.w = true then 1 else 0)
    (h2 : (goroutines.map holdsShared).sum = mux.readerCount)
    (h3 : mux.w = true → mux.readerCount = 0) :
    LockInv ⟨mux, handler, written, goroutines⟩ :=
  ⟨h1, h2, h3⟩

/-- A step keeps the lock in agreement with the goroutines. -/
theorem step_lockInv (c : Concurrent) (i : Nat) (hinv : LockInv c) : LockInv (c.step i) := by
  unfold Concurrent.step
  cases hg : c.goroutines[i]? with
  | none => exact hinv
  | some g =>
    obtain ⟨call, phase⟩ := g
    have hE := fun b => sum_map_set holdsExclusive b c.goroutines i _ hg
    have hS := fun b => sum_map_set holdsShared b c.goroutines i _ hg
    have hw := hinv.writers
    have hr := hinv.readers
    have ha := hinv.alone
    have hgE := le_sum_map holdsExclusive c.goroutines i _ hg
    have hgS := le_sum_map holdsShared c.goroutines i _ hg
    cases phase with
    | returned => exact hinv
    | waiting =>
      have hE' := hE ⟨call, .holding⟩
      have hS' := hS ⟨call, .holding⟩
      rw [holdsExclusive_of_not_holding call .waiting (by decide), (holds_of_holding call).1]
        at hE'
      rw [holdsShared_of_not_holding call .waiting (by decide), (holds_of_holding call).2]
        at hS'
      by_cases hx : call.exclusive = true
      · rw [if_pos hx] at hE' hS'
        by_cases hfree : (!c.clientsMux.w && c.clientsMux.readerCount == 0) = true
        · simp only [hx, hfree, if_true]
          have hfw : c.clientsMux.w = false := by
            cases hcw : c.clientsMux.w
            · rfl
            · rw [hcw] at hfree; simp at hfree
          have hfr : c.clientsMux.readerCount = 0 := by
            rw [hfw] at hfree; simpa using hfree
          rw [hfw, if_neg (by decide)] at hw
          apply lockInv_mk
          · show ((c.goroutines.set i ⟨call, .holding⟩).map holdsExclusive).sum = 1
            omega
          · show ((c.goroutines.set i ⟨call, .holding⟩).map holdsShared).sum =
              c.clientsMux.readerCount
            omega
          · intro _
            exact hfr
        · simp only [hx, hfree, if_true, Bool.false_eq_true, if_false]
          exact hinv
      · have hx' : call.exclusive = false := by
          cases hc : call.exclusive
          · rfl
          · exact absurd hc hx
        rw [if_neg hx] at hE' hS'
        by_cases hfree : (!c.clientsMux.w) = true
        · simp only [hx', hfree, if_true, Bool.false_eq_true, if_false]
          have hfw : c.clientsMux.w = false := by
            cases hcw : c.clientsMux.w
            · rfl
            · rw [hcw] at hfree; simp at hfree
          apply lockInv_mk
          · show ((c.goroutines.set i ⟨call, .holding⟩).map holdsExclusive).sum =
              if c.clientsMux.w = true then 1 else 0
            omega
          · show ((c.goroutines.set i ⟨call, .holding⟩).map holdsShared).sum =
              c.clientsMux.readerCount + 1
            omega
          · intro hcontra
            have hcontra' : c.clientsMux.w = true := hcontra
            rw [hfw] at hcontra'
            exact absurd hcontra' (by decide)
        · simp only [hx', hfree, Bool.false_eq_true, if_false]
          exact hinv
    | holding =>
      have hE' := hE ⟨call, .returned⟩
      have hS' := hS ⟨call, .returned⟩
      rw [holdsExclusive_of_not_holding call .returned (by decide), (holds_of_holding call).1]
        at hE'
      rw [holdsShared_of_not_holding call .returned (by decide), (holds_of_holding call).2]
        at hS'
      rw [(holds_of_holding call).1] at hgE
      rw [(holds_of_holding call).2] at hgS
      by_cases hx : call.exclusive = true
      · rw [if_pos hx] at hE' hS' hgE hgS
        have hwt : c.clientsMux.w = true := by
          cases hcw : c.clientsMux.w
          · rw [hcw, if_neg (by decide)] at hw; omega
          · rfl
        rw [hwt, if_pos rfl] at hw
        simp only [hx, if_true]
        apply lockInv_mk
        · show ((c.goroutines.set i ⟨call, .returned⟩).map holdsExclusive).sum =
            if false = true then 1 else 0
          rw [if_neg (by decide)]
          omega
        · show ((c.goroutines.set i ⟨call, .returned⟩).map holdsShared).sum =
            c.clientsMux.readerCount
          omega
        · intro hcontra
          exact absurd (show false = true from hcontra) (by decide)
      · have hx' : call.exclusive = false := by
          cases hc : call.exclusive
          · rfl
          · exact absurd hc hx
        rw [if_neg hx] at hE' hS' hgE hgS
        have hwf : c.clientsMux.w = false := by
          cases hcw : c.clientsMux.w
          · rfl
          · have := ha hcw; omega
        rw [hwf, if_neg (by decide)] at hw
        simp only [hx', Bool.false_eq_true, if_false]
        apply lockInv_mk
        · show ((c.goroutines.set i ⟨call, .returned⟩).map holdsExclusive).sum =
            if c.clientsMux.w = true then 1 else 0
          rw [hwf, if_neg (by decide)]
          omega
        · show ((c.goroutines.set i ⟨call, .returned⟩).map holdsShared).sum =
            c.clientsMux.readerCount - 1
          omega
        · intro hcontra
          have hcontra' : c.clientsMux.w = true := hcontra
          rw [hwf] at hcontra'
          exact absurd hcontra' (by decide)

/-- Every run keeps the lock in agreement with the goroutines. -/
theorem run_lockInv (schedule : List Nat) :
    ∀ c : Concurrent, LockInv c → LockInv (c.run schedule) := by
  induction schedule with
  | nil => intro c h; exact h
  | cons i rest ih =>
    intro c h
    exact ih (c.step i) (step_lockInv c i h)

/-- A call that takes the lock with `RLock()` is a `broadcastMessage`. -/
theorem broadcast_of_not_exclusive (call : RegistryCall) (h : call.exclusive = false) :
    ∃ messageJSON, call = .broadcastMessage messageJSON := by
  cases call with
  | registerClient userID conn => exact absurd (show true = false from h) (by decide)
  | unregisterClient userID conn => exact absurd (show true = false from h) (by decide)
  | broadcastMessage messageJSON => exact ⟨messageJSON, rfl⟩

/-- C26: whatever calls of `registerClient`, `unregisterClient` and `broadcastMessage`
are made at the same time and however their steps are interleaved, two different
goroutines that are inside their methods at the same moment, between taking the lock and
releasing it, are both calls of `broadcastMessage`: a `registerClient` or an
`unregisterClient` is never inside together with any other call. -/
theorem clientsMux_excludes_writers (h : ChatroomHandler) (calls : List RegistryCall)
    (schedule : List Nat) (i j : Nat) (gi gj : Goroutine) (hij : i ≠ j)
    (hi : ((Concurrent.start h calls).run schedule).goroutines[i]? = some gi)
    (hj : ((Concurrent.start h calls).run schedule).goroutines[j]? = some gj)
    (hgi : gi.phase = .holding) (hgj : gj.phase = .holding) :
    (∃ messageJSON, gi.call = .broadcastMessage messageJSON) ∧
      (∃ messageJSON, gj.call = .broadcastMessage messageJSON) := by
  have hinv := run_lockInv schedule _ (start_lockInv h calls)
  have hw := hinv.writers
  have hr := hinv.readers
  have ha := hinv.alone
  have h2E := two_le_sum_map holdsExclusive _ i j gi gj hij hi hj
  have h2S := two_le_sum_map holdsShared _ i j gi gj hij hi hj
  have hwle : (if ((Concurrent.start h calls).run schedule).clientsMux.w = true then 1 else 0)
      ≤ 1 := by split <;> omega
  cases hxi : gi.call.exclusive <;> cases hxj : gj.call.exclusive
  · exact ⟨broadcast_of_not_exclusive _ hxi, broadcast_of_not_exclusive _ hxj⟩
  · exfalso
    simp only [holdsExclusive, holdsShared, hgi, hgj, hxi, hxj] at h2E h2S
    simp at h2E h2S
    cases hcw : ((Concurrent.start h calls).run schedule).clientsMux.w
    · rw [hcw] at hw; simp at hw; omega
    · have := ha hcw; omega
  · exfalso
    simp only [holdsExclusive, holdsShared, hgi, hgj, hxi, hxj] at h2E h2S
    simp at h2E h2S
    cases hcw : ((Concurrent.start h calls).run schedule).clientsMux.w
    · rw [hcw] at hw; simp at hw; omega
    · have := ha hcw; omega
  · exfalso
    simp only [holdsExclusive, hgi, hgj, hxi, hxj] at h2E
    simp at h2E
    omega

/-- Witness for C26: two broadcasts and a registration are called at the same time; after
the two broadcasts have taken the lock both are inside, and the registration, scheduled
next, is still waiting. When the registration is scheduled first it is inside alone and
both broadcasts wait. -/
theorem clientsMux_excludes_writers_witness :
    ((twoBroadcasts.run [0, 1, 2]).goroutines.map (fun g => (g.call.exclusive, g.phase)) =
        [(false, .holding), (false, .holding), (true, .waiting)]) ∧
      ((twoBroadcasts.run [2, 0, 1]).goroutines.map (fun g => (g.call.exclusive, g.phase)) =
        [(false, .waiting), (false, .waiting), (true, .holding)]) ∧
      ((∃ messageJSON, (⟨.broadcastMessage (some "m1"), .holding⟩ : Goroutine).call =
          .broadcastMessage messageJSON) ∧
        (∃ messageJSON, (⟨.broadcastMessage (some "m2"), .holding⟩ : Goroutine).call =
          .broadcastMessage messageJSON)) :=
  ⟨by decide, by decide,
    clientsMux_excludes_writers threeUsers
      [.broadcastMessage (some "m1"), .broadcastMessage (some "m2"), .registerClient "D" 4]
      [0, 1, 2] 0 1 ⟨.broadcastMessage (some "m1"), .holding⟩
      ⟨.broadcastMessage (some "m2"), .holding⟩ (by decide) rfl rfl rfl rfl⟩

end Anamalala
